import Mathlib

/-!
# MACSio MIF baton protocol (`macsio/macsio_mif.c`)

A shallow embedding of the group partitioner, the rank query utilities and the
baton protocol engine of `macsio_mif.c`, followed by theorems about them.

Conventions of the embedding:

* a C `int` is an `Int` kept in the 32-bit two's-complement range by `wrapInt`
  after every arithmetic operation;
* C's `/` and `%` truncate towards zero (`Int.tdiv`, `Int.tmod`) and a zero
  divisor is a fault (`Except.error CFault.divByZero`);
* a `void *` is an address (`Ptr`, a natural number), the null pointer being `0`;
* calls that leave the translation unit (MPI, the three callbacks, the SCR
  router) are recorded in an effect trace; the transport is passed as an
  explicit state.
-/

namespace MACSio

/-! ## C integers -/

/-- Largest value of a C `int`. -/
def INT_MAX : Int := 2147483647

/-- Reduction of a mathematical integer to the 32-bit two's-complement range. -/
def wrapInt (x : Int) : Int := (x + 2147483648) % 4294967296 - 2147483648

/-- Faults of the C abstract machine that the embedding tracks. -/
inductive CFault where
  | divByZero
  deriving DecidableEq, Repr

/-- C `a + b` on `int`. -/
def cAdd (a b : Int) : Int := wrapInt (a + b)

/-- C `a - b` on `int`. -/
def cSub (a b : Int) : Int := wrapInt (a - b)

/-- C `a * b` on `int`. -/
def cMul (a b : Int) : Int := wrapInt (a * b)

/-- C `a / b` on `int`: truncating division, a fault when `b` is zero. -/
def cDiv (a b : Int) : Except CFault Int :=
  if b = 0 then .error .divByZero else .ok (wrapInt (Int.tdiv a b))

/-- C `a % b` on `int`: remainder of truncating division, a fault when `b` is zero. -/
def cMod (a b : Int) : Except CFault Int :=
  if b = 0 then .error .divByZero else .ok (wrapInt (Int.tmod a b))

/-! ## Constants and types -/

/-- Macro `MACSIO_MIF_BATON_OK`. -/
def MACSIO_MIF_BATON_OK : Int := 0

/-- Macro `MACSIO_MIF_BATON_ERR`. -/
def MACSIO_MIF_BATON_ERR : Int := 1

/-- Macro `MACSIO_MIF_MIFMAX`. -/
def MACSIO_MIF_MIFMAX : Int := -1

/-- Macro `MACSIO_MIF_MIFAUTO`. -/
def MACSIO_MIF_MIFAUTO : Int := -2

/-- Value of `MPI_SUCCESS` (from `mpi.h`; the non-MPI build stores the literal `0`). -/
def MPI_SUCCESS : Int := 0

/-- A `void *`: an address, `0` being the null pointer. -/
abbrev Ptr := Nat

/-- The null pointer (`return 0` in a function returning a pointer). -/
def NULL : Ptr := 0

/-- Modelled from the spec: `MACSIO_MIF_ioFlags_t` is declared in `macsio_mif.h`,
which is not among the sources; the two flags are the ones `macsio_mif.c` reads
(`do_wr`: the operation is a write, `use_scr`: checkpoint routing is requested). -/
structure MACSIO_MIF_ioFlags_t where
  do_wr : Bool
  use_scr : Bool
  deriving DecidableEq, Repr

/-- Type `MACSIO_MIF_CreateCB`: `createCb(fname, nsname, clientData)`. -/
abbrev MACSIO_MIF_CreateCB := String → String → Ptr → Ptr

/-- Type `MACSIO_MIF_OpenCB`: `openCb(fname, nsname, ioFlags, clientData)`. -/
abbrev MACSIO_MIF_OpenCB := String → String → MACSIO_MIF_ioFlags_t → Ptr → Ptr

/-- Type `MACSIO_MIF_CloseCB`: `closeCb(file, clientData)`; its result is discarded. -/
abbrev MACSIO_MIF_CloseCB := Ptr → Ptr → Unit

/-- The integer fields that lines 124-155 of `MACSIO_MIF_Init` compute. -/
structure Partition where
  commSize : Int
  rankInComm : Int
  numGroups : Int
  numGroupsWithExtraProc : Int
  groupSize : Int
  groupRank : Int
  commSplit : Int
  rankInGroup : Int
  procBeforeMe : Int
  procAfterMe : Int
  deriving DecidableEq, Repr

/-- Struct `MACSIO_MIF_baton_t`. -/
structure MACSIO_MIF_baton_t where
  ioFlags : MACSIO_MIF_ioFlags_t
  mpiComm : Int
  commSize : Int
  rankInComm : Int
  numGroups : Int
  numGroupsWithExtraProc : Int
  groupSize : Int
  groupRank : Int
  commSplit : Int
  rankInGroup : Int
  procBeforeMe : Int
  procAfterMe : Int
  mifErr : Int
  mpiErr : Int
  mpiTag : Int
  createCb : MACSIO_MIF_CreateCB
  openCb : MACSIO_MIF_OpenCB
  closeCb : MACSIO_MIF_CloseCB
  clientData : Ptr

/-! ## `MACSIO_MIF_Init` -/

/-- Lines 124-155 of `MACSIO_MIF_Init`: the group partitioner. `commSize` and
`rankInComm` are what `MPI_Comm_size` and `MPI_Comm_rank` store. -/
def MACSIO_MIF_Init_partition (numFiles commSize rankInComm : Int) :
    Except CFault Partition := do
  let numGroups := numFiles
  let procBeforeMe : Int := -1
  let procAfterMe : Int := -1
  let groupSize ← cDiv commSize numGroups
  let numGroupsWithExtraProc ← cMod commSize numGroups
  let commSplit := cMul numGroupsWithExtraProc (cAdd groupSize 1)
  let (groupRank, rankInGroup, procAfterMe) ←
    (if rankInComm < commSplit then do
      let groupRank ← cDiv rankInComm (cAdd groupSize 1)
      let rankInGroup ← cMod rankInComm (cAdd groupSize 1)
      let procAfterMe := if rankInGroup < groupSize then cAdd rankInComm 1 else procAfterMe
      pure (groupRank, rankInGroup, procAfterMe)
    else do
      let q ← cDiv (cSub rankInComm commSplit) groupSize
      let groupRank := cAdd numGroupsWithExtraProc q
      let rankInGroup ← cMod (cSub rankInComm commSplit) groupSize
      let procAfterMe :=
        if rankInGroup < cSub groupSize 1 then cAdd rankInComm 1 else procAfterMe
      pure (groupRank, rankInGroup, procAfterMe) : Except CFault (Int × Int × Int))
  let procBeforeMe := if rankInGroup > 0 then cSub rankInComm 1 else procBeforeMe
  pure { commSize := commSize, rankInComm := rankInComm, numGroups := numGroups,
         numGroupsWithExtraProc := numGroupsWithExtraProc, groupSize := groupSize,
         groupRank := groupRank, commSplit := commSplit, rankInGroup := rankInGroup,
         procBeforeMe := procBeforeMe, procAfterMe := procAfterMe }

/-- Function `MACSIO_MIF_Init`. An absent callback is `none`; the result `none` is
the null return of line 158. -/
def MACSIO_MIF_Init (numFiles : Int) (ioFlags : MACSIO_MIF_ioFlags_t)
    (mpiComm commSize rankInComm : Int) (mpiTag : Int)
    (createCb : Option MACSIO_MIF_CreateCB) (openCb : Option MACSIO_MIF_OpenCB)
    (closeCb : Option MACSIO_MIF_CloseCB) (clientData : Ptr) :
    Except CFault (Option MACSIO_MIF_baton_t) := do
  let p ← MACSIO_MIF_Init_partition numFiles commSize rankInComm
  match createCb, openCb, closeCb with
  | some createCb, some openCb, some closeCb =>
    pure (some
      { ioFlags := ioFlags, mpiComm := mpiComm, commSize := p.commSize,
        rankInComm := p.rankInComm, numGroups := p.numGroups,
        numGroupsWithExtraProc := p.numGroupsWithExtraProc, groupSize := p.groupSize,
        groupRank := p.groupRank, commSplit := p.commSplit,
        rankInGroup := p.rankInGroup, procBeforeMe := p.procBeforeMe,
        procAfterMe := p.procAfterMe, mifErr := MACSIO_MIF_BATON_OK,
        mpiErr := MPI_SUCCESS, mpiTag := mpiTag, createCb := createCb,
        openCb := openCb, closeCb := closeCb, clientData := clientData })
  | _, _, _ => pure none

/-! ## Rank query utilities -/

/-- Function `MACSIO_MIF_RankOfGroup`. -/
def MACSIO_MIF_RankOfGroup (Bat : MACSIO_MIF_baton_t) (rankInComm : Int) :
    Except CFault Int :=
  if rankInComm < Bat.commSplit then
    cDiv rankInComm (cAdd Bat.groupSize 1)
  else do
    let q ← cDiv (cSub rankInComm Bat.commSplit) Bat.groupSize
    pure (cAdd Bat.numGroupsWithExtraProc q)

/-- Function `MACSIO_MIF_RankInGroup`. -/
def MACSIO_MIF_RankInGroup (Bat : MACSIO_MIF_baton_t) (rankInComm : Int) :
    Except CFault Int :=
  if rankInComm < Bat.commSplit then
    cMod rankInComm (cAdd Bat.groupSize 1)
  else
    cMod (cSub rankInComm Bat.commSplit) Bat.groupSize

/-! ## Closed forms of the partition (floor division, no wrap-around)

The formulas of the specification (sections 3 and 4.1) over the mathematical integers,
for a nominal group size `s` and `m` oversized groups. The theorems relate them to
`MACSIO_MIF_Init`. -/

/-- Group of rank `r` for nominal group size `s` and `m` oversized groups. -/
def grpOf (s m r : Int) : Int :=
  if r < m * (s + 1) then r / (s + 1) else m + (r - m * (s + 1)) / s

/-- Position of rank `r` inside its group. -/
def posOf (s m r : Int) : Int :=
  if r < m * (s + 1) then r % (s + 1) else (r - m * (s + 1)) % s

/-- First rank of group `g`: `g*(groupSize+1)` for an oversized group and
`commSplit + (g-remainder)*groupSize` otherwise. -/
def firstRank (s m g : Int) : Int :=
  if g < m then g * (s + 1) else m * (s + 1) + (g - m) * s

/-- Number of members of group `g`. -/
def groupLen (s m g : Int) : Int := if g < m then s + 1 else s

/-- Successor of rank `r` in its group, `-1` when there is none. -/
def succOf (s m r : Int) : Int :=
  if r < m * (s + 1) then (if posOf s m r < s then r + 1 else -1)
  else (if posOf s m r < s - 1 then r + 1 else -1)

/-- Predecessor of rank `r` in its group, `-1` when there is none. -/
def predOf (s m r : Int) : Int := if posOf s m r > 0 then r - 1 else -1

/-- The partition record in closed form, for `numGroups = k` and `commSize = n`. -/
def partitionRef (k n r : Int) : Partition :=
  { commSize := n, rankInComm := r, numGroups := k,
    numGroupsWithExtraProc := n % k, groupSize := n / k,
    groupRank := grpOf (n / k) (n % k) r, commSplit := n % k * (n / k + 1),
    rankInGroup := posOf (n / k) (n % k) r,
    procBeforeMe := predOf (n / k) (n % k) r,
    procAfterMe := succOf (n / k) (n % k) r }

/-! ## Observations on `MACSIO_MIF_Init` used to state the partition properties -/

/-- The ranks `0 .. commSize-1` of the communicator, in ascending order. -/
def allRanks (commSize : Int) : List Int := (List.range commSize.toNat).map Int.ofNat

/-- The group indices `0 .. numGroups-1`, in ascending order. -/
def allGroups (numGroups : Int) : List Int := (List.range numGroups.toNat).map Int.ofNat

/-- The `groupRank` that `MACSIO_MIF_Init` computes for rank `r` (`none` on a fault). -/
def initGroupRank (numFiles commSize r : Int) : Option Int :=
  match MACSIO_MIF_Init_partition numFiles commSize r with
  | .ok p => some p.groupRank
  | .error _ => none

/-- The ranks whose `groupRank`, as computed by `MACSIO_MIF_Init`, is `g`. -/
def groupMembers (numFiles commSize g : Int) : List Int :=
  (allRanks commSize).filter (fun r => initGroupRank numFiles commSize r == some g)

/-- The pair `(groupRank, rankInGroup)` that `MACSIO_MIF_Init` computes for rank `r`. -/
def initPair (numFiles commSize r : Int) : Option (Int × Int) :=
  match MACSIO_MIF_Init_partition numFiles commSize r with
  | .ok p => some (p.groupRank, p.rankInGroup)
  | .error _ => none

/-- The `procBeforeMe` that `MACSIO_MIF_Init` computes for rank `r` (`-1`: none). -/
def initProcBefore (numFiles commSize r : Int) : Option Int :=
  match MACSIO_MIF_Init_partition numFiles commSize r with
  | .ok p => some p.procBeforeMe
  | .error _ => none

/-- The `procAfterMe` that `MACSIO_MIF_Init` computes for rank `r` (`-1`: none). -/
def initProcAfter (numFiles commSize r : Int) : Option Int :=
  match MACSIO_MIF_Init_partition numFiles commSize r with
  | .ok p => some p.procAfterMe
  | .error _ => none

/-! ## The baton protocol engine -/

/-- This process's endpoint of the messaging layer, over a transport state `σ`.
`MPI_Recv w source tag comm` yields the new state, the return code and the integer
left in the receive buffer; `MPI_Ssend w buf dest tag comm` yields the new state and
the return code. -/
structure Transport (σ : Type) where
  MPI_Recv : σ → Int → Int → Int → σ × Int × Int
  MPI_Ssend : σ → Int → Int → Int → Int → σ × Int

/-- Value of `SCR_SUCCESS` (from `scr.h`). -/
def SCR_SUCCESS : Int := 0

/-- The checkpoint-routing collaborator: whether the build defines `HAVE_SCR`, and
`SCR_Route_file`, which yields its return code and the contents of the output
buffer `scr_filename` after the call. -/
structure ScrEnv where
  HAVE_SCR : Bool
  SCR_Route_file : String → Int × String

/-- Calls that leave `macsio_mif.c`, with their arguments. -/
inductive Effect where
  | MPI_Recv (source tag : Int)
  | MPI_Ssend (buf dest tag : Int)
  | createCb (fname nsname : String) (clientData : Ptr)
  | openCb (fname nsname : String) (ioFlags : MACSIO_MIF_ioFlags_t) (clientData : Ptr)
  | closeCb (file : Ptr) (clientData : Ptr)
  deriving DecidableEq, Repr

/-- Whether an effect is an invocation of the create callback. -/
def Effect.isCreate : Effect → Bool
  | .createCb _ _ _ => true
  | _ => false

/-- Whether an effect is an invocation of the open callback. -/
def Effect.isOpen : Effect → Bool
  | .openCb _ _ _ _ => true
  | _ => false

/-- Whether an effect is an invocation of the close callback. -/
def Effect.isClose : Effect → Bool
  | .closeCb _ _ => true
  | _ => false

/-- Whether an effect is a receive or a send. -/
def Effect.isMessage : Effect → Bool
  | .MPI_Recv _ _ => true
  | .MPI_Ssend _ _ _ => true
  | _ => false

/-- What a call of `MACSIO_MIF_WaitForBaton` leaves behind: the transport state, the
baton (its two status cells are mutable), the returned pointer and the calls made. -/
structure WaitResult (σ : Type) where
  world : σ
  Bat : MACSIO_MIF_baton_t
  ret : Ptr
  trace : List Effect

/-- Function `MACSIO_MIF_WaitForBaton`. -/
def MACSIO_MIF_WaitForBaton {σ : Type} (mpi : Transport σ) (scr : ScrEnv) (w : σ)
    (Bat : MACSIO_MIF_baton_t) (fname nsname : String) : WaitResult σ :=
  if Bat.procBeforeMe ≠ -1 then
    let r := mpi.MPI_Recv w Bat.procBeforeMe Bat.mpiTag Bat.mpiComm
    let mpi_err := r.2.1
    let baton := r.2.2
    let rcv := Effect.MPI_Recv Bat.procBeforeMe Bat.mpiTag
    if mpi_err = MPI_SUCCESS ∧ baton ≠ MACSIO_MIF_BATON_ERR then
      if scr.HAVE_SCR ∧ Bat.ioFlags.use_scr then
        let scr_filename := (scr.SCR_Route_file fname).2
        if (scr.SCR_Route_file fname).1 = SCR_SUCCESS then
          { world := r.1, Bat := Bat,
            ret := Bat.openCb scr_filename nsname Bat.ioFlags Bat.clientData,
            trace := [rcv, .openCb scr_filename nsname Bat.ioFlags Bat.clientData] }
        else
          { world := r.1, Bat := Bat,
            ret := Bat.openCb fname nsname Bat.ioFlags Bat.clientData,
            trace := [rcv, .openCb fname nsname Bat.ioFlags Bat.clientData] }
      else
        { world := r.1, Bat := Bat,
          ret := Bat.openCb fname nsname Bat.ioFlags Bat.clientData,
          trace := [rcv, .openCb fname nsname Bat.ioFlags Bat.clientData] }
    else
      { world := r.1,
        Bat := { Bat with mifErr := MACSIO_MIF_BATON_ERR, mpiErr := mpi_err },
        ret := NULL, trace := [rcv] }
  else
    if Bat.ioFlags.do_wr then
      if scr.HAVE_SCR ∧ Bat.ioFlags.use_scr then
        let scr_filename := (scr.SCR_Route_file fname).2
        { world := w, Bat := Bat,
          ret := Bat.createCb scr_filename nsname Bat.clientData,
          trace := [.createCb scr_filename nsname Bat.clientData] }
      else
        { world := w, Bat := Bat,
          ret := Bat.createCb fname nsname Bat.clientData,
          trace := [.createCb fname nsname Bat.clientData] }
    else
      if scr.HAVE_SCR ∧ Bat.ioFlags.use_scr then
        let scr_filename := (scr.SCR_Route_file fname).2
        if (scr.SCR_Route_file fname).1 = SCR_SUCCESS then
          { world := w, Bat := Bat,
            ret := Bat.openCb scr_filename nsname Bat.ioFlags Bat.clientData,
            trace := [.openCb scr_filename nsname Bat.ioFlags Bat.clientData] }
        else
          { world := w, Bat := Bat,
            ret := Bat.openCb fname nsname Bat.ioFlags Bat.clientData,
            trace := [.openCb fname nsname Bat.ioFlags Bat.clientData] }
      else
        { world := w, Bat := Bat,
          ret := Bat.openCb fname nsname Bat.ioFlags Bat.clientData,
          trace := [.openCb fname nsname Bat.ioFlags Bat.clientData] }

/-- What a call of `MACSIO_MIF_HandOffBaton` leaves behind: the transport state, the
baton (its two status cells are mutable) and the calls made. -/
structure HandOffResult (σ : Type) where
  world : σ
  Bat : MACSIO_MIF_baton_t
  trace : List Effect

/-- Function `MACSIO_MIF_HandOffBaton`. -/
def MACSIO_MIF_HandOffBaton {σ : Type} (mpi : Transport σ) (w : σ)
    (Bat : MACSIO_MIF_baton_t) (file : Ptr) : HandOffResult σ :=
  let _ : Unit := Bat.closeCb file Bat.clientData
  let cls := Effect.closeCb file Bat.clientData
  if Bat.procAfterMe ≠ -1 then
    let baton := Bat.mifErr
    let r := mpi.MPI_Ssend w baton Bat.procAfterMe Bat.mpiTag Bat.mpiComm
    let mpi_err := r.2
    let snd := Effect.MPI_Ssend baton Bat.procAfterMe Bat.mpiTag
    if mpi_err ≠ MPI_SUCCESS then
      { world := r.1,
        Bat := { Bat with mifErr := MACSIO_MIF_BATON_ERR, mpiErr := mpi_err },
        trace := [cls, snd] }
    else
      { world := r.1, Bat := Bat, trace := [cls, snd] }
  else
    { world := w, Bat := Bat, trace := [cls] }

/-! ## Concrete collaborators used to instantiate the theorems -/

/-- A transport whose every receive returns `(mpi_err, baton)` and whose every send
returns `sendErr`. -/
def scriptedTransport (mpi_err baton sendErr : Int) : Transport Unit :=
  { MPI_Recv := fun _ _ _ _ => ((), mpi_err, baton),
    MPI_Ssend := fun _ _ _ _ _ => ((), sendErr) }

/-- A build without `HAVE_SCR`. -/
def noScr : ScrEnv := { HAVE_SCR := false, SCR_Route_file := fun f => (1, f) }

/-- A create callback returning the handle `100`. -/
def demoCreate : MACSIO_MIF_CreateCB := fun _ _ _ => 100

/-- An open callback returning the handle `200`. -/
def demoOpen : MACSIO_MIF_OpenCB := fun _ _ _ _ => 200

/-- A close callback. -/
def demoClose : MACSIO_MIF_CloseCB := fun _ _ => ()

/-- The baton of rank `r` among `commSize = 3` ranks in `numGroups = 1` group (write
operation, tag 7), as `MACSIO_MIF_Init` builds it with the three demo callbacks. -/
def demoBaton (r : Int) : MACSIO_MIF_baton_t :=
  { ioFlags := { do_wr := true, use_scr := false }, mpiComm := 0, commSize := 3,
    rankInComm := r, numGroups := 1, numGroupsWithExtraProc := 0, groupSize := 3,
    groupRank := 0, commSplit := 0, rankInGroup := r,
    procBeforeMe := if r > 0 then r - 1 else -1,
    procAfterMe := if r < 2 then r + 1 else -1,
    mifErr := MACSIO_MIF_BATON_OK, mpiErr := MPI_SUCCESS, mpiTag := 7,
    createCb := demoCreate, openCb := demoOpen, closeCb := demoClose, clientData := 0 }

/-! ## A mock messaging layer and the sequential run of a group over it -/

/-- A control message in flight. -/
structure Msg where
  source : Int
  dest : Int
  tag : Int
  comm : Int
  payload : Int
  deriving DecidableEq, Repr

/-- Return code of a failed mock send or receive (any value other than `MPI_SUCCESS`). -/
def MPI_ERR_OTHER : Int := 15

/-- Modelled from the spec: the mock messaging layer of the simulated-transport test
(section 8), which is not among the sources. It holds the messages in flight, the
ranks whose synchronous send is made to fail (`failSend`, the injected failure), and
whether a send that reports failure has nonetheless delivered its message
(`deliverFailed`; section 4.4: "the message, if it was delivered, already carries
whatever status was sent"). -/
structure MockNet where
  inflight : List Msg
  failSend : Int → Bool
  deliverFailed : Bool

/-- Whether message `m` answers the receive of rank `self` from `source` on `tag`, `comm`. -/
def Msg.answers (self source tag comm : Int) (m : Msg) : Bool :=
  m.source == source && m.dest == self && m.tag == tag && m.comm == comm

/-- Mock `MPI_Ssend` of rank `self`. -/
def mockSsend (self : Int) (net : MockNet) (buf dest tag comm : Int) : MockNet × Int :=
  let m : Msg := { source := self, dest := dest, tag := tag, comm := comm, payload := buf }
  if net.failSend self then
    if net.deliverFailed then
      ({ net with inflight := net.inflight ++ [m] }, MPI_ERR_OTHER)
    else
      (net, MPI_ERR_OTHER)
  else
    ({ net with inflight := net.inflight ++ [m] }, MPI_SUCCESS)

/-- Mock `MPI_Recv` of rank `self`: takes the oldest message that answers; the run is
sequential, so a receive that finds none cannot block and reports a failure. -/
def mockRecv (self : Int) (net : MockNet) (source tag comm : Int) : MockNet × Int × Int :=
  match net.inflight.find? (Msg.answers self source tag comm) with
  | some m => ({ net with inflight := net.inflight.erase m }, MPI_SUCCESS, m.payload)
  | none => (net, MPI_ERR_OTHER, 0)

/-- The endpoint of rank `self` on the mock messaging layer. -/
def mockTransport (self : Int) : Transport MockNet :=
  { MPI_Recv := mockRecv self, MPI_Ssend := mockSsend self }

/-- What one file-visit of a participant leaves to observe. -/
structure VisitRecord where
  rank : Int
  handle : Ptr
  mifErrAfterWait : Int
  mpiErrAfterWait : Int
  mifErr : Int
  mpiErr : Int
  trace : List Effect
  deriving DecidableEq, Repr

/-- One file-visit: `MACSIO_MIF_WaitForBaton`, then `MACSIO_MIF_HandOffBaton` on the
returned pointer. -/
def visit (scr : ScrEnv) (fname nsname : String) (net : MockNet)
    (Bat : MACSIO_MIF_baton_t) : MockNet × VisitRecord :=
  let wt := MACSIO_MIF_WaitForBaton (mockTransport Bat.rankInComm) scr net Bat fname nsname
  let ho := MACSIO_MIF_HandOffBaton (mockTransport Bat.rankInComm) wt.world wt.Bat wt.ret
  (ho.world,
    { rank := Bat.rankInComm, handle := wt.ret, mifErrAfterWait := wt.Bat.mifErr,
      mpiErrAfterWait := wt.Bat.mpiErr, mifErr := ho.Bat.mifErr, mpiErr := ho.Bat.mpiErr,
      trace := wt.trace ++ ho.trace })

/-- The participants of the list make their file-visit one after the other. -/
def runVisits (scr : ScrEnv) (fname nsname : String) :
    MockNet → List MACSIO_MIF_baton_t → MockNet × List VisitRecord
  | net, [] => (net, [])
  | net, b :: bs =>
    let v := visit scr fname nsname net b
    let rest := runVisits scr fname nsname v.1 bs
    (rest.1, v.2 :: rest.2)

/-- The ranks `j, j+1, ..., j+n-1`. -/
def ranksFrom (j : Int) : Nat → List Int
  | 0 => []
  | n + 1 => j :: ranksFrom (j + 1) n

/-- The baton `MACSIO_MIF_Init` returns for rank `r`, if it returns one. -/
def initBaton (numFiles : Int) (ioFlags : MACSIO_MIF_ioFlags_t) (mpiComm commSize : Int)
    (mpiTag : Int) (createCb : MACSIO_MIF_CreateCB) (openCb : MACSIO_MIF_OpenCB)
    (closeCb : MACSIO_MIF_CloseCB) (clientData : Ptr) (r : Int) :
    Option MACSIO_MIF_baton_t :=
  match MACSIO_MIF_Init numFiles ioFlags mpiComm commSize r mpiTag (some createCb)
    (some openCb) (some closeCb) clientData with
  | .ok (some b) => some b
  | _ => none

/-- The batons `MACSIO_MIF_Init` returns for the ranks of a list. -/
def initBatons (numFiles : Int) (ioFlags : MACSIO_MIF_ioFlags_t) (mpiComm commSize : Int)
    (mpiTag : Int) (createCb : MACSIO_MIF_CreateCB) (openCb : MACSIO_MIF_OpenCB)
    (closeCb : MACSIO_MIF_CloseCB) (clientData : Ptr) (ranks : List Int) :
    List MACSIO_MIF_baton_t :=
  ranks.filterMap
    (initBaton numFiles ioFlags mpiComm commSize mpiTag createCb openCb closeCb clientData)

/-- A mock messaging layer with nothing in flight and no injected failure. -/
def reliableNet : MockNet := { inflight := [], failSend := fun _ => false, deliverFailed := false }

/-- Consecutive members of one group, starting at rank `j`, none of them the first of
the group: each has predecessor `rank - 1` and successor `rank + 1` or none. -/
def IsChainFrom (comm tag : Int) : Int → List MACSIO_MIF_baton_t → Prop
  | _, [] => True
  | j, b :: bs =>
    b.rankInComm = j ∧ b.procBeforeMe = j - 1 ∧ j - 1 ≠ -1 ∧ b.mpiTag = tag ∧
      b.mpiComm = comm ∧ (b.procAfterMe = -1 ∨ b.procAfterMe = j + 1) ∧
      IsChainFrom comm tag (j + 1) bs

/-- A file-visit that observed an upstream error: `MACSIO_MIF_WaitForBaton` returned
the null pointer and left `mifErr` at the error code, no create or open callback was
invoked, and whatever was sent on carried the error code. -/
def VisitRecord.sawUpstreamError (v : VisitRecord) : Prop :=
  v.handle = NULL ∧ v.mifErrAfterWait = MACSIO_MIF_BATON_ERR ∧
    v.mifErr = MACSIO_MIF_BATON_ERR ∧
    v.trace.filter (fun e => e.isCreate || e.isOpen) = [] ∧
    ∀ buf dest tag, Effect.MPI_Ssend buf dest tag ∈ v.trace → buf = MACSIO_MIF_BATON_ERR

/-- The baton holding the closed form of the partition for rank `r`, with both status
cells cleared. -/
def refBaton (k : Int) (ioFlags : MACSIO_MIF_ioFlags_t) (mpiComm n : Int) (mpiTag : Int)
    (createCb : MACSIO_MIF_CreateCB) (openCb : MACSIO_MIF_OpenCB)
    (closeCb : MACSIO_MIF_CloseCB) (clientData : Ptr) (r : Int) : MACSIO_MIF_baton_t :=
  { ioFlags := ioFlags, mpiComm := mpiComm, commSize := n, rankInComm := r,
    numGroups := k, numGroupsWithExtraProc := n % k, groupSize := n / k,
    groupRank := grpOf (n / k) (n % k) r, commSplit := n % k * (n / k + 1),
    rankInGroup := posOf (n / k) (n % k) r,
    procBeforeMe := predOf (n / k) (n % k) r,
    procAfterMe := succOf (n / k) (n % k) r,
    mifErr := MACSIO_MIF_BATON_OK, mpiErr := MPI_SUCCESS, mpiTag := mpiTag,
    createCb := createCb, openCb := openCb, closeCb := closeCb,
    clientData := clientData }

/-- Function `MACSIO_MIF_Finish`: `free(bat)`; it calls no callback and sends or
receives nothing. -/
def MACSIO_MIF_Finish (_bat : MACSIO_MIF_baton_t) : Unit := ()

/-- What a participant leaves behind after a sequence of protocol calls: the transport
state, the pointer returned by the last `MACSIO_MIF_WaitForBaton`, the two status cells
and the calls made, in order. -/
structure CycleResult (σ : Type) where
  world : σ
  handle : Ptr
  mifErr : Int
  mpiErr : Int
  trace : List Effect

/-- The cycle `MACSIO_MIF_Init`, `MACSIO_MIF_WaitForBaton`, `MACSIO_MIF_HandOffBaton`
on the returned pointer, `MACSIO_MIF_Finish`, of one participant. The result is `none`
when `MACSIO_MIF_Init` returns the null pointer. -/
def fullCycle {σ : Type} (mpi : Transport σ) (scr : ScrEnv) (w : σ) (numFiles : Int)
    (ioFlags : MACSIO_MIF_ioFlags_t) (mpiComm commSize rankInComm mpiTag : Int)
    (createCb : Option MACSIO_MIF_CreateCB) (openCb : Option MACSIO_MIF_OpenCB)
    (closeCb : Option MACSIO_MIF_CloseCB) (clientData : Ptr) (fname nsname : String) :
    Except CFault (Option (CycleResult σ)) := do
  let bat ← MACSIO_MIF_Init numFiles ioFlags mpiComm commSize rankInComm mpiTag createCb
    openCb closeCb clientData
  match bat with
  | none => pure none
  | some Bat =>
    let wt := MACSIO_MIF_WaitForBaton mpi scr w Bat fname nsname
    let ho := MACSIO_MIF_HandOffBaton mpi wt.world wt.Bat wt.ret
    let _ : Unit := MACSIO_MIF_Finish ho.Bat
    pure (some { world := ho.world, handle := wt.ret, mifErr := ho.Bat.mifErr,
                 mpiErr := ho.Bat.mpiErr, trace := wt.trace ++ ho.trace })

/-- What a sequence of file-visits on one baton leaves behind: the transport state, the
baton and the calls made, in order. -/
structure VisitsResult (σ : Type) where
  world : σ
  Bat : MACSIO_MIF_baton_t
  trace : List Effect

/-- A sequence of file-visits of one participant on the same baton, one per file name
of the list: `MACSIO_MIF_WaitForBaton`, then `MACSIO_MIF_HandOffBaton` on the returned
pointer. -/
def fileVisits {σ : Type} (mpi : Transport σ) (scr : ScrEnv) :
    σ → MACSIO_MIF_baton_t → List (String × String) → VisitsResult σ
  | w, Bat, [] => { world := w, Bat := Bat, trace := [] }
  | w, Bat, (fname, nsname) :: rest =>
    let wt := MACSIO_MIF_WaitForBaton mpi scr w Bat fname nsname
    let ho := MACSIO_MIF_HandOffBaton mpi wt.world wt.Bat wt.ret
    let r := fileVisits mpi scr ho.world ho.Bat rest
    { world := r.world, Bat := r.Bat, trace := wt.trace ++ ho.trace ++ r.trace }

/-- A build with `HAVE_SCR` whose router fails (return code 1) and leaves the text
`junk` in the output buffer. -/
def failingScr (junk : String) : ScrEnv :=
  { HAVE_SCR := true, SCR_Route_file := fun _ => (1, junk) }

/-- A build with `HAVE_SCR` whose router succeeds and rewrites every name to `routed`. -/
def routingScr (routed : String) : ScrEnv :=
  { HAVE_SCR := true, SCR_Route_file := fun _ => (SCR_SUCCESS, routed) }

/-! ## Concurrent executions over a correct transport

The participants run in parallel, each making one file-visit: `MACSIO_MIF_WaitForBaton`,
work on the file, `MACSIO_MIF_HandOffBaton`. An execution is an interleaving of the
calls these functions make (receive, create, open, close, send), one call at a time:
between any two calls of one participant the other participants may make calls of
their own. A receive completes only when its message has arrived (`MPI_Recv` blocks). -/

/-- A state of a concurrent execution: the messages in flight; for every rank the
number of functions it has entered (`0`: none, `1`: `MACSIO_MIF_WaitForBaton`, `2`:
also `MACSIO_MIF_HandOffBaton`), the calls of the function it is in that it has not
made yet, its baton and the pointer its wait returns; and the calls made so far,
oldest first, each with the rank that made it. -/
structure ConcState where
  net : MockNet
  pc : Int → Nat
  pending : Int → List Effect
  bat : Int → Option MACSIO_MIF_baton_t
  handle : Int → Ptr
  log : List (Int × Effect)

/-- Whether rank `self` can make the call now: a receive needs its message. -/
def effectEnabled (self comm : Int) (net : MockNet) : Effect → Bool
  | .MPI_Recv source tag => (net.inflight.find? (Msg.answers self source tag comm)).isSome
  | _ => true

/-- Whether the first of the calls can be made now. -/
def headEnabled (self comm : Int) (net : MockNet) : List Effect → Bool
  | [] => true
  | e :: _ => effectEnabled self comm net e

/-- What a call of rank `self` does to the messaging layer: a receive takes its message,
a send puts one in flight, a callback leaves it alone. -/
def effectOnNet (self comm : Int) (net : MockNet) : Effect → MockNet
  | .MPI_Recv source tag => (mockRecv self net source tag comm).1
  | .MPI_Ssend buf dest tag => (mockSsend self net buf dest tag comm).1
  | _ => net

/-- The messaging layer after rank `self` has made the calls in turn, with no call of
another rank in between. -/
def replay (self comm : Int) : MockNet → List Effect → MockNet
  | net, [] => net
  | net, e :: es => replay self comm (effectOnNet self comm net e) es

/-- The calls of one function call of rank `r`, labelled with the rank. -/
def rankEvents (r : Int) (tr : List Effect) : List (Int × Effect) := tr.map (fun e => (r, e))

/-- Rank `r` makes the next call of the function it is in. -/
def performNext (s : ConcState) (r self comm : Int) : ConcState :=
  match s.pending r with
  | [] => s
  | e :: rest =>
    { net := effectOnNet self comm s.net e, pc := s.pc,
      pending := Function.update s.pending r rest, bat := s.bat, handle := s.handle,
      log := s.log ++ rankEvents r [e] }

/-- Rank `r`, whose baton is `Bat`, enters `MACSIO_MIF_WaitForBaton`: the calls the
function makes are still to be made. -/
def enterWait (scr : ScrEnv) (fname nsname : String) (s : ConcState) (r : Int)
    (Bat : MACSIO_MIF_baton_t) : ConcState :=
  let wt := MACSIO_MIF_WaitForBaton (mockTransport Bat.rankInComm) scr s.net Bat fname nsname
  { net := s.net, pc := Function.update s.pc r 1,
    pending := Function.update s.pending r wt.trace,
    bat := Function.update s.bat r (some wt.Bat),
    handle := Function.update s.handle r wt.ret, log := s.log }

/-- Rank `r`, whose baton is `Bat`, enters `MACSIO_MIF_HandOffBaton` on the pointer its
wait returned: the calls the function makes are still to be made. -/
def enterHandOff (s : ConcState) (r : Int) (Bat : MACSIO_MIF_baton_t) : ConcState :=
  let ho := MACSIO_MIF_HandOffBaton (mockTransport Bat.rankInComm) s.net Bat (s.handle r)
  { net := s.net, pc := Function.update s.pc r 2,
    pending := Function.update s.pending r ho.trace,
    bat := Function.update s.bat r (some ho.Bat), handle := s.handle, log := s.log }

/-- One step of a concurrent execution, always one call of one rank. A rank that has
entered no function enters `MACSIO_MIF_WaitForBaton` and makes its first call, if that
call is not a receive still waiting for its message; a rank that has returned from
`MACSIO_MIF_WaitForBaton` enters `MACSIO_MIF_HandOffBaton` and makes its first call; a
rank inside a function makes its next call. A send does not wait for the receiver. -/
inductive ConcStep (scr : ScrEnv) (fname nsname : String) : ConcState → ConcState → Prop
  | wait (s : ConcState) (r : Int) (Bat : MACSIO_MIF_baton_t) :
      s.pc r = 0 → s.pending r = [] → s.bat r = some Bat →
      headEnabled Bat.rankInComm Bat.mpiComm s.net
        ((enterWait scr fname nsname s r Bat).pending r) = true →
      ConcStep scr fname nsname s
        (performNext (enterWait scr fname nsname s r Bat) r Bat.rankInComm Bat.mpiComm)
  | handOff (s : ConcState) (r : Int) (Bat : MACSIO_MIF_baton_t) :
      s.pc r = 1 → s.pending r = [] → s.bat r = some Bat →
      headEnabled Bat.rankInComm Bat.mpiComm s.net ((enterHandOff s r Bat).pending r) = true →
      ConcStep scr fname nsname s
        (performNext (enterHandOff s r Bat) r Bat.rankInComm Bat.mpiComm)
  | next (s : ConcState) (r : Int) (Bat : MACSIO_MIF_baton_t) :
      s.pending r ≠ [] → s.bat r = some Bat →
      headEnabled Bat.rankInComm Bat.mpiComm s.net (s.pending r) = true →
      ConcStep scr fname nsname s (performNext s r Bat.rankInComm Bat.mpiComm)

/-- The start of a concurrent execution: nothing in flight on a transport without
failure, no rank has entered a function, and every rank of the communicator holds the
baton `MACSIO_MIF_Init` returned to it. -/
def concStart (numFiles : Int) (ioFlags : MACSIO_MIF_ioFlags_t) (mpiComm commSize : Int)
    (mpiTag : Int) (createCb : MACSIO_MIF_CreateCB) (openCb : MACSIO_MIF_OpenCB)
    (closeCb : MACSIO_MIF_CloseCB) (clientData : Ptr) : ConcState :=
  { net := reliableNet, pc := fun _ => 0, pending := fun _ => [],
    bat := fun r => if 0 ≤ r ∧ r < commSize then
      initBaton numFiles ioFlags mpiComm commSize mpiTag createCb openCb closeCb clientData r
      else none,
    handle := fun _ => NULL, log := [] }

/-- The states of the concurrent executions from a start state. -/
inductive ConcReachable (scr : ScrEnv) (fname nsname : String) (start : ConcState) :
    ConcState → Prop
  | start : ConcReachable scr fname nsname start start
  | step (s s' : ConcState) : ConcReachable scr fname nsname start s →
      ConcStep scr fname nsname s s' → ConcReachable scr fname nsname start s'

/-- The good baton rank `r` sends to rank `r + 1`. -/
def okMsg (comm tag r : Int) : Msg :=
  { source := r, dest := r + 1, tag := tag, comm := comm, payload := MACSIO_MIF_BATON_OK }

/-- Where rank `r` stands with the baton: `0` it has not taken it (it has not entered
`MACSIO_MIF_WaitForBaton`), `2` it has made every call of `MACSIO_MIF_HandOffBaton`,
`1` in between. -/
def netPhase (s : ConcState) (r : Int) : Nat :=
  if s.pc r = 0 then 0 else if s.pc r = 2 ∧ s.pending r = [] then 2 else 1

/-- Where rank `r` stands with the file: `0` its create or open callback has not run,
`2` it has entered `MACSIO_MIF_HandOffBaton` and its close callback has run, `1` in
between. -/
def filePhase (s : ConcState) (r : Int) : Nat :=
  if s.pc r = 0 then 0 else if s.pc r = 1 then (if s.pending r = [] then 1 else 0) else 2

/-- The invariant of the concurrent executions, for `numGroups = k` and `commSize = n`:
no failure is injected, every rank of the communicator still holds its initial baton,
a rank with a predecessor has taken the baton only after the predecessor made every
call of its hand-off, and the messages in flight are exactly the good batons of the
ranks that have completed the hand-off to a successor that has not yet taken the
baton, each once. -/
structure ConcInv (k : Int) (ioFlags : MACSIO_MIF_ioFlags_t) (mpiComm n : Int)
    (mpiTag : Int) (createCb : MACSIO_MIF_CreateCB) (openCb : MACSIO_MIF_OpenCB)
    (closeCb : MACSIO_MIF_CloseCB) (clientData : Ptr) (s : ConcState) : Prop where
  reliable : ∀ r, s.net.failSend r = false
  bats : ∀ r, 0 ≤ r → r < n → s.bat r = some
    (refBaton k ioFlags mpiComm n mpiTag createCb openCb closeCb clientData r)
  outside : ∀ r, ¬ (0 ≤ r ∧ r < n) → s.bat r = none
  order : ∀ r, 0 ≤ r → r < n → predOf (n / k) (n % k) r ≠ -1 → 1 ≤ netPhase s r →
    netPhase s (r - 1) = 2
  flight : ∀ m, m ∈ s.net.inflight ↔
    ∃ r, 0 ≤ r ∧ r < n ∧ succOf (n / k) (n % k) r ≠ -1 ∧ netPhase s r = 2 ∧
      netPhase s (r + 1) = 0 ∧ m = okMsg mpiComm mpiTag r
  nodup : s.net.inflight.Nodup

/-- The calls a rank inside a function has still to make: none, or the open callback
after the receive of `MACSIO_MIF_WaitForBaton`, or the send of the good baton after the
close callback of `MACSIO_MIF_HandOffBaton`. -/
def ConcShape (k n mpiTag : Int) (s : ConcState) : Prop :=
  ∀ r, 0 ≤ r → r < n →
    s.pending r = [] ∨
    (s.pc r = 1 ∧ ∃ e, s.pending r = [e] ∧ e.isOpen = true) ∨
    (s.pc r = 2 ∧ succOf (n / k) (n % k) r ≠ -1 ∧
      s.pending r = [Effect.MPI_Ssend MACSIO_MIF_BATON_OK (r + 1) mpiTag])

/-- How many times rank `r` was given a file: its create and open callbacks in a log. -/
def opensBy (log : List (Int × Effect)) (r : Int) : Nat :=
  (log.filter (fun x => x.1 == r && (x.2.isCreate || x.2.isOpen))).length

/-- How many times the close callback of rank `r` ran in a log. -/
def closesBy (log : List (Int × Effect)) (r : Int) : Nat :=
  (log.filter (fun x => x.1 == r && x.2.isClose)).length

/-- Whether rank `r` holds the file open at the end of a log: it was given a file by
its create or open callback and its close callback has not run since. -/
def holdsOpen (log : List (Int × Effect)) (r : Int) : Bool :=
  decide (closesBy log r < opensBy log r)

/-- The part of the invariant that ties the log of calls to the phases: the create or
open callback of a rank has run once the rank holds the file, its close callback has
run once it is past the file, and whenever a rank was given a file every lower rank of
its group had been given the file and had closed it before. -/
structure ConcLogInv (k n : Int) (s : ConcState) : Prop where
  opens : ∀ r, opensBy s.log r = if filePhase s r = 0 then 0 else 1
  closes : ∀ r, closesBy s.log r = if filePhase s r = 2 then 1 else 0
  before : ∀ l1 l2 q e, s.log = l1 ++ (q, e) :: l2 → (e.isCreate || e.isOpen) = true →
    ∀ q', 0 ≤ q' → q' < q → q < n →
      grpOf (n / k) (n % k) q' = grpOf (n / k) (n % k) q →
      1 ≤ opensBy l1 q' ∧ 1 ≤ closesBy l1 q'

/-- The start of the concurrent execution of the demo group of three. -/
def demoConcStart : ConcState :=
  concStart 1 ⟨true, false⟩ 0 3 7 demoCreate demoOpen demoClose 0

/-- The demo group after rank 0 has created the file and closed it, before its send. -/
def demoConcClosed : ConcState :=
  performNext (enterHandOff
    (performNext (enterWait noScr "f.dat" "ns" demoConcStart 0 (demoBaton 0)) 0 0 0)
    0 (demoBaton 0)) 0 0 0

/-- The demo group after rank 0 has created the file, closed it and sent the baton, and
rank 1 has received the baton and opened the file. -/
def demoConcState : ConcState :=
  performNext
    (performNext (enterWait noScr "f.dat" "ns" (performNext demoConcClosed 0 0 0) 1
      (demoBaton 1)) 1 1 0)
    1 1 0

/-! ## Theorems -/

/-! ### C integer arithmetic inside the `int` range -/

/-- Inside the `int` range nothing wraps. -/
theorem wrapInt_eq {x : Int} (h1 : -2147483648 ≤ x) (h2 : x ≤ 2147483647) : wrapInt x = x := by
  unfold wrapInt; omega

/-- A quotient by a positive divisor does not exceed a non-negative dividend. -/
theorem ediv_le_self_of_nonneg {a b : Int} (ha : 0 ≤ a) (hb : 0 < b) : a / b ≤ a := by
  have h1 : 0 ≤ a / b := Int.ediv_nonneg ha (le_of_lt hb)
  have h2 := Int.ediv_add_emod a b
  have h3 : 0 ≤ a % b := Int.emod_nonneg a (ne_of_gt hb)
  nlinarith

/-- A remainder by a positive divisor does not exceed a non-negative dividend. -/
theorem emod_le_self_of_nonneg {a b : Int} (ha : 0 ≤ a) (hb : 0 < b) : a % b ≤ a := by
  have h1 : 0 ≤ a / b := Int.ediv_nonneg ha (le_of_lt hb)
  have h2 := Int.ediv_add_emod a b
  nlinarith

/-- C division of a non-negative `int` by a positive one is floor division. -/
theorem cDiv_eq {a b : Int} (ha : 0 ≤ a) (hb : 0 < b) (hmax : a ≤ INT_MAX) :
    cDiv a b = .ok (a / b) := by
  have h1 : 0 ≤ a / b := Int.ediv_nonneg ha (le_of_lt hb)
  have h2 := ediv_le_self_of_nonneg ha hb
  unfold INT_MAX at hmax
  unfold cDiv
  rw [if_neg (ne_of_gt hb), Int.tdiv_eq_ediv ha (le_of_lt hb), wrapInt_eq (by omega) (by omega)]

/-- C remainder of a non-negative `int` by a positive one is the floor remainder. -/
theorem cMod_eq {a b : Int} (ha : 0 ≤ a) (hb : 0 < b) (hmax : a ≤ INT_MAX) :
    cMod a b = .ok (a % b) := by
  have h1 : 0 ≤ a % b := Int.emod_nonneg a (ne_of_gt hb)
  have h2 := emod_le_self_of_nonneg ha hb
  unfold INT_MAX at hmax
  unfold cMod
  rw [if_neg (ne_of_gt hb), Int.tmod_eq_emod ha (le_of_lt hb), wrapInt_eq (by omega) (by omega)]

/-- Facts about `n / k` and `n % k` for `1 ≤ k ≤ n`. -/
theorem divmod_facts {n k : Int} (hk : 1 ≤ k) (hkn : k ≤ n) :
    1 ≤ n / k ∧ 0 ≤ n % k ∧ n % k < k ∧ k * (n / k) + n % k = n ∧ n / k ≤ n := by
  have hk0 : 0 < k := by omega
  refine ⟨?_, Int.emod_nonneg n (ne_of_gt hk0), Int.emod_lt_of_pos n hk0,
    Int.ediv_add_emod n k, ediv_le_self_of_nonneg (by omega) hk0⟩
  rw [Int.le_ediv_iff_mul_le hk0]; omega

/-- The split point lies within the communicator. -/
theorem split_le {n k : Int} (hk : 1 ≤ k) (hkn : k ≤ n) :
    0 ≤ n % k * (n / k + 1) ∧ n % k * (n / k + 1) + (k - n % k) * (n / k) = n := by
  obtain ⟨hs, hm0, hmk, hdiv, _⟩ := divmod_facts hk hkn
  constructor
  · positivity
  · linear_combination hdiv

/-- Under `1 ≤ numGroups ≤ commSize ≤ INT_MAX` and `0 ≤ rank < commSize`, the C
computation of lines 124-155 neither faults nor wraps: it yields the closed form. -/
theorem init_partition_eq {n k r : Int} (hk : 1 ≤ k) (hkn : k ≤ n) (hn : n ≤ INT_MAX)
    (hr0 : 0 ≤ r) (hr : r < n) :
    MACSIO_MIF_Init_partition k n r = .ok (partitionRef k n r) := by
  obtain ⟨hs, hm0, hmk, hdiv, hsn⟩ := divmod_facts hk hkn
  obtain ⟨hsp0, hsp⟩ := split_le hk hkn
  have hspn : n % k * (n / k + 1) ≤ n := by nlinarith [mul_nonneg (show 0 ≤ k - n % k by omega) (show 0 ≤ n / k by omega)]
  have hmax : n ≤ 2147483647 := hn
  generalize hs' : n / k = s at *
  generalize hm' : n % k = m at *
  generalize hc' : m * (s + 1) = c at *
  have hsplit : cMul m (cAdd s 1) = c := by
    by_cases hm : m = 0
    · subst hm; simp [cMul, wrapInt] at *; omega
    · have : s + 1 ≤ c := by
        rw [← hc']; nlinarith [mul_nonneg (show 0 ≤ m - 1 by omega) (show 0 ≤ s + 1 by omega)]
      have h1 : wrapInt (s + 1) = s + 1 := wrapInt_eq (by omega) (by omega)
      unfold cMul cAdd
      rw [h1, hc', wrapInt_eq (by omega) (by omega)]
  unfold MACSIO_MIF_Init_partition
  dsimp only
  rw [cDiv_eq (by omega) (by omega) hn, cMod_eq (by omega) (by omega) hn]
  simp only [hs', hm', bind, Except.bind, hsplit]
  have hrmax : r ≤ INT_MAX := by unfold INT_MAX; omega
  by_cases hlt : r < c
  · have hm1 : 1 ≤ m := by
      by_contra hcon
      have : m = 0 := by omega
      subst this; simp at hc'; omega
    have hs1 : s + 1 ≤ c := by
      rw [← hc']; nlinarith [mul_nonneg (show 0 ≤ m - 1 by omega) (show 0 ≤ s + 1 by omega)]
    have h1 : cAdd s 1 = s + 1 := wrapInt_eq (by omega) (by omega)
    have h2 : cAdd r 1 = r + 1 := wrapInt_eq (by omega) (by omega)
    have h3 : cSub r 1 = r - 1 := wrapInt_eq (by omega) (by omega)
    rw [if_pos hlt, h1, cDiv_eq hr0 (by omega) hrmax, cMod_eq hr0 (by omega) hrmax]
    simp only [h2, h3, partitionRef, grpOf, posOf, succOf, predOf, hs', hm', hc', if_pos hlt,
      pure, Except.pure]
  · have hrc0 : 0 ≤ r - c := by omega
    have h0 : cSub r c = r - c := wrapInt_eq (by omega) (by omega)
    have h1 : cSub s 1 = s - 1 := wrapInt_eq (by omega) (by omega)
    have h3 : cSub r 1 = r - 1 := wrapInt_eq (by omega) (by omega)
    have hq0 : 0 ≤ (r - c) / s := Int.ediv_nonneg hrc0 (by omega)
    have hq1 : (r - c) / s ≤ r - c := ediv_le_self_of_nonneg hrc0 (by omega)
    have h4 : cAdd m ((r - c) / s) = m + (r - c) / s := by
      have : (r - c) / s < k - m := by
        apply Int.ediv_lt_of_lt_mul (by omega); omega
      exact wrapInt_eq (by omega) (by omega)
    rw [if_neg hlt, h0, cDiv_eq hrc0 (by omega) (by unfold INT_MAX; omega),
      cMod_eq hrc0 (by omega) (by unfold INT_MAX; omega)]
    simp only [h1, h3, h4, partitionRef, grpOf, posOf, succOf, predOf, hs', hm', hc', if_neg hlt,
      pure, Except.pure]
    by_cases hlast : (r - c) % s < s - 1
    · have h2 : cAdd r 1 = r + 1 := wrapInt_eq (by omega) (by omega)
      simp only [if_pos hlast, h2]
    · simp only [if_neg hlast]

/-! ### The partition in closed form -/

/-- Every rank is the first rank of its group plus its position, and the position
lies inside the group. -/
theorem rank_decomp {s m r : Int} (hs : 1 ≤ s) (hm : 0 ≤ m) (hr : 0 ≤ r) :
    r = firstRank s m (grpOf s m r) + posOf s m r ∧ 0 ≤ posOf s m r ∧
      posOf s m r < groupLen s m (grpOf s m r) ∧ 0 ≤ grpOf s m r ∧
      (grpOf s m r < m ↔ r < m * (s + 1)) := by
  unfold grpOf posOf
  by_cases hlt : r < m * (s + 1)
  · have hpos : (0 : Int) < s + 1 := by omega
    have hg : r / (s + 1) < m := Int.ediv_lt_of_lt_mul hpos hlt
    have hg0 : 0 ≤ r / (s + 1) := Int.ediv_nonneg hr (by omega)
    have h1 := Int.ediv_add_emod r (s + 1)
    have h2 := Int.emod_nonneg r (ne_of_gt hpos)
    have h3 := Int.emod_lt_of_pos r hpos
    simp only [if_pos hlt, firstRank, groupLen, if_pos hg]
    refine ⟨by linarith [mul_comm (s + 1) (r / (s + 1))], h2, h3, hg0, by simp [hg, hlt]⟩
  · have hpos : (0 : Int) < s := by omega
    have hrc : 0 ≤ r - m * (s + 1) := by omega
    have hq0 : 0 ≤ (r - m * (s + 1)) / s := Int.ediv_nonneg hrc (by omega)
    have hg : ¬ (m + (r - m * (s + 1)) / s < m) := by omega
    have h1 := Int.ediv_add_emod (r - m * (s + 1)) s
    have h2 := Int.emod_nonneg (r - m * (s + 1)) (ne_of_gt hpos)
    have h3 := Int.emod_lt_of_pos (r - m * (s + 1)) hpos
    simp only [if_neg hlt, firstRank, groupLen, if_neg hg]
    refine ⟨?_, h2, h3, by omega, by simp [hg, hlt]⟩
    have : m + (r - m * (s + 1)) / s - m = (r - m * (s + 1)) / s := by ring
    rw [this]
    linarith [mul_comm s ((r - m * (s + 1)) / s)]

/-- The group of a rank below `commSize` is below `numGroups`. -/
theorem grpOf_lt {s m k n r : Int} (hs : 1 ≤ s) (hmk : m < k)
    (hn : m * (s + 1) + (k - m) * s = n) (hr : r < n) : grpOf s m r < k := by
  unfold grpOf
  by_cases hlt : r < m * (s + 1)
  · have hg : r / (s + 1) < m := Int.ediv_lt_of_lt_mul (by omega) hlt
    rw [if_pos hlt]; omega
  · have hq : (r - m * (s + 1)) / s < k - m := by
      apply Int.ediv_lt_of_lt_mul (by omega); omega
    rw [if_neg hlt]; omega

/-- A group index and a position inside that group name one rank, whose group
and position they are. -/
theorem rank_of_pair {s m g i : Int} (hs : 1 ≤ s) (hm : 0 ≤ m) (hg : 0 ≤ g)
    (hi : 0 ≤ i) (hlen : i < groupLen s m g) :
    grpOf s m (firstRank s m g + i) = g ∧ posOf s m (firstRank s m g + i) = i ∧
      0 ≤ firstRank s m g + i := by
  unfold grpOf posOf firstRank
  unfold groupLen at hlen
  by_cases hgm : g < m
  · rw [if_pos hgm] at hlen
    have hpos : (0 : Int) < s + 1 := by omega
    have hlt : g * (s + 1) + i < m * (s + 1) := by
      nlinarith [mul_nonneg (show 0 ≤ m - 1 - g by omega) (show 0 ≤ s + 1 by omega)]
    have h0 : 0 ≤ g * (s + 1) := mul_nonneg hg (by omega)
    simp only [if_pos hgm, if_pos hlt]
    refine ⟨?_, ?_, by omega⟩
    · rw [add_comm, Int.add_mul_ediv_right _ _ (ne_of_gt hpos), Int.ediv_eq_zero_of_lt hi hlen]
      omega
    · rw [add_comm, Int.add_mul_emod_self, Int.emod_eq_of_lt hi hlen]
  · rw [if_neg hgm] at hlen
    have hpos : (0 : Int) < s := by omega
    have h0 : 0 ≤ (g - m) * s := mul_nonneg (by omega) (by omega)
    have h1 : 0 ≤ m * (s + 1) := mul_nonneg hm (by omega)
    have hlt : ¬ (m * (s + 1) + (g - m) * s + i < m * (s + 1)) := by omega
    have he : m * (s + 1) + (g - m) * s + i - m * (s + 1) = i + (g - m) * s := by ring
    simp only [if_neg hgm, if_neg hlt, he]
    refine ⟨?_, ?_, by omega⟩
    · rw [Int.add_mul_ediv_right _ _ (ne_of_gt hpos), Int.ediv_eq_zero_of_lt hi hlen]
      omega
    · rw [Int.add_mul_emod_self, Int.emod_eq_of_lt hi hlen]

/-- The last member of group `g` is a rank of the communicator. -/
theorem rank_of_pair_lt {s m k n g i : Int} (hs : 1 ≤ s) (hmk : m ≤ k)
    (hn : m * (s + 1) + (k - m) * s = n) (hgk : g < k)
    (hlen : i < groupLen s m g) : firstRank s m g + i < n := by
  unfold firstRank
  unfold groupLen at hlen
  by_cases hgm : g < m
  · rw [if_pos hgm] at hlen
    rw [if_pos hgm]
    nlinarith [mul_nonneg (show 0 ≤ m - 1 - g by omega) (show 0 ≤ s + 1 by omega),
      mul_nonneg (show 0 ≤ k - m by omega) (show 0 ≤ s by omega)]
  · rw [if_neg hgm] at hlen
    rw [if_neg hgm]
    nlinarith [mul_nonneg (show 0 ≤ k - 1 - g by omega) (show 0 ≤ s by omega)]

/-- Consecutive groups are adjacent. -/
theorem firstRank_succ {s m g : Int} :
    firstRank s m (g + 1) = firstRank s m g + groupLen s m g := by
  unfold firstRank groupLen
  by_cases h1 : g + 1 < m
  · have h2 : g < m := by omega
    rw [if_pos h1, if_pos h2, if_pos h2]; ring
  · by_cases h2 : g < m
    · obtain rfl : m = g + 1 := by omega
      rw [if_neg h1, if_pos h2, if_pos h2]; ring
    · rw [if_neg h1, if_neg h2, if_neg h2]; ring

/-- A rank belongs to group `g` exactly when it lies in that group's range. -/
theorem grpOf_eq_iff {s m g r : Int} (hs : 1 ≤ s) (hm : 0 ≤ m) (hr : 0 ≤ r) (hg : 0 ≤ g) :
    grpOf s m r = g ↔ firstRank s m g ≤ r ∧ r < firstRank s m g + groupLen s m g := by
  obtain ⟨h1, h2, h3, _, _⟩ := rank_decomp hs hm hr
  constructor
  · intro h; rw [h] at h1 h3; omega
  · rintro ⟨ha, hb⟩
    have := (rank_of_pair hs hm hg (show 0 ≤ r - firstRank s m g by omega) (by omega)).1
    rwa [show firstRank s m g + (r - firstRank s m g) = r by ring] at this

/-- The successor in closed form: the next rank unless the position is the last. -/
theorem succOf_eq {s m r : Int} (hs : 1 ≤ s) (hm : 0 ≤ m) (hr : 0 ≤ r) :
    succOf s m r = if posOf s m r < groupLen s m (grpOf s m r) - 1 then r + 1 else -1 := by
  obtain ⟨_, _, _, _, h5⟩ := rank_decomp hs hm hr
  unfold succOf groupLen
  by_cases hlt : r < m * (s + 1)
  · rw [if_pos hlt, if_pos (h5.2 hlt)]
    simp
  · have : ¬ grpOf s m r < m := fun h => hlt (h5.1 h)
    rw [if_neg hlt, if_neg this]

/-! ### Counting the members of a group -/

/-- Counting the naturals below `N` that lie in `[a, b)`. -/
theorem length_filter_range_Ico (a b : Nat) (hab : a ≤ b) (N : Nat) :
    ((List.range N).filter (fun r => decide (a ≤ r ∧ r < b))).length = min b N - min a N := by
  induction N with
  | zero => simp
  | succ N ih =>
    rw [List.range_succ, List.filter_append, List.length_append, ih]
    by_cases h : a ≤ N ∧ N < b
    · simp [h]; omega
    · simp [h]; omega

/-- Counting the ranks of the communicator that lie in `[a, b)`. -/
theorem length_filter_allRanks {n a b : Int} (ha : 0 ≤ a) (hab : a ≤ b) (hbn : b ≤ n)
    (p : Int → Bool) (hp : ∀ r, 0 ≤ r → r < n → (p r = true ↔ a ≤ r ∧ r < b)) :
    (((allRanks n).filter p).length : Int) = b - a := by
  unfold allRanks
  rw [List.filter_map, List.length_map]
  have hcongr : (List.range n.toNat).filter (p ∘ Int.ofNat) =
      (List.range n.toNat).filter (fun r => decide (a.toNat ≤ r ∧ r < b.toNat)) := by
    apply List.filter_congr
    intro x hx
    have hx' : x < n.toNat := List.mem_range.mp hx
    have h := hp (Int.ofNat x) (Int.ofNat_nonneg x) (by simp; omega)
    have e : (a ≤ Int.ofNat x ∧ Int.ofNat x < b) ↔ (a.toNat ≤ x ∧ x < b.toNat) := by
      simp only [Int.ofNat_eq_coe]; omega
    simp only [Function.comp]
    rw [Bool.eq_iff_iff, h, e]; simp
  rw [hcongr, length_filter_range_Ico _ _ (by omega)]
  omega

/-- The group lengths of the first `K` groups add up to the first rank of group `K`. -/
theorem sum_groupLen {s m : Int} (hm : 0 ≤ m) (K : Nat) :
    ((List.range K).map (fun g => groupLen s m (Int.ofNat g))).sum = firstRank s m K := by
  induction K with
  | zero =>
    unfold firstRank
    by_cases h : (0 : Int) < m
    · simp [h]
    · have : m = 0 := by omega
      subst this; simp
  | succ K ih =>
    rw [List.range_succ, List.map_append, List.sum_append, ih]
    simp only [List.map_cons, List.map_nil, List.sum_cons, List.sum_nil, add_zero]
    have := @firstRank_succ s m (K : Int)
    rw [show ((K + 1 : Nat) : Int) = (K : Int) + 1 by push_cast; ring, this]
    rfl

/-- Under the partitioner's precondition `initGroupRank` is the closed form. -/
theorem initGroupRank_eq {n k r : Int} (hk : 1 ≤ k) (hkn : k ≤ n) (hn : n ≤ INT_MAX)
    (hr0 : 0 ≤ r) (hr : r < n) :
    initGroupRank k n r = some (grpOf (n / k) (n % k) r) := by
  simp [initGroupRank, init_partition_eq hk hkn hn hr0 hr, partitionRef]

/-- Under the partitioner's precondition group `g` has `groupLen` members. -/
theorem length_groupMembers {n k g : Int} (hk : 1 ≤ k) (hkn : k ≤ n) (hn : n ≤ INT_MAX)
    (hg0 : 0 ≤ g) (hgk : g < k) :
    ((groupMembers k n g).length : Int) = groupLen (n / k) (n % k) g := by
  obtain ⟨hs, hm0, hmk, _, _⟩ := divmod_facts hk hkn
  obtain ⟨_, hsp⟩ := split_le hk hkn
  have hlen : 0 < groupLen (n / k) (n % k) g := by unfold groupLen; split <;> omega
  have hf0 := (rank_of_pair hs hm0 hg0 (le_refl 0) hlen).2.2
  have hfn := rank_of_pair_lt (i := groupLen (n / k) (n % k) g - 1) hs (le_of_lt hmk) hsp hgk
    (by omega)
  unfold groupMembers
  rw [length_filter_allRanks (a := firstRank (n / k) (n % k) g)
    (b := firstRank (n / k) (n % k) g + groupLen (n / k) (n % k) g) (by omega) (by omega)
    (by omega)]
  · ring
  · intro r hr0 hr
    rw [initGroupRank_eq hk hkn hn hr0 hr]
    simp only [beq_iff_eq, Option.some.injEq]
    exact grpOf_eq_iff hs hm0 hr0 hg0

/-- C1: for `1 ≤ numGroups ≤ commSize` (a C `int`), `MACSIO_MIF_Init` gives every rank
a `groupRank` in `0 .. numGroups-1`; each of the first `remainder` groups has exactly
`groupSize+1` ranks, each other group exactly `groupSize`; the group sizes add up to
`commSize`. Scenario `commSize = 10`, `numGroups = 3`: groups `{0,1,2,3}`, `{4,5,6}`,
`{7,8,9}`, and rank 4 has `groupRank 1`, `rankInGroup 0`, no predecessor, successor 5. -/
theorem C1_partition_group_sizes (commSize numGroups : Int) (h1 : 1 ≤ numGroups)
    (h2 : numGroups ≤ commSize) (h3 : commSize ≤ INT_MAX) :
    (∀ r, 0 ≤ r → r < commSize →
      ∃ p, MACSIO_MIF_Init_partition numGroups commSize r = .ok p ∧
        p.groupSize = commSize / numGroups ∧
        p.numGroupsWithExtraProc = commSize % numGroups ∧
        0 ≤ p.groupRank ∧ p.groupRank < numGroups) ∧
    (∀ g, 0 ≤ g → g < commSize % numGroups →
      ((groupMembers numGroups commSize g).length : Int) = commSize / numGroups + 1) ∧
    (∀ g, commSize % numGroups ≤ g → g < numGroups →
      ((groupMembers numGroups commSize g).length : Int) = commSize / numGroups) ∧
    ((allGroups numGroups).map
      (fun g => ((groupMembers numGroups commSize g).length : Int))).sum = commSize ∧
    (groupMembers 3 10 0 = [0, 1, 2, 3] ∧ groupMembers 3 10 1 = [4, 5, 6] ∧
      groupMembers 3 10 2 = [7, 8, 9] ∧
      MACSIO_MIF_Init_partition 3 10 4 = .ok
        { commSize := 10, rankInComm := 4, numGroups := 3, numGroupsWithExtraProc := 1,
          groupSize := 3, groupRank := 1, commSplit := 4, rankInGroup := 0,
          procBeforeMe := -1, procAfterMe := 5 }) := by
  obtain ⟨hs, hm0, hmk, _, _⟩ := divmod_facts h1 h2
  obtain ⟨_, hsp⟩ := split_le h1 h2
  refine ⟨?_, ?_, ?_, ?_, by decide, by decide, by decide, rfl⟩
  · intro r hr0 hr
    refine ⟨_, init_partition_eq h1 h2 h3 hr0 hr, rfl, rfl, ?_, ?_⟩
    · exact (rank_decomp hs hm0 hr0).2.2.2.1
    · exact grpOf_lt hs hmk hsp hr
  · intro g hg0 hgm
    rw [length_groupMembers h1 h2 h3 hg0 (by omega), groupLen, if_pos hgm]
  · intro g hgm hgk
    rw [length_groupMembers h1 h2 h3 (by omega) hgk, groupLen, if_neg (by omega)]
  · have hcongr : (allGroups numGroups).map
        (fun g => ((groupMembers numGroups commSize g).length : Int)) =
        (List.range numGroups.toNat).map
          (fun g => groupLen (commSize / numGroups) (commSize % numGroups) (Int.ofNat g)) := by
      unfold allGroups
      rw [List.map_map]
      apply List.map_congr_left
      intro x hx
      have hx' : x < numGroups.toNat := List.mem_range.mp hx
      exact length_groupMembers h1 h2 h3 (Int.ofNat_nonneg x)
        (by simp only [Int.ofNat_eq_coe]; omega)
    rw [hcongr, sum_groupLen hm0, firstRank, if_neg (by omega)]
    rw [show ((numGroups.toNat : Nat) : Int) = numGroups by omega]
    exact hsp

/-- C1 at `commSize = 10`, `numGroups = 3`. -/
theorem C1_partition_group_sizes_witness :
    (1 : Int) ≤ 3 ∧ (3 : Int) ≤ 10 ∧ (10 : Int) ≤ INT_MAX ∧
      ((groupMembers 3 10 0).length : Int) = 10 / 3 + 1 :=
  ⟨by decide, by decide, by decide,
    (C1_partition_group_sizes 10 3 (by decide) (by decide) (by decide)).2.1 0 (by decide)
      (by decide)⟩

/-- Under the partitioner's precondition `initPair` is the closed form. -/
theorem initPair_eq {n k r : Int} (hk : 1 ≤ k) (hkn : k ≤ n) (hn : n ≤ INT_MAX)
    (hr0 : 0 ≤ r) (hr : r < n) :
    initPair k n r = some (grpOf (n / k) (n % k) r, posOf (n / k) (n % k) r) := by
  simp [initPair, init_partition_eq hk hkn hn hr0 hr, partitionRef]

/-- The group index does not decrease with the rank. -/
theorem grpOf_mono {s m r r' : Int} (hs : 1 ≤ s) (hrr : r ≤ r') :
    grpOf s m r ≤ grpOf s m r' := by
  unfold grpOf
  by_cases h : r < m * (s + 1)
  · by_cases h' : r' < m * (s + 1)
    · rw [if_pos h, if_pos h']
      exact Int.ediv_le_ediv (by omega) hrr
    · rw [if_pos h, if_neg h']
      have h1 : r / (s + 1) < m := Int.ediv_lt_of_lt_mul (by omega) h
      have h2 : 0 ≤ (r' - m * (s + 1)) / s := Int.ediv_nonneg (by omega) (by omega)
      omega
  · have h' : ¬ r' < m * (s + 1) := by omega
    rw [if_neg h, if_neg h']
    have := Int.ediv_le_ediv (show 0 < s by omega)
      (show r - m * (s + 1) ≤ r' - m * (s + 1) by omega)
    omega

/-- C2: for `1 ≤ numGroups ≤ commSize`, the pair `(groupRank, rankInGroup)` that
`MACSIO_MIF_Init` computes determines the rank: `r = firstRank(groupRank) + rankInGroup`
with `0 ≤ rankInGroup < size of the group`; the map from ranks to pairs is injective,
every position of every group is taken, `groupRank` is non-decreasing in the rank and
each group is a contiguous range of ranks. -/
theorem C2_rank_pair_bijection (commSize numGroups : Int) (h1 : 1 ≤ numGroups)
    (h2 : numGroups ≤ commSize) (h3 : commSize ≤ INT_MAX) :
    (∀ r, 0 ≤ r → r < commSize →
      ∃ p, MACSIO_MIF_Init_partition numGroups commSize r = .ok p ∧
        p.groupSize = commSize / numGroups ∧
        p.numGroupsWithExtraProc = commSize % numGroups ∧
        p.commSplit = p.numGroupsWithExtraProc * (p.groupSize + 1) ∧
        r = firstRank p.groupSize p.numGroupsWithExtraProc p.groupRank + p.rankInGroup ∧
        0 ≤ p.rankInGroup ∧
        p.rankInGroup < groupLen p.groupSize p.numGroupsWithExtraProc p.groupRank) ∧
    (∀ r r', 0 ≤ r → r < commSize → 0 ≤ r' → r' < commSize →
      initPair numGroups commSize r = initPair numGroups commSize r' → r = r') ∧
    (∀ g i, 0 ≤ g → g < numGroups → 0 ≤ i →
      i < groupLen (commSize / numGroups) (commSize % numGroups) g →
      ∃ r, 0 ≤ r ∧ r < commSize ∧ initPair numGroups commSize r = some (g, i)) ∧
    (∀ r r', 0 ≤ r → r ≤ r' → r' < commSize →
      ∃ g g', initGroupRank numGroups commSize r = some g ∧
        initGroupRank numGroups commSize r' = some g' ∧ g ≤ g') ∧
    (∀ r r' r'', 0 ≤ r → r ≤ r'' → r'' ≤ r' → r' < commSize →
      initGroupRank numGroups commSize r = initGroupRank numGroups commSize r' →
      initGroupRank numGroups commSize r'' = initGroupRank numGroups commSize r) := by
  obtain ⟨hs, hm0, hmk, _, _⟩ := divmod_facts h1 h2
  obtain ⟨_, hsp⟩ := split_le h1 h2
  refine ⟨?_, ?_, ?_, ?_, ?_⟩
  · intro r hr0 hr
    obtain ⟨e1, e2, e3, _, _⟩ := rank_decomp hs hm0 hr0
    exact ⟨_, init_partition_eq h1 h2 h3 hr0 hr, rfl, rfl, rfl, e1, e2, e3⟩
  · intro r r' hr0 hr hr0' hr' heq
    rw [initPair_eq h1 h2 h3 hr0 hr, initPair_eq h1 h2 h3 hr0' hr'] at heq
    simp only [Option.some.injEq, Prod.mk.injEq] at heq
    have e1 := (rank_decomp hs hm0 hr0).1
    have e2 := (rank_decomp hs hm0 hr0').1
    rw [heq.1, heq.2] at e1
    omega
  · intro g i hg0 hgk hi0 hi
    obtain ⟨e1, e2, e3⟩ := rank_of_pair hs hm0 hg0 hi0 hi
    have e4 := rank_of_pair_lt hs (le_of_lt hmk) hsp hgk hi
    exact ⟨_, e3, e4, by rw [initPair_eq h1 h2 h3 e3 e4, e1, e2]⟩
  · intro r r' hr0 hrr hr'
    exact ⟨_, _, initGroupRank_eq h1 h2 h3 hr0 (by omega),
      initGroupRank_eq h1 h2 h3 (by omega) hr', grpOf_mono hs hrr⟩
  · intro r r' r'' hr0 hrr1 hrr2 hr' heq
    rw [initGroupRank_eq h1 h2 h3 hr0 (by omega), initGroupRank_eq h1 h2 h3 (by omega) hr']
      at heq
    rw [initGroupRank_eq h1 h2 h3 hr0 (by omega),
      initGroupRank_eq h1 h2 h3 (by omega) (by omega)]
    simp only [Option.some.injEq] at heq ⊢
    have a1 := @grpOf_mono (commSize / numGroups) (commSize % numGroups) r r'' hs hrr1
    have a2 := @grpOf_mono (commSize / numGroups) (commSize % numGroups) r'' r' hs hrr2
    omega

/-- C2 at `commSize = 10`, `numGroups = 3`: ranks 3 and 4 have different pairs. -/
theorem C2_rank_pair_bijection_witness :
    (1 : Int) ≤ 3 ∧ (3 : Int) ≤ 10 ∧ (10 : Int) ≤ INT_MAX ∧
      (initPair 3 10 3 = initPair 3 10 4 → (3 : Int) = 4) :=
  ⟨by decide, by decide, by decide,
    (C2_rank_pair_bijection 10 3 (by decide) (by decide) (by decide)).2.1 3 4 (by decide)
      (by decide) (by decide) (by decide)⟩

/-- With all three callbacks present `MACSIO_MIF_Init` returns the baton holding the
closed-form partition. -/
theorem init_eq {n k r : Int} (hk : 1 ≤ k) (hkn : k ≤ n) (hn : n ≤ INT_MAX)
    (hr0 : 0 ≤ r) (hr : r < n) (ioFlags : MACSIO_MIF_ioFlags_t) (mpiComm mpiTag : Int)
    (createCb : MACSIO_MIF_CreateCB) (openCb : MACSIO_MIF_OpenCB)
    (closeCb : MACSIO_MIF_CloseCB) (clientData : Ptr) :
    MACSIO_MIF_Init k ioFlags mpiComm n r mpiTag (some createCb) (some openCb)
      (some closeCb) clientData = .ok (some
      { ioFlags := ioFlags, mpiComm := mpiComm, commSize := n, rankInComm := r,
        numGroups := k, numGroupsWithExtraProc := n % k, groupSize := n / k,
        groupRank := grpOf (n / k) (n % k) r, commSplit := n % k * (n / k + 1),
        rankInGroup := posOf (n / k) (n % k) r,
        procBeforeMe := predOf (n / k) (n % k) r,
        procAfterMe := succOf (n / k) (n % k) r,
        mifErr := MACSIO_MIF_BATON_OK, mpiErr := MPI_SUCCESS, mpiTag := mpiTag,
        createCb := createCb, openCb := openCb, closeCb := closeCb,
        clientData := clientData }) := by
  unfold MACSIO_MIF_Init
  rw [init_partition_eq hk hkn hn hr0 hr]
  rfl

/-- Under the partitioner's precondition the two rank queries, on a baton that stores
`groupSize`, `remainder` and `commSplit`, are the closed forms. -/
theorem rank_queries_eq {n k r : Int} (hk : 1 ≤ k) (hkn : k ≤ n) (hn : n ≤ INT_MAX)
    (hr0 : 0 ≤ r) (hr : r < n) (Bat : MACSIO_MIF_baton_t)
    (hgs : Bat.groupSize = n / k) (hrem : Bat.numGroupsWithExtraProc = n % k)
    (hsplit : Bat.commSplit = n % k * (n / k + 1)) :
    MACSIO_MIF_RankOfGroup Bat r = .ok (grpOf (n / k) (n % k) r) ∧
      MACSIO_MIF_RankInGroup Bat r = .ok (posOf (n / k) (n % k) r) := by
  obtain ⟨hs, hm0, hmk, hdiv, hsn⟩ := divmod_facts hk hkn
  obtain ⟨hsp0, hsp⟩ := split_le hk hkn
  have hmax : n ≤ 2147483647 := hn
  have hrmax : r ≤ INT_MAX := by unfold INT_MAX; omega
  unfold MACSIO_MIF_RankOfGroup MACSIO_MIF_RankInGroup grpOf posOf
  rw [hgs, hrem, hsplit]
  generalize n / k = s at *
  generalize n % k = m at *
  generalize hc' : m * (s + 1) = c at *
  have hkm : 0 ≤ (k - m) * s := mul_nonneg (by omega) (by omega)
  by_cases hlt : r < c
  · have hm1 : 1 ≤ m := by
      by_contra hcon
      have : m = 0 := by omega
      subst this; simp at hc'; omega
    have hs1 : s + 1 ≤ c := by
      rw [← hc']; nlinarith [mul_nonneg (show 0 ≤ m - 1 by omega) (show 0 ≤ s + 1 by omega)]
    have h1 : cAdd s 1 = s + 1 := wrapInt_eq (by omega) (by omega)
    rw [if_pos hlt, if_pos hlt, if_pos hlt, if_pos hlt, h1, cDiv_eq hr0 (by omega) hrmax,
      cMod_eq hr0 (by omega) hrmax]
    exact ⟨rfl, rfl⟩
  · have hrc0 : 0 ≤ r - c := by omega
    have h0 : cSub r c = r - c := wrapInt_eq (by omega) (by omega)
    have hq0 : 0 ≤ (r - c) / s := Int.ediv_nonneg hrc0 (by omega)
    have h4 : cAdd m ((r - c) / s) = m + (r - c) / s := by
      have : (r - c) / s < k - m := by
        apply Int.ediv_lt_of_lt_mul (by omega); omega
      exact wrapInt_eq (by omega) (by omega)
    rw [if_neg hlt, if_neg hlt, if_neg hlt, if_neg hlt, h0,
      cDiv_eq hrc0 (by omega) (by unfold INT_MAX; omega),
      cMod_eq hrc0 (by omega) (by unfold INT_MAX; omega)]
    simp only [bind, Except.bind, pure, Except.pure, h4, and_self]

/-- C3: for `1 ≤ numGroups ≤ commSize` and ranks `q`, `r` of the communicator,
`MACSIO_MIF_RankOfGroup` and `MACSIO_MIF_RankInGroup`, called on the baton that
`MACSIO_MIF_Init` builds for rank `q` and asked about rank `r`, return the `groupRank`
and `rankInGroup` stored in the baton that `MACSIO_MIF_Init` builds for rank `r`. -/
theorem C3_rank_queries_agree_with_init (commSize numGroups q r : Int)
    (h1 : 1 ≤ numGroups) (h2 : numGroups ≤ commSize) (h3 : commSize ≤ INT_MAX)
    (hq0 : 0 ≤ q) (hq : q < commSize) (hr0 : 0 ≤ r) (hr : r < commSize)
    (ioFlags : MACSIO_MIF_ioFlags_t) (mpiComm mpiTag : Int)
    (createCb : MACSIO_MIF_CreateCB) (openCb : MACSIO_MIF_OpenCB)
    (closeCb : MACSIO_MIF_CloseCB) (clientData : Ptr) :
    ∃ Bq Br,
      MACSIO_MIF_Init numGroups ioFlags mpiComm commSize q mpiTag (some createCb)
        (some openCb) (some closeCb) clientData = .ok (some Bq) ∧
      MACSIO_MIF_Init numGroups ioFlags mpiComm commSize r mpiTag (some createCb)
        (some openCb) (some closeCb) clientData = .ok (some Br) ∧
      MACSIO_MIF_RankOfGroup Bq r = .ok Br.groupRank ∧
      MACSIO_MIF_RankInGroup Bq r = .ok Br.rankInGroup := by
  refine ⟨_, _, init_eq h1 h2 h3 hq0 hq ioFlags mpiComm mpiTag createCb openCb closeCb
    clientData, init_eq h1 h2 h3 hr0 hr ioFlags mpiComm mpiTag createCb openCb closeCb
    clientData, ?_⟩
  exact rank_queries_eq h1 h2 h3 hr0 hr _ rfl rfl rfl

/-- C3 at `commSize = 10`, `numGroups = 3`: rank 7 asks about rank 4. -/
theorem C3_rank_queries_agree_with_init_witness :
    (1 : Int) ≤ 3 ∧ (3 : Int) ≤ 10 ∧ (10 : Int) ≤ INT_MAX ∧ (0 : Int) ≤ 7 ∧ (7 : Int) < 10 ∧
      (0 : Int) ≤ 4 ∧ (4 : Int) < 10 ∧
      ∃ Bq Br,
        MACSIO_MIF_Init 3 ⟨true, false⟩ 0 10 7 99 (some (fun _ _ _ => 1))
          (some (fun _ _ _ _ => 1)) (some (fun _ _ => ())) 0 = .ok (some Bq) ∧
        MACSIO_MIF_Init 3 ⟨true, false⟩ 0 10 4 99 (some (fun _ _ _ => 1))
          (some (fun _ _ _ _ => 1)) (some (fun _ _ => ())) 0 = .ok (some Br) ∧
        MACSIO_MIF_RankOfGroup Bq 4 = .ok Br.groupRank ∧
        MACSIO_MIF_RankInGroup Bq 4 = .ok Br.rankInGroup :=
  ⟨by decide, by decide, by decide, by decide, by decide, by decide, by decide,
    C3_rank_queries_agree_with_init 10 3 7 4 (by decide) (by decide) (by decide)
      (by decide) (by decide) (by decide) (by decide) ⟨true, false⟩ 0 99
      (fun _ _ _ => 1) (fun _ _ _ _ => 1) (fun _ _ => ()) 0⟩

/-- Under the partitioner's precondition `initProcBefore` is the closed form. -/
theorem initProcBefore_eq {n k r : Int} (hk : 1 ≤ k) (hkn : k ≤ n) (hn : n ≤ INT_MAX)
    (hr0 : 0 ≤ r) (hr : r < n) :
    initProcBefore k n r = some (predOf (n / k) (n % k) r) := by
  simp [initProcBefore, init_partition_eq hk hkn hn hr0 hr, partitionRef]

/-- Under the partitioner's precondition `initProcAfter` is the closed form. -/
theorem initProcAfter_eq {n k r : Int} (hk : 1 ≤ k) (hkn : k ≤ n) (hn : n ≤ INT_MAX)
    (hr0 : 0 ≤ r) (hr : r < n) :
    initProcAfter k n r = some (succOf (n / k) (n % k) r) := by
  simp [initProcAfter, init_partition_eq hk hkn hn hr0 hr, partitionRef]

/-- Groups are not empty. -/
theorem groupLen_pos {s m g : Int} (hs : 1 ≤ s) : 0 < groupLen s m g := by
  unfold groupLen; split <;> omega

/-- The first rank of a group is not negative. -/
theorem firstRank_nonneg {s m g : Int} (hs : 1 ≤ s) (hm : 0 ≤ m) (hg : 0 ≤ g) :
    0 ≤ firstRank s m g := by
  have := (rank_of_pair hs hm hg (le_refl 0) (groupLen_pos hs)).2.2
  omega

/-- There is no predecessor exactly at position 0. -/
theorem predOf_none_iff {s m r : Int} (hs : 1 ≤ s) (hm : 0 ≤ m) (hr : 0 ≤ r) :
    predOf s m r = -1 ↔ posOf s m r = 0 := by
  obtain ⟨e1, e2, _, e4, _⟩ := rank_decomp hs hm hr
  have hf := @firstRank_nonneg s m (grpOf s m r) hs hm e4
  unfold predOf
  by_cases h : posOf s m r > 0
  · rw [if_pos h]; omega
  · rw [if_neg h]; omega

/-- There is no successor exactly at the last position of the group. -/
theorem succOf_none_iff {s m r : Int} (hs : 1 ≤ s) (hm : 0 ≤ m) (hr : 0 ≤ r) :
    succOf s m r = -1 ↔ posOf s m r = groupLen s m (grpOf s m r) - 1 := by
  obtain ⟨_, _, e3, _, _⟩ := rank_decomp hs hm hr
  rw [succOf_eq hs hm hr]
  by_cases h : posOf s m r < groupLen s m (grpOf s m r) - 1
  · rw [if_pos h]; omega
  · rw [if_neg h]; omega

/-- Moving by `d` inside a group keeps the group and shifts the position. -/
theorem grpOf_shift {s m r d : Int} (hs : 1 ≤ s) (hm : 0 ≤ m) (hr : 0 ≤ r)
    (h0 : 0 ≤ posOf s m r + d) (h1 : posOf s m r + d < groupLen s m (grpOf s m r)) :
    grpOf s m (r + d) = grpOf s m r ∧ posOf s m (r + d) = posOf s m r + d := by
  obtain ⟨e1, _, _, e4, _⟩ := rank_decomp hs hm hr
  have := rank_of_pair hs hm e4 h0 h1
  rw [show firstRank s m (grpOf s m r) + (posOf s m r + d) = r + d by omega] at this
  exact ⟨this.1, this.2.1⟩

/-- C4: for `1 ≤ numGroups ≤ commSize`, with `procBeforeMe` and `procAfterMe` as
`MACSIO_MIF_Init` computes them (`-1`: none): every group has exactly one member
without predecessor, the one at position 0, and exactly one member without successor,
the one at the last position of the group; a rank `r` with a successor has successor
`r+1`, a rank of the same group whose predecessor is `r`; a rank `r` with a
predecessor has predecessor `r-1`, a rank of the same group whose successor is `r`. -/
theorem C4_chain_consistency (commSize numGroups : Int) (h1 : 1 ≤ numGroups)
    (h2 : numGroups ≤ commSize) (h3 : commSize ≤ INT_MAX) :
    (∀ g, 0 ≤ g → g < numGroups →
      ∃ r, (0 ≤ r ∧ r < commSize ∧ initPair numGroups commSize r = some (g, 0) ∧
          initProcBefore numGroups commSize r = some (-1)) ∧
        ∀ r', 0 ≤ r' → r' < commSize → initGroupRank numGroups commSize r' = some g →
          initProcBefore numGroups commSize r' = some (-1) → r' = r) ∧
    (∀ g, 0 ≤ g → g < numGroups →
      ∃ r, (0 ≤ r ∧ r < commSize ∧
          initPair numGroups commSize r =
            some (g, groupLen (commSize / numGroups) (commSize % numGroups) g - 1) ∧
          initProcAfter numGroups commSize r = some (-1)) ∧
        ∀ r', 0 ≤ r' → r' < commSize → initGroupRank numGroups commSize r' = some g →
          initProcAfter numGroups commSize r' = some (-1) → r' = r) ∧
    (∀ r a, 0 ≤ r → r < commSize → initProcAfter numGroups commSize r = some a →
      a ≠ -1 →
      a = r + 1 ∧ r + 1 < commSize ∧
        initGroupRank numGroups commSize (r + 1) = initGroupRank numGroups commSize r ∧
        initProcBefore numGroups commSize (r + 1) = some r) ∧
    (∀ r b, 0 ≤ r → r < commSize → initProcBefore numGroups commSize r = some b →
      b ≠ -1 →
      b = r - 1 ∧ 0 ≤ r - 1 ∧
        initGroupRank numGroups commSize (r - 1) = initGroupRank numGroups commSize r ∧
        initProcAfter numGroups commSize (r - 1) = some r) := by
  obtain ⟨hs, hm0, hmk, _, _⟩ := divmod_facts h1 h2
  obtain ⟨_, hsp⟩ := split_le h1 h2
  refine ⟨?_, ?_, ?_, ?_⟩
  · intro g hg0 hgk
    have hlen := @groupLen_pos (commSize / numGroups) (commSize % numGroups) g hs
    obtain ⟨e1, e2, e3⟩ := rank_of_pair hs hm0 hg0 (le_refl 0) hlen
    have e4 := rank_of_pair_lt hs (le_of_lt hmk) hsp hgk hlen
    refine ⟨_, ⟨e3, e4, by rw [initPair_eq h1 h2 h3 e3 e4, e1, e2], ?_⟩, ?_⟩
    · rw [initProcBefore_eq h1 h2 h3 e3 e4, (predOf_none_iff hs hm0 e3).2 e2]
    · intro r' hr0 hr hg hp
      rw [initGroupRank_eq h1 h2 h3 hr0 hr] at hg
      rw [initProcBefore_eq h1 h2 h3 hr0 hr] at hp
      simp only [Option.some.injEq] at hg hp
      have d1 := (rank_decomp hs hm0 hr0).1
      rw [(predOf_none_iff hs hm0 hr0).1 hp, hg] at d1
      exact d1
  · intro g hg0 hgk
    have hlen := @groupLen_pos (commSize / numGroups) (commSize % numGroups) g hs
    obtain ⟨e1, e2, e3⟩ := rank_of_pair hs hm0 hg0
      (show 0 ≤ groupLen (commSize / numGroups) (commSize % numGroups) g - 1 by omega)
      (by omega)
    have e4 := rank_of_pair_lt
      (i := groupLen (commSize / numGroups) (commSize % numGroups) g - 1)
      hs (le_of_lt hmk) hsp hgk (by omega)
    refine ⟨_, ⟨e3, e4, by rw [initPair_eq h1 h2 h3 e3 e4, e1, e2], ?_⟩, ?_⟩
    · rw [initProcAfter_eq h1 h2 h3 e3 e4, (succOf_none_iff hs hm0 e3).2 (by rw [e2, e1])]
    · intro r' hr0 hr hg hp
      rw [initGroupRank_eq h1 h2 h3 hr0 hr] at hg
      rw [initProcAfter_eq h1 h2 h3 hr0 hr] at hp
      simp only [Option.some.injEq] at hg hp
      have d1 := (rank_decomp hs hm0 hr0).1
      rw [(succOf_none_iff hs hm0 hr0).1 hp, hg] at d1
      exact d1
  · intro r a hr0 hr ha hne
    rw [initProcAfter_eq h1 h2 h3 hr0 hr, succOf_eq hs hm0 hr0] at ha
    simp only [Option.some.injEq] at ha
    obtain ⟨d1, d2, d3, d4, _⟩ := rank_decomp hs hm0 hr0
    by_cases hlast : posOf (commSize / numGroups) (commSize % numGroups) r <
        groupLen (commSize / numGroups) (commSize % numGroups)
          (grpOf (commSize / numGroups) (commSize % numGroups) r) - 1
    · rw [if_pos hlast] at ha
      obtain ⟨s1, s2⟩ := grpOf_shift (d := 1) hs hm0 hr0 (by omega) (by omega)
      have hlt : r + 1 < commSize := by
        have := rank_of_pair_lt
          (i := posOf (commSize / numGroups) (commSize % numGroups) r + 1)
          hs (le_of_lt hmk) hsp (grpOf_lt hs hmk hsp hr) (by omega)
        omega
      refine ⟨ha.symm, hlt, ?_, ?_⟩
      · rw [initGroupRank_eq h1 h2 h3 (by omega) hlt, initGroupRank_eq h1 h2 h3 hr0 hr, s1]
      · rw [initProcBefore_eq h1 h2 h3 (by omega) hlt, predOf, if_pos (by omega)]
        simp
    · rw [if_neg hlast] at ha
      exact absurd ha.symm hne
  · intro r b hr0 hr hb hne
    rw [initProcBefore_eq h1 h2 h3 hr0 hr, predOf] at hb
    obtain ⟨d1, d2, d3, d4, _⟩ := rank_decomp hs hm0 hr0
    have hf := @firstRank_nonneg (commSize / numGroups) (commSize % numGroups)
      (grpOf (commSize / numGroups) (commSize % numGroups) r) hs hm0 d4
    by_cases hpos : posOf (commSize / numGroups) (commSize % numGroups) r > 0
    · rw [if_pos hpos] at hb
      simp only [Option.some.injEq] at hb
      obtain ⟨s1, s2⟩ := grpOf_shift (d := -1) hs hm0 hr0 (by omega) (by omega)
      have hge : 0 ≤ r - 1 := by omega
      rw [show r + -1 = r - 1 by ring] at s1 s2
      refine ⟨hb.symm, hge, ?_, ?_⟩
      · rw [initGroupRank_eq h1 h2 h3 hge (by omega), initGroupRank_eq h1 h2 h3 hr0 hr, s1]
      · rw [initProcAfter_eq h1 h2 h3 hge (by omega), succOf_eq hs hm0 hge, s1, s2,
          if_pos (by omega)]
        simp
    · rw [if_neg hpos] at hb
      simp only [Option.some.injEq] at hb
      exact absurd hb.symm hne

/-- C4 at `commSize = 10`, `numGroups = 3`: rank 4 has successor 5. -/
theorem C4_chain_consistency_witness :
    (1 : Int) ≤ 3 ∧ (3 : Int) ≤ 10 ∧ (10 : Int) ≤ INT_MAX ∧
      ((5 : Int) = 4 + 1 ∧ (4 : Int) + 1 < 10 ∧
        initGroupRank 3 10 (4 + 1) = initGroupRank 3 10 4 ∧
        initProcBefore 3 10 (4 + 1) = some 4) :=
  ⟨by decide, by decide, by decide,
    (C4_chain_consistency 10 3 (by decide) (by decide) (by decide)).2.2.1 4 5 (by decide)
      (by decide) (by decide) (by decide)⟩

/-! ### The protocol engine, case by case -/

/-- The demo batons are the ones `MACSIO_MIF_Init` builds for ranks 0, 1 and 2. -/
theorem demoBaton_init :
    MACSIO_MIF_Init 1 ⟨true, false⟩ 0 3 0 7 (some demoCreate) (some demoOpen)
        (some demoClose) 0 = .ok (some (demoBaton 0)) ∧
      MACSIO_MIF_Init 1 ⟨true, false⟩ 0 3 1 7 (some demoCreate) (some demoOpen)
        (some demoClose) 0 = .ok (some (demoBaton 1)) ∧
      MACSIO_MIF_Init 1 ⟨true, false⟩ 0 3 2 7 (some demoCreate) (some demoOpen)
        (some demoClose) 0 = .ok (some (demoBaton 2)) :=
  ⟨rfl, rfl, rfl⟩

/-- `MACSIO_MIF_WaitForBaton` with a predecessor, the receive delivering a good baton. -/
theorem waitFor_pred_ok {σ : Type} (mpi : Transport σ) (scr : ScrEnv) (w : σ)
    (Bat : MACSIO_MIF_baton_t) (fname nsname : String) (hpred : Bat.procBeforeMe ≠ -1)
    (hok : (mpi.MPI_Recv w Bat.procBeforeMe Bat.mpiTag Bat.mpiComm).2.1 = MPI_SUCCESS ∧
      (mpi.MPI_Recv w Bat.procBeforeMe Bat.mpiTag Bat.mpiComm).2.2 ≠ MACSIO_MIF_BATON_ERR) :
    MACSIO_MIF_WaitForBaton mpi scr w Bat fname nsname =
      { world := (mpi.MPI_Recv w Bat.procBeforeMe Bat.mpiTag Bat.mpiComm).1, Bat := Bat,
        ret := Bat.openCb (if scr.HAVE_SCR = true ∧ Bat.ioFlags.use_scr = true ∧
          (scr.SCR_Route_file fname).1 = SCR_SUCCESS then (scr.SCR_Route_file fname).2
          else fname) nsname Bat.ioFlags Bat.clientData,
        trace := [Effect.MPI_Recv Bat.procBeforeMe Bat.mpiTag,
          Effect.openCb (if scr.HAVE_SCR = true ∧ Bat.ioFlags.use_scr = true ∧
            (scr.SCR_Route_file fname).1 = SCR_SUCCESS then (scr.SCR_Route_file fname).2
            else fname) nsname Bat.ioFlags Bat.clientData] } := by
  unfold MACSIO_MIF_WaitForBaton
  dsimp only
  rw [if_pos hpred, if_pos hok]
  by_cases hscr : scr.HAVE_SCR = true ∧ Bat.ioFlags.use_scr = true
  · rw [if_pos hscr]
    by_cases hrt : (scr.SCR_Route_file fname).1 = SCR_SUCCESS
    · rw [if_pos hrt, if_pos ⟨hscr.1, hscr.2, hrt⟩]
    · rw [if_neg hrt, if_neg (fun h => hrt h.2.2)]
  · rw [if_neg hscr, if_neg (fun h => hscr ⟨h.1, h.2.1⟩)]

/-- `MACSIO_MIF_WaitForBaton` with a predecessor, the receive failing or delivering
the error code. -/
theorem waitFor_pred_fail {σ : Type} (mpi : Transport σ) (scr : ScrEnv) (w : σ)
    (Bat : MACSIO_MIF_baton_t) (fname nsname : String) (hpred : Bat.procBeforeMe ≠ -1)
    (hfail : ¬ ((mpi.MPI_Recv w Bat.procBeforeMe Bat.mpiTag Bat.mpiComm).2.1 = MPI_SUCCESS ∧
      (mpi.MPI_Recv w Bat.procBeforeMe Bat.mpiTag Bat.mpiComm).2.2 ≠ MACSIO_MIF_BATON_ERR)) :
    MACSIO_MIF_WaitForBaton mpi scr w Bat fname nsname =
      { world := (mpi.MPI_Recv w Bat.procBeforeMe Bat.mpiTag Bat.mpiComm).1,
        Bat := { Bat with mifErr := MACSIO_MIF_BATON_ERR,
                          mpiErr := (mpi.MPI_Recv w Bat.procBeforeMe Bat.mpiTag Bat.mpiComm).2.1 },
        ret := NULL, trace := [Effect.MPI_Recv Bat.procBeforeMe Bat.mpiTag] } := by
  unfold MACSIO_MIF_WaitForBaton
  dsimp only
  rw [if_pos hpred, if_neg hfail]

/-- `MACSIO_MIF_WaitForBaton` without predecessor, on a write. -/
theorem waitFor_head_write {σ : Type} (mpi : Transport σ) (scr : ScrEnv) (w : σ)
    (Bat : MACSIO_MIF_baton_t) (fname nsname : String) (hnone : Bat.procBeforeMe = -1)
    (hwr : Bat.ioFlags.do_wr = true) :
    MACSIO_MIF_WaitForBaton mpi scr w Bat fname nsname =
      { world := w, Bat := Bat,
        ret := Bat.createCb (if scr.HAVE_SCR = true ∧ Bat.ioFlags.use_scr = true then
          (scr.SCR_Route_file fname).2 else fname) nsname Bat.clientData,
        trace := [Effect.createCb (if scr.HAVE_SCR = true ∧ Bat.ioFlags.use_scr = true then
          (scr.SCR_Route_file fname).2 else fname) nsname Bat.clientData] } := by
  unfold MACSIO_MIF_WaitForBaton
  dsimp only
  rw [if_neg (not_not.mpr hnone), if_pos hwr]
  by_cases hscr : scr.HAVE_SCR = true ∧ Bat.ioFlags.use_scr = true
  · rw [if_pos hscr, if_pos hscr]
  · rw [if_neg hscr, if_neg hscr]

/-- `MACSIO_MIF_WaitForBaton` without predecessor, on a read. -/
theorem waitFor_head_read {σ : Type} (mpi : Transport σ) (scr : ScrEnv) (w : σ)
    (Bat : MACSIO_MIF_baton_t) (fname nsname : String) (hnone : Bat.procBeforeMe = -1)
    (hrd : ¬ Bat.ioFlags.do_wr = true) :
    MACSIO_MIF_WaitForBaton mpi scr w Bat fname nsname =
      { world := w, Bat := Bat,
        ret := Bat.openCb (if scr.HAVE_SCR = true ∧ Bat.ioFlags.use_scr = true ∧
          (scr.SCR_Route_file fname).1 = SCR_SUCCESS then (scr.SCR_Route_file fname).2
          else fname) nsname Bat.ioFlags Bat.clientData,
        trace := [Effect.openCb (if scr.HAVE_SCR = true ∧ Bat.ioFlags.use_scr = true ∧
          (scr.SCR_Route_file fname).1 = SCR_SUCCESS then (scr.SCR_Route_file fname).2
          else fname) nsname Bat.ioFlags Bat.clientData] } := by
  unfold MACSIO_MIF_WaitForBaton
  dsimp only
  rw [if_neg (not_not.mpr hnone), if_neg hrd]
  by_cases hscr : scr.HAVE_SCR = true ∧ Bat.ioFlags.use_scr = true
  · rw [if_pos hscr]
    by_cases hrt : (scr.SCR_Route_file fname).1 = SCR_SUCCESS
    · rw [if_pos hrt, if_pos ⟨hscr.1, hscr.2, hrt⟩]
    · rw [if_neg hrt, if_neg (fun h => hrt h.2.2)]
  · rw [if_neg hscr, if_neg (fun h => hscr ⟨h.1, h.2.1⟩)]

/-- `MACSIO_MIF_HandOffBaton` without successor. -/
theorem handOff_last {σ : Type} (mpi : Transport σ) (w : σ) (Bat : MACSIO_MIF_baton_t)
    (file : Ptr) (hnone : Bat.procAfterMe = -1) :
    MACSIO_MIF_HandOffBaton mpi w Bat file =
      { world := w, Bat := Bat, trace := [Effect.closeCb file Bat.clientData] } := by
  unfold MACSIO_MIF_HandOffBaton
  dsimp only
  rw [if_neg (not_not.mpr hnone)]

/-- `MACSIO_MIF_HandOffBaton` with a successor, the send succeeding. -/
theorem handOff_send_ok {σ : Type} (mpi : Transport σ) (w : σ) (Bat : MACSIO_MIF_baton_t)
    (file : Ptr) (hsucc : Bat.procAfterMe ≠ -1)
    (hok : (mpi.MPI_Ssend w Bat.mifErr Bat.procAfterMe Bat.mpiTag Bat.mpiComm).2 =
      MPI_SUCCESS) :
    MACSIO_MIF_HandOffBaton mpi w Bat file =
      { world := (mpi.MPI_Ssend w Bat.mifErr Bat.procAfterMe Bat.mpiTag Bat.mpiComm).1,
        Bat := Bat,
        trace := [Effect.closeCb file Bat.clientData,
          Effect.MPI_Ssend Bat.mifErr Bat.procAfterMe Bat.mpiTag] } := by
  unfold MACSIO_MIF_HandOffBaton
  dsimp only
  rw [if_pos hsucc, if_neg (not_not.mpr hok)]

/-- `MACSIO_MIF_HandOffBaton` with a successor, the send failing. -/
theorem handOff_send_fail {σ : Type} (mpi : Transport σ) (w : σ) (Bat : MACSIO_MIF_baton_t)
    (file : Ptr) (hsucc : Bat.procAfterMe ≠ -1)
    (hfail : (mpi.MPI_Ssend w Bat.mifErr Bat.procAfterMe Bat.mpiTag Bat.mpiComm).2 ≠
      MPI_SUCCESS) :
    MACSIO_MIF_HandOffBaton mpi w Bat file =
      { world := (mpi.MPI_Ssend w Bat.mifErr Bat.procAfterMe Bat.mpiTag Bat.mpiComm).1,
        Bat := { Bat with mifErr := MACSIO_MIF_BATON_ERR,
                          mpiErr := (mpi.MPI_Ssend w Bat.mifErr Bat.procAfterMe Bat.mpiTag
                            Bat.mpiComm).2 },
        trace := [Effect.closeCb file Bat.clientData,
          Effect.MPI_Ssend Bat.mifErr Bat.procAfterMe Bat.mpiTag] } := by
  unfold MACSIO_MIF_HandOffBaton
  dsimp only
  rw [if_pos hsucc, if_pos hfail]

/-- C5: when the baton has a predecessor, `MACSIO_MIF_WaitForBaton` performs exactly
one receive, from `procBeforeMe` on the baton's tag, and no send. It returns a handle
produced by a callback if and only if the receive returned `MPI_SUCCESS` and the
payload is not `MACSIO_MIF_BATON_ERR`: in that case it makes exactly one callback
invocation, of the open callback (file name, namespace, `ioFlags`, `clientData`),
returns what that invocation returned and never invokes the create callback;
otherwise it invokes no callback and returns the null pointer. -/
theorem C5_wait_with_predecessor {σ : Type} (mpi : Transport σ) (scr : ScrEnv) (w : σ)
    (Bat : MACSIO_MIF_baton_t) (fname nsname : String) (hpred : Bat.procBeforeMe ≠ -1) :
    let r := mpi.MPI_Recv w Bat.procBeforeMe Bat.mpiTag Bat.mpiComm
    let res := MACSIO_MIF_WaitForBaton mpi scr w Bat fname nsname
    let f := if scr.HAVE_SCR = true ∧ Bat.ioFlags.use_scr = true ∧
      (scr.SCR_Route_file fname).1 = SCR_SUCCESS then (scr.SCR_Route_file fname).2 else fname
    res.world = r.1 ∧
    res.trace.filter Effect.isMessage = [Effect.MPI_Recv Bat.procBeforeMe Bat.mpiTag] ∧
    res.trace.filter Effect.isCreate = [] ∧
    ((∃ e ∈ res.trace, e.isOpen = true ∨ e.isCreate = true) ↔
      (r.2.1 = MPI_SUCCESS ∧ r.2.2 ≠ MACSIO_MIF_BATON_ERR)) ∧
    (r.2.1 = MPI_SUCCESS ∧ r.2.2 ≠ MACSIO_MIF_BATON_ERR →
      res.trace = [Effect.MPI_Recv Bat.procBeforeMe Bat.mpiTag,
        Effect.openCb f nsname Bat.ioFlags Bat.clientData] ∧
      res.ret = Bat.openCb f nsname Bat.ioFlags Bat.clientData) ∧
    (¬ (r.2.1 = MPI_SUCCESS ∧ r.2.2 ≠ MACSIO_MIF_BATON_ERR) →
      res.trace = [Effect.MPI_Recv Bat.procBeforeMe Bat.mpiTag] ∧ res.ret = NULL) := by
  intro r res f
  have hr : r = mpi.MPI_Recv w Bat.procBeforeMe Bat.mpiTag Bat.mpiComm := rfl
  have hf : f = if scr.HAVE_SCR = true ∧ Bat.ioFlags.use_scr = true ∧
      (scr.SCR_Route_file fname).1 = SCR_SUCCESS then (scr.SCR_Route_file fname).2
      else fname := rfl
  by_cases hok : r.2.1 = MPI_SUCCESS ∧ r.2.2 ≠ MACSIO_MIF_BATON_ERR
  · have hres : res = _ := waitFor_pred_ok mpi scr w Bat fname nsname hpred hok
    rw [← hr, ← hf] at hres
    clear_value r res f
    subst hres
    simp [hok, Effect.isMessage, Effect.isCreate, Effect.isOpen]
  · have hres : res = _ := waitFor_pred_fail mpi scr w Bat fname nsname hpred hok
    rw [← hr] at hres
    clear_value r res f
    subst hres
    simp [hok, Effect.isMessage, Effect.isCreate, Effect.isOpen]

/-- C5 on rank 1 of the demo communicator, the receive delivering `MACSIO_MIF_BATON_OK`. -/
theorem C5_wait_with_predecessor_witness :
    (demoBaton 1).procBeforeMe ≠ -1 ∧
      (MACSIO_MIF_WaitForBaton (scriptedTransport MPI_SUCCESS MACSIO_MIF_BATON_OK MPI_SUCCESS)
        noScr () (demoBaton 1) "f.dat" "ns").trace.filter Effect.isCreate = [] :=
  ⟨by decide, (C5_wait_with_predecessor
    (scriptedTransport MPI_SUCCESS MACSIO_MIF_BATON_OK MPI_SUCCESS) noScr () (demoBaton 1)
    "f.dat" "ns" (by decide)).2.2.1⟩

/-- C6 (as stated) fails: rank 1 of the demo communicator receives, with return code
`MPI_SUCCESS`, the payload `MACSIO_MIF_BATON_ERR`; afterwards `mifErr` is the error
code but `mpiErr` is `MPI_SUCCESS`. -/
theorem C6_counterexample :
    MACSIO_MIF_Init 1 ⟨true, false⟩ 0 3 1 7 (some demoCreate) (some demoOpen)
        (some demoClose) 0 = .ok (some (demoBaton 1)) ∧
      (demoBaton 1).procBeforeMe ≠ -1 ∧
      (scriptedTransport MPI_SUCCESS MACSIO_MIF_BATON_ERR MPI_SUCCESS).MPI_Recv ()
        (demoBaton 1).procBeforeMe (demoBaton 1).mpiTag (demoBaton 1).mpiComm =
        ((), MPI_SUCCESS, MACSIO_MIF_BATON_ERR) ∧
      (MACSIO_MIF_WaitForBaton (scriptedTransport MPI_SUCCESS MACSIO_MIF_BATON_ERR MPI_SUCCESS)
        noScr () (demoBaton 1) "f.dat" "ns").Bat.mifErr = MACSIO_MIF_BATON_ERR ∧
      (MACSIO_MIF_WaitForBaton (scriptedTransport MPI_SUCCESS MACSIO_MIF_BATON_ERR MPI_SUCCESS)
        noScr () (demoBaton 1) "f.dat" "ns").Bat.mpiErr = MPI_SUCCESS ∧
      ¬ ((MACSIO_MIF_WaitForBaton
        (scriptedTransport MPI_SUCCESS MACSIO_MIF_BATON_ERR MPI_SUCCESS)
        noScr () (demoBaton 1) "f.dat" "ns").Bat.mpiErr ≠ MPI_SUCCESS) :=
  ⟨rfl, by decide, rfl, rfl, rfl, by decide⟩

/-- C6 (amended): when the baton has a predecessor and the receive in
`MACSIO_MIF_WaitForBaton` fails or delivers `MACSIO_MIF_BATON_ERR`, afterwards
`mifErr` is `MACSIO_MIF_BATON_ERR` and `mpiErr` is the return code of the receive:
not `MPI_SUCCESS` when the receive failed, `MPI_SUCCESS` when the receive succeeded
and the payload was the error code; the null pointer is returned. -/
theorem C6_wait_failure_status {σ : Type} (mpi : Transport σ) (scr : ScrEnv) (w : σ)
    (Bat : MACSIO_MIF_baton_t) (fname nsname : String) (hpred : Bat.procBeforeMe ≠ -1)
    (hfail : ¬ ((mpi.MPI_Recv w Bat.procBeforeMe Bat.mpiTag Bat.mpiComm).2.1 = MPI_SUCCESS ∧
      (mpi.MPI_Recv w Bat.procBeforeMe Bat.mpiTag Bat.mpiComm).2.2 ≠ MACSIO_MIF_BATON_ERR)) :
    let r := mpi.MPI_Recv w Bat.procBeforeMe Bat.mpiTag Bat.mpiComm
    let res := MACSIO_MIF_WaitForBaton mpi scr w Bat fname nsname
    res.Bat.mifErr = MACSIO_MIF_BATON_ERR ∧ res.Bat.mpiErr = r.2.1 ∧
      (r.2.1 ≠ MPI_SUCCESS → res.Bat.mpiErr ≠ MPI_SUCCESS) ∧
      (r.2.1 = MPI_SUCCESS →
        r.2.2 = MACSIO_MIF_BATON_ERR ∧ res.Bat.mpiErr = MPI_SUCCESS) ∧
      res.ret = NULL := by
  intro r res
  have hres : res = _ := waitFor_pred_fail mpi scr w Bat fname nsname hpred hfail
  rw [hres]
  refine ⟨rfl, rfl, fun h => h, fun h => ⟨?_, h⟩, rfl⟩
  by_contra hne
  exact hfail ⟨h, hne⟩

/-- C6 (amended) on rank 1 of the demo communicator, the receive failing with code 15. -/
theorem C6_wait_failure_status_witness :
    (demoBaton 1).procBeforeMe ≠ -1 ∧
      (MACSIO_MIF_WaitForBaton (scriptedTransport 15 0 MPI_SUCCESS) noScr () (demoBaton 1)
        "f.dat" "ns").Bat.mifErr = MACSIO_MIF_BATON_ERR :=
  ⟨by decide, (C6_wait_failure_status (scriptedTransport 15 0 MPI_SUCCESS) noScr ()
    (demoBaton 1) "f.dat" "ns" (by decide) (by decide)).1⟩

/-- C7: when the baton has no predecessor, `MACSIO_MIF_WaitForBaton` performs no
receive and no send, leaves the baton (both status cells) unchanged and invokes
exactly one callback, create on a write and open otherwise, whose result it returns.
In every case an invocation of the create callback implies no predecessor and a
write; for a baton built by `MACSIO_MIF_Init` it implies `rankInGroup = 0`; and
`MACSIO_MIF_HandOffBaton` never invokes the create callback. -/
theorem C7_wait_without_predecessor {σ : Type} (mpi : Transport σ) (scr : ScrEnv) (w : σ)
    (Bat : MACSIO_MIF_baton_t) (fname nsname : String) :
    let res := MACSIO_MIF_WaitForBaton mpi scr w Bat fname nsname
    let fc := if scr.HAVE_SCR = true ∧ Bat.ioFlags.use_scr = true then
      (scr.SCR_Route_file fname).2 else fname
    let fo := if scr.HAVE_SCR = true ∧ Bat.ioFlags.use_scr = true ∧
      (scr.SCR_Route_file fname).1 = SCR_SUCCESS then (scr.SCR_Route_file fname).2 else fname
    (Bat.procBeforeMe = -1 →
      res.world = w ∧ res.trace.filter Effect.isMessage = [] ∧ res.Bat = Bat ∧
      (Bat.ioFlags.do_wr = true →
        res.trace = [Effect.createCb fc nsname Bat.clientData] ∧
        res.ret = Bat.createCb fc nsname Bat.clientData) ∧
      (Bat.ioFlags.do_wr = false →
        res.trace = [Effect.openCb fo nsname Bat.ioFlags Bat.clientData] ∧
        res.ret = Bat.openCb fo nsname Bat.ioFlags Bat.clientData)) ∧
    ((∃ e ∈ res.trace, e.isCreate = true) →
      Bat.procBeforeMe = -1 ∧ Bat.ioFlags.do_wr = true) ∧
    (∀ (commSize numGroups rank mpiComm mpiTag : Int) (ioFlags : MACSIO_MIF_ioFlags_t)
      (createCb : MACSIO_MIF_CreateCB) (openCb : MACSIO_MIF_OpenCB)
      (closeCb : MACSIO_MIF_CloseCB) (clientData : Ptr),
      1 ≤ numGroups → numGroups ≤ commSize → commSize ≤ INT_MAX → 0 ≤ rank →
      rank < commSize →
      MACSIO_MIF_Init numGroups ioFlags mpiComm commSize rank mpiTag (some createCb)
        (some openCb) (some closeCb) clientData = .ok (some Bat) →
      (∃ e ∈ res.trace, e.isCreate = true) →
      Bat.rankInGroup = 0 ∧ Bat.ioFlags.do_wr = true) ∧
    (∀ file, (MACSIO_MIF_HandOffBaton mpi w Bat file).trace.filter Effect.isCreate = []) := by
  intro res fc fo
  have hcreate : (∃ e ∈ res.trace, e.isCreate = true) →
      Bat.procBeforeMe = -1 ∧ Bat.ioFlags.do_wr = true := by
    intro h
    by_cases hp : Bat.procBeforeMe ≠ -1
    · by_cases hok : (mpi.MPI_Recv w Bat.procBeforeMe Bat.mpiTag Bat.mpiComm).2.1 =
          MPI_SUCCESS ∧
          (mpi.MPI_Recv w Bat.procBeforeMe Bat.mpiTag Bat.mpiComm).2.2 ≠ MACSIO_MIF_BATON_ERR
      · have hres : res = _ := waitFor_pred_ok mpi scr w Bat fname nsname hp hok
        simp [hres, Effect.isCreate] at h
      · have hres : res = _ := waitFor_pred_fail mpi scr w Bat fname nsname hp hok
        simp [hres, Effect.isCreate] at h
    · by_cases hwr : Bat.ioFlags.do_wr = true
      · exact ⟨not_not.mp hp, hwr⟩
      · have hres : res = _ :=
          waitFor_head_read mpi scr w Bat fname nsname (not_not.mp hp) hwr
        simp [hres, Effect.isCreate] at h
  refine ⟨?_, hcreate, ?_, ?_⟩
  · intro hnone
    by_cases hwr : Bat.ioFlags.do_wr = true
    · have hres : res = _ := waitFor_head_write mpi scr w Bat fname nsname hnone hwr
      have hfc : fc = if scr.HAVE_SCR = true ∧ Bat.ioFlags.use_scr = true then
        (scr.SCR_Route_file fname).2 else fname := rfl
      rw [← hfc] at hres
      clear_value res fc fo
      subst hres
      simp [hwr, Effect.isMessage]
    · have hres : res = _ := waitFor_head_read mpi scr w Bat fname nsname hnone hwr
      have hfo : fo = if scr.HAVE_SCR = true ∧ Bat.ioFlags.use_scr = true ∧
        (scr.SCR_Route_file fname).1 = SCR_SUCCESS then (scr.SCR_Route_file fname).2
        else fname := rfl
      rw [← hfo] at hres
      clear_value res fc fo
      subst hres
      simp [hwr, Effect.isMessage]
  · intro n k r mpiComm mpiTag ioFlags createCb openCb closeCb clientData hk hkn hn hr0 hr
      hinit hex
    obtain ⟨hnone, hwr⟩ := hcreate hex
    rw [init_eq hk hkn hn hr0 hr] at hinit
    simp only [Except.ok.injEq, Option.some.injEq] at hinit
    obtain ⟨hs, hm0, _, _, _⟩ := divmod_facts hk hkn
    subst hinit
    exact ⟨(predOf_none_iff hs hm0 hr0).1 hnone, hwr⟩
  · intro file
    by_cases h1 : Bat.procAfterMe ≠ -1
    · by_cases h2 : (mpi.MPI_Ssend w Bat.mifErr Bat.procAfterMe Bat.mpiTag Bat.mpiComm).2 =
          MPI_SUCCESS
      · rw [handOff_send_ok mpi w Bat file h1 h2]; simp [Effect.isCreate]
      · rw [handOff_send_fail mpi w Bat file h1 h2]; simp [Effect.isCreate]
    · rw [handOff_last mpi w Bat file (not_not.mp h1)]; simp [Effect.isCreate]

/-- C7 on rank 0 of the demo communicator. -/
theorem C7_wait_without_predecessor_witness :
    (demoBaton 0).procBeforeMe = -1 ∧
      (MACSIO_MIF_WaitForBaton (scriptedTransport 0 0 0) noScr () (demoBaton 0)
        "f.dat" "ns").world = () :=
  ⟨by decide, ((C7_wait_without_predecessor (scriptedTransport 0 0 0) noScr ()
    (demoBaton 0) "f.dat" "ns").1 (by decide)).1⟩

/-- C8: `MACSIO_MIF_HandOffBaton` first invokes the close callback on the handle,
exactly once; then, if and only if `procAfterMe` is not `-1`, it performs exactly one
synchronous send, to `procAfterMe` on the baton's tag, whose payload is the `mifErr`
the baton had when the call began. Without successor nothing is sent and the baton is
unchanged; when the send succeeds the baton is unchanged; when the send fails `mifErr`
becomes `MACSIO_MIF_BATON_ERR` and `mpiErr` the return code of the send. -/
theorem C8_handoff_effects {σ : Type} (mpi : Transport σ) (w : σ)
    (Bat : MACSIO_MIF_baton_t) (file : Ptr) :
    let snd := mpi.MPI_Ssend w Bat.mifErr Bat.procAfterMe Bat.mpiTag Bat.mpiComm
    let res := MACSIO_MIF_HandOffBaton mpi w Bat file
    res.trace.head? = some (Effect.closeCb file Bat.clientData) ∧
    res.trace.filter (fun e => e.isClose || e.isCreate || e.isOpen) =
      [Effect.closeCb file Bat.clientData] ∧
    ((∃ e ∈ res.trace, e.isMessage = true) ↔ Bat.procAfterMe ≠ -1) ∧
    (Bat.procAfterMe = -1 →
      res.trace = [Effect.closeCb file Bat.clientData] ∧ res.world = w ∧ res.Bat = Bat) ∧
    (Bat.procAfterMe ≠ -1 →
      res.trace = [Effect.closeCb file Bat.clientData,
        Effect.MPI_Ssend Bat.mifErr Bat.procAfterMe Bat.mpiTag] ∧
      res.world = snd.1 ∧
      (snd.2 = MPI_SUCCESS → res.Bat = Bat) ∧
      (snd.2 ≠ MPI_SUCCESS →
        res.Bat = { Bat with mifErr := MACSIO_MIF_BATON_ERR, mpiErr := snd.2 })) := by
  intro snd res
  have hsnd : snd = mpi.MPI_Ssend w Bat.mifErr Bat.procAfterMe Bat.mpiTag Bat.mpiComm := rfl
  by_cases h1 : Bat.procAfterMe ≠ -1
  · by_cases h2 : snd.2 = MPI_SUCCESS
    · have hres : res = _ := handOff_send_ok mpi w Bat file h1 h2
      rw [← hsnd] at hres
      clear_value res snd
      subst hres
      simp [h1, h2, Effect.isMessage, Effect.isClose, Effect.isCreate, Effect.isOpen]
    · have hres : res = _ := handOff_send_fail mpi w Bat file h1 h2
      rw [← hsnd] at hres
      clear_value res snd
      subst hres
      simp [h1, h2, Effect.isMessage, Effect.isClose, Effect.isCreate, Effect.isOpen]
  · have hres : res = _ := handOff_last mpi w Bat file (not_not.mp h1)
    clear_value res snd
    subst hres
    simp [h1, not_not.mp h1, Effect.isMessage, Effect.isClose, Effect.isCreate, Effect.isOpen]

/-- C8 on rank 2 of the demo communicator, which has no successor. -/
theorem C8_handoff_effects_witness :
    (demoBaton 2).procAfterMe = -1 ∧
      (MACSIO_MIF_HandOffBaton (scriptedTransport 0 0 0) () (demoBaton 2) 200).trace =
        [Effect.closeCb 200 (demoBaton 2).clientData] :=
  ⟨by decide, ((C8_handoff_effects (scriptedTransport 0 0 0) () (demoBaton 2) 200).2.2.2.1
    (by decide)).1⟩

/-! ### Error propagation along a chain -/

/-- A file-visit of a member with a predecessor, when the message waiting for it
carries the error code or no message is waiting: the member observes the error, and
what it leaves in flight is again nothing or a message carrying the error code. -/
theorem visit_upstream_error (scr : ScrEnv) (fname nsname : String) (net : MockNet)
    (b : MACSIO_MIF_baton_t) (j tag comm : Int) (hrank : b.rankInComm = j)
    (hpred : b.procBeforeMe = j - 1) (hj : j - 1 ≠ -1) (htag : b.mpiTag = tag)
    (hcomm : b.mpiComm = comm)
    (hin : net.inflight = [] ∨ net.inflight =
      [{ source := j - 1, dest := j, tag := tag, comm := comm,
         payload := MACSIO_MIF_BATON_ERR }]) :
    (visit scr fname nsname net b).2.sawUpstreamError ∧
      (visit scr fname nsname net b).2.rank = j ∧
      ((visit scr fname nsname net b).1.inflight = [] ∨
        (b.procAfterMe ≠ -1 ∧ (visit scr fname nsname net b).1.inflight =
          [{ source := j, dest := b.procAfterMe, tag := tag, comm := comm,
             payload := MACSIO_MIF_BATON_ERR }])) := by
  have hp : b.procBeforeMe ≠ -1 := by rw [hpred]; exact hj
  have hrecv : ((mockTransport b.rankInComm).MPI_Recv net b.procBeforeMe b.mpiTag
        b.mpiComm).1.inflight = [] ∧
      ¬ (((mockTransport b.rankInComm).MPI_Recv net b.procBeforeMe b.mpiTag b.mpiComm).2.1 =
          MPI_SUCCESS ∧
        ((mockTransport b.rankInComm).MPI_Recv net b.procBeforeMe b.mpiTag b.mpiComm).2.2 ≠
          MACSIO_MIF_BATON_ERR) := by
    rw [hrank, hpred, htag, hcomm]
    rcases hin with h | h
    · simp [mockTransport, mockRecv, h, MPI_ERR_OTHER, MPI_SUCCESS]
    · simp [mockTransport, mockRecv, h, Msg.answers]
  obtain ⟨hw, hfail⟩ := hrecv
  unfold visit
  dsimp only
  rw [waitFor_pred_fail _ scr net b fname nsname hp hfail]
  dsimp only
  generalize ((mockTransport b.rankInComm).MPI_Recv net b.procBeforeMe b.mpiTag
    b.mpiComm).2.1 = e at *
  generalize ((mockTransport b.rankInComm).MPI_Recv net b.procBeforeMe b.mpiTag
    b.mpiComm).1 = net1 at *
  by_cases hs : b.procAfterMe = -1
  · rw [handOff_last (mockTransport b.rankInComm) net1
      { b with mifErr := MACSIO_MIF_BATON_ERR, mpiErr := e } NULL hs]
    simp [VisitRecord.sawUpstreamError, hw, hrank, Effect.isCreate, Effect.isOpen]
  · by_cases hf : net1.failSend j = true
    · have hsend : ((mockTransport j).MPI_Ssend net1 MACSIO_MIF_BATON_ERR b.procAfterMe
          tag comm).2 ≠ MPI_SUCCESS := by
        simp [mockTransport, mockSsend, hf, MPI_ERR_OTHER, MPI_SUCCESS]
        split <;> simp
      rw [handOff_send_fail (mockTransport b.rankInComm) net1
        { b with mifErr := MACSIO_MIF_BATON_ERR, mpiErr := e } NULL hs
        (by simpa [hrank, htag, hcomm] using hsend)]
      by_cases hd : net1.deliverFailed = true
      · simp [VisitRecord.sawUpstreamError, hw, hrank, htag, hcomm, Effect.isCreate,
          Effect.isOpen, mockTransport, mockSsend, hf, hd]
        exact ⟨fun _ _ _ h _ _ => h, hs⟩
      · simp [VisitRecord.sawUpstreamError, hw, hrank, htag, hcomm, Effect.isCreate,
          Effect.isOpen, mockTransport, mockSsend, hf, hd]
        exact fun _ _ _ h _ _ => h
    · have hsend : ((mockTransport j).MPI_Ssend net1 MACSIO_MIF_BATON_ERR b.procAfterMe
          tag comm).2 = MPI_SUCCESS := by
        simp [mockTransport, mockSsend, hf]
      rw [handOff_send_ok (mockTransport b.rankInComm) net1
        { b with mifErr := MACSIO_MIF_BATON_ERR, mpiErr := e } NULL hs
        (by simpa [hrank, htag, hcomm] using hsend)]
      simp [VisitRecord.sawUpstreamError, hw, hrank, htag, hcomm, Effect.isCreate,
        Effect.isOpen, mockTransport, mockSsend, hf]
      exact ⟨fun _ _ _ h _ _ => h, hs⟩

/-- The records of a run list the ranks of the participants in order. -/
theorem runVisits_ranks (scr : ScrEnv) (fname nsname : String) :
    ∀ (bs : List MACSIO_MIF_baton_t) (net : MockNet),
      (runVisits scr fname nsname net bs).2.map (fun v => v.rank) =
        bs.map (fun b => b.rankInComm)
  | [], _ => rfl
  | b :: bs, net => by
    simp only [runVisits, List.map_cons]
    rw [runVisits_ranks scr fname nsname bs]
    rfl

/-- Along a chain of members with predecessors, when the first of them finds an error
code or nothing waiting, every member observes the error. -/
theorem runVisits_upstream_error (scr : ScrEnv) (fname nsname : String) (comm tag : Int) :
    ∀ (bs : List MACSIO_MIF_baton_t) (j : Int) (net : MockNet),
      IsChainFrom comm tag j bs →
      (net.inflight = [] ∨ net.inflight =
        [{ source := j - 1, dest := j, tag := tag, comm := comm,
           payload := MACSIO_MIF_BATON_ERR }]) →
      ∀ v ∈ (runVisits scr fname nsname net bs).2, v.sawUpstreamError
  | [], _, _, _, _ => by simp [runVisits]
  | b :: bs, j, net, hch, hin => by
    obtain ⟨hrank, hpred, hj, htag, hcomm, hsucc, hrest⟩ := hch
    obtain ⟨h1, _, h3⟩ :=
      visit_upstream_error scr fname nsname net b j tag comm hrank hpred hj htag hcomm hin
    have hnext : (visit scr fname nsname net b).1.inflight = [] ∨
        (visit scr fname nsname net b).1.inflight =
          [{ source := j + 1 - 1, dest := j + 1, tag := tag, comm := comm,
             payload := MACSIO_MIF_BATON_ERR }] := by
      rcases h3 with h | ⟨hne, h⟩
      · exact Or.inl h
      · rcases hsucc with hs | hs
        · exact absurd hs hne
        · right; rw [h, hs]; simp
    intro v hv
    simp only [runVisits, List.mem_cons] at hv
    rcases hv with hv | hv
    · rw [hv]; exact h1
    · exact runVisits_upstream_error scr fname nsname comm tag bs (j + 1) _ hrest hnext v hv

/-- Under the partitioner's precondition `initBaton` is the baton holding the closed
form of the partition. -/
theorem initBaton_eq {n k r : Int} (hk : 1 ≤ k) (hkn : k ≤ n) (hn : n ≤ INT_MAX)
    (hr0 : 0 ≤ r) (hr : r < n) (ioFlags : MACSIO_MIF_ioFlags_t) (mpiComm mpiTag : Int)
    (createCb : MACSIO_MIF_CreateCB) (openCb : MACSIO_MIF_OpenCB)
    (closeCb : MACSIO_MIF_CloseCB) (clientData : Ptr) :
    initBaton k ioFlags mpiComm n mpiTag createCb openCb closeCb clientData r = some
      { ioFlags := ioFlags, mpiComm := mpiComm, commSize := n, rankInComm := r,
        numGroups := k, numGroupsWithExtraProc := n % k, groupSize := n / k,
        groupRank := grpOf (n / k) (n % k) r, commSplit := n % k * (n / k + 1),
        rankInGroup := posOf (n / k) (n % k) r,
        procBeforeMe := predOf (n / k) (n % k) r,
        procAfterMe := succOf (n / k) (n % k) r,
        mifErr := MACSIO_MIF_BATON_OK, mpiErr := MPI_SUCCESS, mpiTag := mpiTag,
        createCb := createCb, openCb := openCb, closeCb := closeCb,
        clientData := clientData } := by
  unfold initBaton
  rw [init_eq hk hkn hn hr0 hr]

/-- Two ranks of one group differ by the difference of their positions. -/
theorem posOf_diff {s m r r' : Int} (hs : 1 ≤ s) (hm : 0 ≤ m) (hr : 0 ≤ r) (hr' : 0 ≤ r')
    (hg : grpOf s m r' = grpOf s m r) : posOf s m r' - posOf s m r = r' - r := by
  have e1 := (rank_decomp hs hm hr).1
  have e2 := (rank_decomp hs hm hr').1
  rw [hg] at e2
  omega

/-- The batons `MACSIO_MIF_Init` builds for the `d` ranks that follow rank `j - 1` in
its group form a chain. -/
theorem initBatons_chain {n k : Int} (hk : 1 ≤ k) (hkn : k ≤ n) (hn : n ≤ INT_MAX)
    (ioFlags : MACSIO_MIF_ioFlags_t) (mpiComm mpiTag : Int)
    (createCb : MACSIO_MIF_CreateCB) (openCb : MACSIO_MIF_OpenCB)
    (closeCb : MACSIO_MIF_CloseCB) (clientData : Ptr) :
    ∀ (d : Nat) (j : Int), 0 ≤ j - 1 → j - 1 + d < n →
      grpOf (n / k) (n % k) (j - 1 + d) = grpOf (n / k) (n % k) (j - 1) →
      IsChainFrom mpiComm mpiTag j
        (initBatons k ioFlags mpiComm n mpiTag createCb openCb closeCb clientData
          (ranksFrom j d)) ∧
      (initBatons k ioFlags mpiComm n mpiTag createCb openCb closeCb clientData
        (ranksFrom j d)).map (fun b => b.rankInComm) = ranksFrom j d
  | 0, _, _, _, _ => by simp [ranksFrom, initBatons, IsChainFrom]
  | d + 1, j, hj, hlt, hsame => by
    obtain ⟨hs, hm0, _, _, _⟩ := divmod_facts hk hkn
    have hj0 : 0 ≤ j := by omega
    have hjn : j < n := by omega
    have hmono1 := @grpOf_mono (n / k) (n % k) (j - 1) j hs (by omega)
    have hmono2 := @grpOf_mono (n / k) (n % k) j (j - 1 + (d + 1 : Nat)) hs
      (by push_cast; omega)
    have hgj : grpOf (n / k) (n % k) j = grpOf (n / k) (n % k) (j - 1) := by omega
    have hpos := posOf_diff hs hm0 hj hj0 hgj
    have hp0 := (rank_decomp hs hm0 hj).2.1
    obtain ⟨ih1, ih2⟩ := initBatons_chain hk hkn hn ioFlags mpiComm mpiTag createCb openCb
      closeCb clientData d (j + 1) (by omega) (by push_cast at hlt; omega)
      (by
        rw [show j + 1 - 1 = j by ring, hgj, ← hsame]
        congr 1; push_cast; ring)
    have hb := initBaton_eq hk hkn hn hj0 hjn ioFlags mpiComm mpiTag createCb openCb closeCb
      clientData
    simp only [ranksFrom, initBatons, List.filterMap_cons, hb, List.map_cons] at ih1 ih2 ⊢
    refine ⟨⟨rfl, ?_, by omega, rfl, rfl, ?_, ih1⟩, by rw [ih2]⟩
    · show predOf (n / k) (n % k) j = j - 1
      unfold predOf
      rw [if_pos (by omega)]
    · show succOf (n / k) (n % k) j = -1 ∨ succOf (n / k) (n % k) j = j + 1
      rw [succOf_eq hs hm0 hj0]
      split
      · exact Or.inr rfl
      · exact Or.inl rfl

/-- C9: over a reliable mock transport with nothing in flight, let rank `r0` and the
`d ≥ 1` ranks after it belong to one group, and let `r0` call
`MACSIO_MIF_HandOffBaton` while its `mifErr` is `MACSIO_MIF_BATON_ERR`. Then `r0`
sends the payload `MACSIO_MIF_BATON_ERR` to `r0 + 1`, and when the ranks
`r0 + 1, ..., r0 + d` make their file-visit in turn (`MACSIO_MIF_WaitForBaton`, then
`MACSIO_MIF_HandOffBaton`), for each of them `MACSIO_MIF_WaitForBaton` returns the
null pointer and leaves `mifErr` at the error code, no create or open callback is
invoked, and the payload it sends on is again the error code. -/
theorem C9_error_propagation (commSize numGroups r0 : Int) (d : Nat)
    (h1 : 1 ≤ numGroups) (h2 : numGroups ≤ commSize) (h3 : commSize ≤ INT_MAX)
    (hr0 : 0 ≤ r0) (hd : 1 ≤ d) (hrd : r0 + d < commSize)
    (hgrp : initGroupRank numGroups commSize (r0 + d) = initGroupRank numGroups commSize r0)
    (ioFlags : MACSIO_MIF_ioFlags_t) (mpiComm mpiTag : Int)
    (createCb : MACSIO_MIF_CreateCB) (openCb : MACSIO_MIF_OpenCB)
    (closeCb : MACSIO_MIF_CloseCB) (clientData : Ptr)
    (scr : ScrEnv) (fname nsname : String) (file : Ptr) (e : Int)
    (B0 : MACSIO_MIF_baton_t)
    (hB0 : MACSIO_MIF_Init numGroups ioFlags mpiComm commSize r0 mpiTag (some createCb)
      (some openCb) (some closeCb) clientData = .ok (some B0))
    (net : MockNet) (hempty : net.inflight = []) (hrel : ∀ r, net.failSend r = false) :
    let Bk := { B0 with mifErr := MACSIO_MIF_BATON_ERR, mpiErr := e }
    let ho := MACSIO_MIF_HandOffBaton (mockTransport r0) net Bk file
    let run := runVisits scr fname nsname ho.world
      (initBatons numGroups ioFlags mpiComm commSize mpiTag createCb openCb closeCb
        clientData (ranksFrom (r0 + 1) d))
    ho.trace = [Effect.closeCb file clientData,
      Effect.MPI_Ssend MACSIO_MIF_BATON_ERR (r0 + 1) mpiTag] ∧
    run.2.map (fun v => v.rank) = ranksFrom (r0 + 1) d ∧
    ∀ v ∈ run.2, v.handle = NULL ∧ v.mifErrAfterWait = MACSIO_MIF_BATON_ERR ∧
      v.mifErr = MACSIO_MIF_BATON_ERR ∧
      v.trace.filter (fun e => e.isCreate || e.isOpen) = [] ∧
      ∀ buf dest tag, Effect.MPI_Ssend buf dest tag ∈ v.trace →
        buf = MACSIO_MIF_BATON_ERR := by
  intro Bk ho run
  obtain ⟨hs, hm0, _, _, _⟩ := divmod_facts h1 h2
  have hr0n : r0 < commSize := by omega
  rw [initGroupRank_eq h1 h2 h3 (by omega) hrd, initGroupRank_eq h1 h2 h3 hr0 hr0n] at hgrp
  simp only [Option.some.injEq] at hgrp
  rw [init_eq h1 h2 h3 hr0 hr0n] at hB0
  simp only [Except.ok.injEq, Option.some.injEq] at hB0
  -- rank `r0 + 1` is in the group of `r0`, so `r0` has successor `r0 + 1`
  have hm1 := @grpOf_mono (commSize / numGroups) (commSize % numGroups) r0 (r0 + 1) hs
    (by omega)
  have hm2 := @grpOf_mono (commSize / numGroups) (commSize % numGroups) (r0 + 1) (r0 + d) hs
    (by omega)
  have hg1 : grpOf (commSize / numGroups) (commSize % numGroups) (r0 + 1) =
      grpOf (commSize / numGroups) (commSize % numGroups) r0 := by omega
  have hdiff := posOf_diff hs hm0 hr0 (show 0 ≤ r0 + 1 by omega) hg1
  have hlen := (rank_decomp hs hm0 (show 0 ≤ r0 + 1 by omega)).2.2.1
  rw [hg1] at hlen
  have hsucc : succOf (commSize / numGroups) (commSize % numGroups) r0 = r0 + 1 := by
    rw [succOf_eq hs hm0 hr0, if_pos (by omega)]
  have hBsucc : Bk.procAfterMe = r0 + 1 := by
    show B0.procAfterMe = r0 + 1
    rw [← hB0]; exact hsucc
  have hBtag : Bk.mpiTag = mpiTag := by show B0.mpiTag = mpiTag; rw [← hB0]
  have hBcomm : Bk.mpiComm = mpiComm := by show B0.mpiComm = mpiComm; rw [← hB0]
  have hBcd : Bk.clientData = clientData := by show B0.clientData = clientData; rw [← hB0]
  have hBerr : Bk.mifErr = MACSIO_MIF_BATON_ERR := rfl
  have hne : Bk.procAfterMe ≠ -1 := by rw [hBsucc]; omega
  have hsend : ((mockTransport r0).MPI_Ssend net Bk.mifErr Bk.procAfterMe Bk.mpiTag
      Bk.mpiComm).2 = MPI_SUCCESS := by
    simp [mockTransport, mockSsend, hrel]
  have hho : ho = _ := handOff_send_ok (mockTransport r0) net Bk file hne hsend
  have hrun : run = runVisits scr fname nsname ho.world
      (initBatons numGroups ioFlags mpiComm commSize mpiTag createCb openCb closeCb
        clientData (ranksFrom (r0 + 1) d)) := rfl
  clear_value run ho Bk
  have hworld : ho.world.inflight =
      [{ source := r0 + 1 - 1, dest := r0 + 1, tag := mpiTag, comm := mpiComm,
         payload := MACSIO_MIF_BATON_ERR }] := by
    rw [hho]
    simp [mockTransport, mockSsend, hrel, hempty, hBsucc, hBtag, hBcomm, hBerr]
  obtain ⟨hchain, hranks⟩ := initBatons_chain h1 h2 h3 ioFlags mpiComm mpiTag createCb
    openCb closeCb clientData d (r0 + 1) (by omega) (by omega)
    (by rw [show r0 + 1 - 1 = r0 by ring]; exact hgrp)
  refine ⟨?_, ?_, ?_⟩
  · rw [hho, hBsucc, hBtag, hBcd, hBerr]
  · rw [← hranks, hrun]
    exact runVisits_ranks scr fname nsname _ _
  · intro v hv
    rw [hrun] at hv
    exact runVisits_upstream_error scr fname nsname mpiComm mpiTag _ (r0 + 1) ho.world
      hchain (Or.inr hworld) v hv

/-- C9 on the demo communicator: rank 0 hands off with `mifErr` at the error code. -/
theorem C9_error_propagation_witness :
    (1 : Int) ≤ 1 ∧ (1 : Int) ≤ 3 ∧ (3 : Int) ≤ INT_MAX ∧ (0 : Int) ≤ 0 ∧ 1 ≤ 2 ∧
      (0 : Int) + (2 : Nat) < 3 ∧
      (MACSIO_MIF_HandOffBaton (mockTransport 0) reliableNet
        { demoBaton 0 with mifErr := MACSIO_MIF_BATON_ERR, mpiErr := 0 } 100).trace =
        [Effect.closeCb 100 0, Effect.MPI_Ssend MACSIO_MIF_BATON_ERR (0 + 1) 7] :=
  ⟨by decide, by decide, by decide, by decide, by decide, by decide,
    (C9_error_propagation 3 1 0 2 (by decide) (by decide) (by decide) (by decide)
      (by decide) (by decide) (by decide) ⟨true, false⟩ 0 7 demoCreate demoOpen demoClose 0
      noScr "f.dat" "ns" 100 0 (demoBaton 0) demoBaton_init.1 reliableNet rfl
      (fun _ => rfl)).1⟩

/-! ### Runs over the mock messaging layer -/

/-- A rank with a successor: the successor is the next rank, in the same group, and
its predecessor is this rank. -/
theorem succ_link {n k r : Int} (hk : 1 ≤ k) (hkn : k ≤ n) (hr0 : 0 ≤ r) (hr : r < n)
    (h : succOf (n / k) (n % k) r ≠ -1) :
    succOf (n / k) (n % k) r = r + 1 ∧ r + 1 < n ∧
      grpOf (n / k) (n % k) (r + 1) = grpOf (n / k) (n % k) r ∧
      posOf (n / k) (n % k) (r + 1) = posOf (n / k) (n % k) r + 1 ∧
      predOf (n / k) (n % k) (r + 1) = r := by
  obtain ⟨hs, hm0, hmk, _, _⟩ := divmod_facts hk hkn
  obtain ⟨_, hsp⟩ := split_le hk hkn
  obtain ⟨_, d2, _, _, _⟩ := rank_decomp hs hm0 hr0
  have hlast : posOf (n / k) (n % k) r < groupLen (n / k) (n % k) (grpOf (n / k) (n % k) r) - 1 := by
    by_contra hcon
    exact h ((succOf_none_iff hs hm0 hr0).2 (by
      have := (rank_decomp hs hm0 hr0).2.2.1
      omega))
  obtain ⟨s1, s2⟩ := grpOf_shift (d := 1) hs hm0 hr0 (by omega) (by omega)
  have hlt := rank_of_pair_lt (i := posOf (n / k) (n % k) r + 1) hs (le_of_lt hmk) hsp
    (grpOf_lt hs hmk hsp hr) (by omega)
  have e1 := (rank_decomp hs hm0 hr0).1
  refine ⟨by rw [succOf_eq hs hm0 hr0, if_pos hlast], by omega, s1, s2, ?_⟩
  unfold predOf
  rw [if_pos (by omega)]
  ring

/-- A rank with a predecessor: the predecessor is the previous rank, in the same
group, and its successor is this rank. -/
theorem pred_link {n k r : Int} (hk : 1 ≤ k) (hkn : k ≤ n) (hr0 : 0 ≤ r)
    (h : predOf (n / k) (n % k) r ≠ -1) :
    predOf (n / k) (n % k) r = r - 1 ∧ 1 ≤ r ∧
      grpOf (n / k) (n % k) (r - 1) = grpOf (n / k) (n % k) r ∧
      succOf (n / k) (n % k) (r - 1) = r := by
  obtain ⟨hs, hm0, _, _, _⟩ := divmod_facts hk hkn
  obtain ⟨d1, d2, d3, d4, _⟩ := rank_decomp hs hm0 hr0
  have hf := @firstRank_nonneg (n / k) (n % k) (grpOf (n / k) (n % k) r) hs hm0 d4
  have hpos : posOf (n / k) (n % k) r > 0 := by
    by_contra hcon
    exact h ((predOf_none_iff hs hm0 hr0).2 (by omega))
  obtain ⟨s1, s2⟩ := grpOf_shift (d := -1) hs hm0 hr0 (by omega) (by omega)
  rw [show r + -1 = r - 1 by ring] at s1 s2
  refine ⟨by unfold predOf; rw [if_pos hpos], by omega, s1, ?_⟩
  rw [succOf_eq hs hm0 (by omega), s1, s2, if_pos (by omega)]
  ring

/-- Under the partitioner's precondition `initBaton` is `refBaton`. -/
theorem initBaton_eq_ref {n k r : Int} (hk : 1 ≤ k) (hkn : k ≤ n) (hn : n ≤ INT_MAX)
    (hr0 : 0 ≤ r) (hr : r < n) (ioFlags : MACSIO_MIF_ioFlags_t) (mpiComm mpiTag : Int)
    (createCb : MACSIO_MIF_CreateCB) (openCb : MACSIO_MIF_OpenCB)
    (closeCb : MACSIO_MIF_CloseCB) (clientData : Ptr) :
    initBaton k ioFlags mpiComm n mpiTag createCb openCb closeCb clientData r =
      some (refBaton k ioFlags mpiComm n mpiTag createCb openCb closeCb clientData r) :=
  initBaton_eq hk hkn hn hr0 hr ioFlags mpiComm mpiTag createCb openCb closeCb clientData

/-- C11: for `1 ≤ numGroups ≤ commSize` and a rank of the communicator,
`MACSIO_MIF_Init` returns the null pointer if and only if at least one of the three
callbacks is absent; when all three are present the returned baton has `mifErr =
MACSIO_MIF_BATON_OK` and `mpiErr = MPI_SUCCESS`, stores the given flags, communicator,
tag, callbacks and client data, and stores the partition values computed for this rank
(`groupSize`, `numGroupsWithExtraProc`, `commSplit`, `groupRank`, `rankInGroup`,
`procBeforeMe`, `procAfterMe`, with `commSize`, `rankInComm` and `numGroups`). -/
theorem C11_init_callbacks_and_context (commSize numGroups rank : Int)
    (h1 : 1 ≤ numGroups) (h2 : numGroups ≤ commSize) (h3 : commSize ≤ INT_MAX)
    (hr0 : 0 ≤ rank) (hr : rank < commSize)
    (ioFlags : MACSIO_MIF_ioFlags_t) (mpiComm mpiTag : Int)
    (createCb : Option MACSIO_MIF_CreateCB) (openCb : Option MACSIO_MIF_OpenCB)
    (closeCb : Option MACSIO_MIF_CloseCB) (clientData : Ptr) :
    ∃ p res,
      MACSIO_MIF_Init_partition numGroups commSize rank = .ok p ∧
      MACSIO_MIF_Init numGroups ioFlags mpiComm commSize rank mpiTag createCb openCb
        closeCb clientData = .ok res ∧
      (res = none ↔ (createCb = none ∨ openCb = none ∨ closeCb = none)) ∧
      ∀ cc oc clc, createCb = some cc → openCb = some oc → closeCb = some clc →
        ∃ B, res = some B ∧
          B.mifErr = MACSIO_MIF_BATON_OK ∧ B.mpiErr = MPI_SUCCESS ∧
          B.ioFlags = ioFlags ∧ B.mpiComm = mpiComm ∧ B.mpiTag = mpiTag ∧
          B.createCb = cc ∧ B.openCb = oc ∧ B.closeCb = clc ∧
          B.clientData = clientData ∧
          B.commSize = commSize ∧ B.rankInComm = rank ∧ B.numGroups = numGroups ∧
          B.groupSize = p.groupSize ∧
          B.numGroupsWithExtraProc = p.numGroupsWithExtraProc ∧
          B.commSplit = p.commSplit ∧ B.groupRank = p.groupRank ∧
          B.rankInGroup = p.rankInGroup ∧ B.procBeforeMe = p.procBeforeMe ∧
          B.procAfterMe = p.procAfterMe := by
  have hp := init_partition_eq h1 h2 h3 hr0 hr
  cases createCb with
  | none =>
    refine ⟨_, none, hp, ?_, by simp, fun _ _ _ h => by simp at h⟩
    unfold MACSIO_MIF_Init; rw [hp]; rfl
  | some cc =>
    cases openCb with
    | none =>
      refine ⟨_, none, hp, ?_, by simp, fun _ _ _ _ h => by simp at h⟩
      unfold MACSIO_MIF_Init; rw [hp]; rfl
    | some oc =>
      cases closeCb with
      | none =>
        refine ⟨_, none, hp, ?_, by simp, fun _ _ _ _ _ h => by simp at h⟩
        unfold MACSIO_MIF_Init; rw [hp]; rfl
      | some clc =>
        refine ⟨_, _, hp, init_eq h1 h2 h3 hr0 hr ioFlags mpiComm mpiTag cc oc clc
          clientData, by simp, ?_⟩
        intro cc' oc' clc' e1 e2 e3
        simp only [Option.some.injEq] at e1 e2 e3
        subst e1 e2 e3
        exact ⟨_, rfl, rfl, rfl, rfl, rfl, rfl, rfl, rfl, rfl, rfl, rfl, rfl, rfl, rfl, rfl,
          rfl, rfl, rfl, rfl, rfl⟩

/-- C11 at `commSize = 10`, `numGroups = 3`, rank 4, with no close callback. -/
theorem C11_init_callbacks_and_context_witness :
    (1 : Int) ≤ 3 ∧ (3 : Int) ≤ 10 ∧ (10 : Int) ≤ INT_MAX ∧ (0 : Int) ≤ 4 ∧ (4 : Int) < 10 ∧
      ∃ p res,
        MACSIO_MIF_Init_partition 3 10 4 = .ok p ∧
        MACSIO_MIF_Init 3 ⟨true, false⟩ 0 10 4 7 (some demoCreate) (some demoOpen) none 0
          = .ok res ∧
        (res = none ↔ (some demoCreate = none ∨ some demoOpen = none ∨
          (none : Option MACSIO_MIF_CloseCB) = none)) :=
  ⟨by decide, by decide, by decide, by decide, by decide,
    let ⟨p, res, a, b, c, _⟩ := C11_init_callbacks_and_context 10 3 4 (by decide) (by decide)
      (by decide) (by decide) (by decide) ⟨true, false⟩ 0 7 (some demoCreate)
      (some demoOpen) none 0
    ⟨p, res, a, b, c⟩⟩

/-- What `MACSIO_MIF_Init` computes when it is passed the sentinel
`MACSIO_MIF_MIFMAX = -1` as the file count: the sentinel is used as a divisor, which
gives `groupSize = -commSize`, every rank in group 0 at position `rankInComm`, a
predecessor for every rank but rank 0 and no successor for any rank. -/
theorem init_partition_mifmax {n r : Int} (hn1 : 1 ≤ n) (hn : n ≤ INT_MAX)
    (hr0 : 0 ≤ r) (hr : r < n) :
    MACSIO_MIF_Init_partition MACSIO_MIF_MIFMAX n r = .ok
      { commSize := n, rankInComm := r, numGroups := -1, numGroupsWithExtraProc := 0,
        groupSize := -n, groupRank := 0, commSplit := 0, rankInGroup := r,
        procBeforeMe := if r > 0 then r - 1 else -1, procAfterMe := -1 } := by
  have hmax : n ≤ 2147483647 := hn
  have hdiv : cDiv n (-1) = .ok (-n) := by
    unfold cDiv
    rw [if_neg (by decide), Int.tdiv_neg, Int.tdiv_one, wrapInt_eq (by omega) (by omega)]
  have hmod : cMod n (-1) = .ok 0 := by
    unfold cMod
    rw [if_neg (by decide), Int.tmod_neg, Int.tmod_one]
    rfl
  have hsplit : cMul 0 (cAdd (-n) 1) = 0 := by
    unfold cMul; rw [Int.zero_mul]; rfl
  have hsub : cSub r 0 = r := by
    unfold cSub; rw [Int.sub_zero, wrapInt_eq (by omega) (by omega)]
  have hq : cDiv r (-n) = .ok 0 := by
    unfold cDiv
    rw [if_neg (by omega), Int.tdiv_neg, Int.tdiv_eq_zero_of_lt hr0 hr]
    rfl
  have hm : cMod r (-n) = .ok r := by
    unfold cMod
    rw [if_neg (by omega), Int.tmod_neg, Int.tmod_eq_of_lt hr0 hr,
      wrapInt_eq (by omega) (by omega)]
  have h00 : cAdd 0 0 = 0 := rfl
  have hs1 : cSub (-n) 1 = -n - 1 := wrapInt_eq (by omega) (by omega)
  have hr1 : cSub r 1 = r - 1 := wrapInt_eq (by omega) (by omega)
  unfold MACSIO_MIF_Init_partition MACSIO_MIF_MIFMAX
  dsimp only
  rw [hdiv, hmod]
  simp only [bind, Except.bind, hsplit, if_neg (show ¬ r < 0 by omega), hsub, hq, hm, h00,
    hs1, hr1, if_neg (show ¬ r < -n - 1 by omega), pure, Except.pure]

/-- C13: with the sentinel `MACSIO_MIF_MIFMAX = -1` the code does not build
file-per-participant groups. For every `commSize ≥ 1` and every rank with all three
callbacks present, `MACSIO_MIF_Init` returns a baton with `groupRank = 0`,
`rankInGroup = rankInComm`, `procBeforeMe = rankInComm - 1` for every rank but rank 0
and `procAfterMe = -1`; so for `commSize ≥ 2` rank 1 is not its own group: it waits for
a baton that rank 0 never sends. -/
theorem C13_mifmax_not_file_per_participant (commSize rank : Int)
    (h1 : 1 ≤ commSize) (h3 : commSize ≤ INT_MAX) (hr0 : 0 ≤ rank) (hr : rank < commSize)
    (ioFlags : MACSIO_MIF_ioFlags_t) (mpiComm mpiTag : Int)
    (createCb : MACSIO_MIF_CreateCB) (openCb : MACSIO_MIF_OpenCB)
    (closeCb : MACSIO_MIF_CloseCB) (clientData : Ptr) :
    ∃ B, MACSIO_MIF_Init MACSIO_MIF_MIFMAX ioFlags mpiComm commSize rank mpiTag
        (some createCb) (some openCb) (some closeCb) clientData = .ok (some B) ∧
      B.groupSize = -commSize ∧ B.groupRank = 0 ∧ B.rankInGroup = rank ∧
      B.procBeforeMe = (if rank > 0 then rank - 1 else -1) ∧ B.procAfterMe = -1 ∧
      (0 < rank → B.groupRank ≠ rank ∧ B.rankInGroup ≠ 0 ∧ B.procBeforeMe ≠ -1) := by
  refine ⟨_, by unfold MACSIO_MIF_Init; rw [init_partition_mifmax h1 h3 hr0 hr]; rfl,
    rfl, rfl, rfl, rfl, rfl, ?_⟩
  intro hpos
  refine ⟨?_, ?_, ?_⟩
  · show (0 : Int) ≠ rank; omega
  · show rank ≠ 0; omega
  · show (if rank > 0 then rank - 1 else -1) ≠ -1
    rw [if_pos hpos]; omega

/-- C13 at `commSize = 5`, rank 3. -/
theorem C13_mifmax_not_file_per_participant_witness :
    (1 : Int) ≤ 5 ∧ (5 : Int) ≤ INT_MAX ∧ (0 : Int) ≤ 3 ∧ (3 : Int) < 5 ∧
      ∃ B, MACSIO_MIF_Init MACSIO_MIF_MIFMAX ⟨true, false⟩ 0 5 3 7 (some demoCreate)
          (some demoOpen) (some demoClose) 0 = .ok (some B) ∧
        B.groupSize = -5 ∧ B.groupRank = 0 ∧ B.rankInGroup = 3 ∧
        B.procBeforeMe = (if (3 : Int) > 0 then 3 - 1 else -1) ∧ B.procAfterMe = -1 ∧
        ((0 : Int) < 3 → B.groupRank ≠ 3 ∧ B.rankInGroup ≠ 0 ∧ B.procBeforeMe ≠ -1) :=
  ⟨by decide, by decide, by decide, by decide,
    C13_mifmax_not_file_per_participant 5 3 (by decide) (by decide) (by decide) (by decide)
      ⟨true, false⟩ 0 7 demoCreate demoOpen demoClose 0⟩

/-- A C division by a divisor other than zero does not fault. -/
theorem cDiv_ok {a b : Int} (hb : b ≠ 0) : cDiv a b = .ok (wrapInt (Int.tdiv a b)) := by
  unfold cDiv; rw [if_neg hb]

/-- A C remainder by a divisor other than zero does not fault. -/
theorem cMod_ok {a b : Int} (hb : b ≠ 0) : cMod a b = .ok (wrapInt (Int.tmod a b)) := by
  unfold cMod; rw [if_neg hb]

/-- What `MACSIO_MIF_Init` does when it is passed the sentinel `MACSIO_MIF_MIFAUTO = -2`
as the file count: the sentinel is used as a divisor and the partition arithmetic runs
to its end without fault. -/
theorem init_partition_mifauto {n r : Int} (hn1 : 1 ≤ n) (hn : n ≤ INT_MAX)
    (hr0 : 0 ≤ r) (hr : r < n) :
    ∃ p, MACSIO_MIF_Init_partition MACSIO_MIF_MIFAUTO n r = .ok p ∧ p.numGroups = -2 ∧
      p.groupSize = -(n / 2) ∧ p.numGroupsWithExtraProc = n % 2 := by
  have hmax : n ≤ 2147483647 := hn
  have hdiv : cDiv n (-2) = .ok (-(n / 2)) := by
    rw [cDiv_ok (by decide), Int.tdiv_neg, Int.tdiv_eq_ediv (by omega) (by decide),
      wrapInt_eq (by omega) (by omega)]
  have hmod : cMod n (-2) = .ok (n % 2) := by
    rw [cMod_ok (by decide), Int.tmod_neg, Int.tmod_eq_emod (by omega) (by decide),
      wrapInt_eq (by omega) (by omega)]
  have hadd : cAdd (-(n / 2)) 1 = 1 - n / 2 := by
    unfold cAdd; rw [wrapInt_eq (by omega) (by omega)]; ring
  have hsplit : cMul (n % 2) (cAdd (-(n / 2)) 1) = n % 2 * (1 - n / 2) := by
    rw [hadd]
    unfold cMul
    rcases Int.emod_two_eq_zero_or_one n with h | h
    · rw [h]; simp; rfl
    · rw [h, Int.one_mul, wrapInt_eq (by omega) (by omega)]
  unfold MACSIO_MIF_Init_partition MACSIO_MIF_MIFAUTO
  dsimp only
  rw [hdiv, hmod]
  simp only [bind, Except.bind, hsplit]
  by_cases hlt : r < n % 2 * (1 - n / 2)
  · have hone : n % 2 = 1 ∧ n / 2 = 0 := by
      rcases Int.emod_two_eq_zero_or_one n with h | h
      · rw [h] at hlt; simp at hlt; omega
      · rw [h, Int.one_mul] at hlt; omega
    rw [if_pos hlt, hadd, cDiv_ok (by omega), cMod_ok (by omega)]
    exact ⟨_, rfl, rfl, rfl, rfl⟩
  · have hh : 1 ≤ n / 2 ∨ (n % 2 = 1 ∧ n / 2 = 0) := by omega
    have hnz : -(n / 2) ≠ 0 := by
      rcases hh with h | ⟨h1, h2⟩
      · omega
      · rw [h1, h2] at hlt; omega
    rw [if_neg hlt, cDiv_ok hnz, cMod_ok hnz]
    exact ⟨_, rfl, rfl, rfl, rfl⟩

/-- C12: with the sentinel `MACSIO_MIF_MIFAUTO = -2` the code does not fail. For every
`commSize ≥ 1` and every rank with all three callbacks present, `MACSIO_MIF_Init`
computes a partition with `numGroups = -2` and returns a baton holding it, with
`groupSize = -(commSize / 2)`. -/
theorem C12_mifauto_returns_context (commSize rank : Int)
    (h1 : 1 ≤ commSize) (h3 : commSize ≤ INT_MAX) (hr0 : 0 ≤ rank) (hr : rank < commSize)
    (ioFlags : MACSIO_MIF_ioFlags_t) (mpiComm mpiTag : Int)
    (createCb : MACSIO_MIF_CreateCB) (openCb : MACSIO_MIF_OpenCB)
    (closeCb : MACSIO_MIF_CloseCB) (clientData : Ptr) :
    ∃ B, MACSIO_MIF_Init MACSIO_MIF_MIFAUTO ioFlags mpiComm commSize rank mpiTag
        (some createCb) (some openCb) (some closeCb) clientData = .ok (some B) ∧
      B.numGroups = -2 ∧ B.groupSize = -(commSize / 2) := by
  obtain ⟨p, hp, e1, e2, _⟩ := init_partition_mifauto h1 h3 hr0 hr
  refine ⟨_, by unfold MACSIO_MIF_Init; rw [hp]; rfl, e1, e2⟩

/-- C12 at `commSize = 4`, rank 3: the returned baton has `groupRank = -1`. -/
theorem C12_mifauto_returns_context_witness :
    (1 : Int) ≤ 4 ∧ (4 : Int) ≤ INT_MAX ∧ (0 : Int) ≤ 3 ∧ (3 : Int) < 4 ∧
      (∃ B, MACSIO_MIF_Init MACSIO_MIF_MIFAUTO ⟨true, false⟩ 0 4 3 7 (some demoCreate)
          (some demoOpen) (some demoClose) 0 = .ok (some B) ∧
        B.numGroups = -2 ∧ B.groupSize = -(4 / 2)) ∧
      MACSIO_MIF_Init_partition MACSIO_MIF_MIFAUTO 4 3 = .ok
        { commSize := 4, rankInComm := 3, numGroups := -2, numGroupsWithExtraProc := 0,
          groupSize := -2, groupRank := -1, commSplit := 0, rankInGroup := 1,
          procBeforeMe := 2, procAfterMe := -1 } :=
  ⟨by decide, by decide, by decide, by decide,
    C12_mifauto_returns_context 4 3 (by decide) (by decide) (by decide) (by decide)
      ⟨true, false⟩ 0 7 demoCreate demoOpen demoClose 0, rfl⟩

/-- C14: when `numGroups = commSize`, `MACSIO_MIF_Init` gives every rank its own
singleton group: `groupSize = 1`, `remainder = 0`, `groupRank = rank`,
`rankInGroup = 0`, no predecessor and no successor. -/
theorem C14_one_group_per_rank (commSize rank : Int) (h1 : 1 ≤ commSize)
    (h3 : commSize ≤ INT_MAX) (hr0 : 0 ≤ rank) (hr : rank < commSize) :
    MACSIO_MIF_Init_partition commSize commSize rank = .ok
      { commSize := commSize, rankInComm := rank, numGroups := commSize,
        numGroupsWithExtraProc := 0, groupSize := 1, groupRank := rank, commSplit := 0,
        rankInGroup := 0, procBeforeMe := -1, procAfterMe := -1 } := by
  rw [init_partition_eq h1 (le_refl _) h3 hr0 hr]
  have e1 : commSize / commSize = 1 := Int.ediv_self (by omega)
  have e2 : commSize % commSize = 0 := Int.emod_self
  unfold partitionRef
  rw [e1, e2]
  have hnlt : ¬ rank < 0 * ((1 : Int) + 1) := by omega
  have hpos : posOf 1 0 rank = 0 := by
    unfold posOf; rw [if_neg hnlt]; simp
  have hgrp : grpOf 1 0 rank = rank := by
    unfold grpOf; rw [if_neg hnlt]; simp
  have hpred : predOf 1 0 rank = -1 := by
    unfold predOf; rw [hpos]; rfl
  have hsucc : succOf 1 0 rank = -1 := by
    unfold succOf; rw [if_neg hnlt, hpos]; rfl
  rw [hpos, hgrp, hpred, hsucc]
  rfl

/-- C14 at `commSize = 4`, rank 2. -/
theorem C14_one_group_per_rank_witness :
    (1 : Int) ≤ 4 ∧ (4 : Int) ≤ INT_MAX ∧ (0 : Int) ≤ 2 ∧ (2 : Int) < 4 ∧
      MACSIO_MIF_Init_partition 4 4 2 = .ok
        { commSize := 4, rankInComm := 2, numGroups := 4,
          numGroupsWithExtraProc := 0, groupSize := 1, groupRank := 2, commSplit := 0,
          rankInGroup := 0, procBeforeMe := -1, procAfterMe := -1 } :=
  ⟨by decide, by decide, by decide, by decide,
    C14_one_group_per_rank 4 2 (by decide) (by decide) (by decide) (by decide)⟩

/-- C15: when `numGroups = 1`, `MACSIO_MIF_Init` places all ranks in one group in
linear order: `groupSize = commSize`, `groupRank = 0`, `rankInGroup = rank`,
`procBeforeMe = rank - 1` for `rank > 0` and none for rank 0, `procAfterMe = rank + 1`
for `rank < commSize - 1` and none for the last rank. -/
theorem C15_single_group_chain (commSize rank : Int) (h1 : 1 ≤ commSize)
    (h3 : commSize ≤ INT_MAX) (hr0 : 0 ≤ rank) (hr : rank < commSize) :
    MACSIO_MIF_Init_partition 1 commSize rank = .ok
      { commSize := commSize, rankInComm := rank, numGroups := 1,
        numGroupsWithExtraProc := 0, groupSize := commSize, groupRank := 0,
        commSplit := 0, rankInGroup := rank,
        procBeforeMe := if rank > 0 then rank - 1 else -1,
        procAfterMe := if rank < commSize - 1 then rank + 1 else -1 } := by
  rw [init_partition_eq (le_refl _) h1 h3 hr0 hr]
  have e1 : commSize / 1 = commSize := Int.ediv_one _
  have e2 : commSize % 1 = 0 := Int.emod_one _
  unfold partitionRef
  rw [e1, e2]
  have hnlt : ¬ rank < 0 * (commSize + 1) := by omega
  have hpos : posOf commSize 0 rank = rank := by
    unfold posOf
    rw [if_neg hnlt, Int.zero_mul, Int.sub_zero, Int.emod_eq_of_lt hr0 hr]
  have hgrp : grpOf commSize 0 rank = 0 := by
    unfold grpOf
    rw [if_neg hnlt, Int.zero_mul, Int.sub_zero, Int.ediv_eq_zero_of_lt hr0 hr]
    rfl
  have hpred : predOf commSize 0 rank = if rank > 0 then rank - 1 else -1 := by
    unfold predOf; rw [hpos]
  have hsucc : succOf commSize 0 rank = if rank < commSize - 1 then rank + 1 else -1 := by
    unfold succOf; rw [if_neg hnlt, hpos]
  rw [hpos, hgrp, hpred, hsucc, Int.zero_mul]

/-- C15 at `commSize = 4`, rank 3 (the last of the chain). -/
theorem C15_single_group_chain_witness :
    (1 : Int) ≤ 4 ∧ (4 : Int) ≤ INT_MAX ∧ (0 : Int) ≤ 3 ∧ (3 : Int) < 4 ∧
      MACSIO_MIF_Init_partition 1 4 3 = .ok
        { commSize := 4, rankInComm := 3, numGroups := 1,
          numGroupsWithExtraProc := 0, groupSize := 4, groupRank := 0,
          commSplit := 0, rankInGroup := 3,
          procBeforeMe := if (3 : Int) > 0 then 3 - 1 else -1,
          procAfterMe := if (3 : Int) < 4 - 1 then 3 + 1 else -1 } :=
  ⟨by decide, by decide, by decide, by decide,
    C15_single_group_chain 4 3 (by decide) (by decide) (by decide) (by decide)⟩

/-! ### Whole file-visits of one participant -/

/-- C16: for a rank that is the only member of its group, with all three callbacks
present, the cycle `MACSIO_MIF_Init`, `MACSIO_MIF_WaitForBaton`,
`MACSIO_MIF_HandOffBaton`, `MACSIO_MIF_Finish` makes exactly two calls: one
create (on a write) or open (otherwise) callback, then one close callback on the
pointer that callback returned; nothing is sent or received, the transport state is
unchanged and both status cells stay ok. -/
theorem C16_singleton_full_cycle {σ : Type} (mpi : Transport σ) (scr : ScrEnv) (w : σ)
    (commSize numGroups rank g : Int)
    (h1 : 1 ≤ numGroups) (h2 : numGroups ≤ commSize) (h3 : commSize ≤ INT_MAX)
    (hr0 : 0 ≤ rank) (hr : rank < commSize)
    (hg : initGroupRank numGroups commSize rank = some g)
    (hone : (groupMembers numGroups commSize g).length = 1)
    (ioFlags : MACSIO_MIF_ioFlags_t) (mpiComm mpiTag : Int)
    (createCb : MACSIO_MIF_CreateCB) (openCb : MACSIO_MIF_OpenCB)
    (closeCb : MACSIO_MIF_CloseCB) (clientData : Ptr) (fname nsname : String) :
    ∃ res, fullCycle mpi scr w numGroups ioFlags mpiComm commSize rank mpiTag
        (some createCb) (some openCb) (some closeCb) clientData fname nsname =
        .ok (some res) ∧
      res.world = w ∧ res.mifErr = MACSIO_MIF_BATON_OK ∧ res.mpiErr = MPI_SUCCESS ∧
      res.trace.filter Effect.isMessage = [] ∧
      (res.trace.filter (fun e => e.isCreate || e.isOpen)).length = 1 ∧
      res.trace.filter Effect.isClose = [Effect.closeCb res.handle clientData] ∧
      (ioFlags.do_wr = true → ∃ f,
        res.handle = createCb f nsname clientData ∧
        res.trace = [Effect.createCb f nsname clientData,
          Effect.closeCb res.handle clientData]) ∧
      (ioFlags.do_wr = false → ∃ f,
        res.handle = openCb f nsname ioFlags clientData ∧
        res.trace = [Effect.openCb f nsname ioFlags clientData,
          Effect.closeCb res.handle clientData]) := by
  obtain ⟨hs, hm0, _, _, _⟩ := divmod_facts h1 h2
  rw [initGroupRank_eq h1 h2 h3 hr0 hr] at hg
  simp only [Option.some.injEq] at hg
  obtain ⟨_, d2, d3, d4, _⟩ := rank_decomp hs hm0 hr0
  have hlen : groupLen (commSize / numGroups) (commSize % numGroups) g = 1 := by
    rw [← length_groupMembers h1 h2 h3 (by rw [← hg]; exact d4)
      (by rw [← hg]; exact grpOf_lt hs (divmod_facts h1 h2).2.2.1 (split_le h1 h2).2 hr),
      hone]
    rfl
  rw [hg, hlen] at d3
  have hpos : posOf (commSize / numGroups) (commSize % numGroups) rank = 0 := by omega
  have hpred : predOf (commSize / numGroups) (commSize % numGroups) rank = -1 :=
    (predOf_none_iff hs hm0 hr0).2 hpos
  have hsucc : succOf (commSize / numGroups) (commSize % numGroups) rank = -1 :=
    (succOf_none_iff hs hm0 hr0).2 (by rw [hg, hlen, hpos]; rfl)
  have hinit : MACSIO_MIF_Init numGroups ioFlags mpiComm commSize rank mpiTag
      (some createCb) (some openCb) (some closeCb) clientData = .ok (some
        (refBaton numGroups ioFlags mpiComm commSize mpiTag createCb openCb closeCb
          clientData rank)) :=
    init_eq h1 h2 h3 hr0 hr ioFlags mpiComm mpiTag createCb openCb closeCb clientData
  unfold fullCycle
  rw [hinit]
  simp only [bind, Except.bind, pure, Except.pure]
  generalize hB : refBaton numGroups ioFlags mpiComm commSize mpiTag createCb openCb closeCb
    clientData rank = B
  have b1 : B.procBeforeMe = -1 := by rw [← hB]; exact hpred
  have b2 : B.procAfterMe = -1 := by rw [← hB]; exact hsucc
  have b3 : B.ioFlags = ioFlags := by rw [← hB]; rfl
  have b4 : B.clientData = clientData := by rw [← hB]; rfl
  have b5 : B.mifErr = MACSIO_MIF_BATON_OK := by rw [← hB]; rfl
  have b6 : B.mpiErr = MPI_SUCCESS := by rw [← hB]; rfl
  have b7 : B.createCb = createCb := by rw [← hB]; rfl
  have b8 : B.openCb = openCb := by rw [← hB]; rfl
  by_cases hwr : ioFlags.do_wr = true
  · rw [waitFor_head_write mpi scr w B fname nsname b1 (by rw [b3]; exact hwr)]
    dsimp only
    rw [handOff_last mpi w B _ b2]
    refine ⟨_, rfl, rfl, b5, b6, ?_, ?_, ?_, ?_, ?_⟩
    · simp [Effect.isMessage]
    · simp [Effect.isCreate, Effect.isOpen]
    · simp [Effect.isClose, b4]
    · intro _
      exact ⟨_, by rw [b7, b4], by simp [b4]⟩
    · intro h; rw [hwr] at h; exact absurd h (by decide)
  · rw [waitFor_head_read mpi scr w B fname nsname b1 (by rw [b3]; exact hwr)]
    dsimp only
    rw [handOff_last mpi w B _ b2]
    refine ⟨_, rfl, rfl, b5, b6, ?_, ?_, ?_, ?_, ?_⟩
    · simp [Effect.isMessage]
    · simp [Effect.isCreate, Effect.isOpen]
    · simp [Effect.isClose, b4]
    · intro h; exact absurd h hwr
    · intro _
      exact ⟨_, by rw [b8, b4, b3], by simp [b3, b4]⟩

/-- C16 at `commSize = 1`, `numGroups = 1`, rank 0, on a write. -/
theorem C16_singleton_full_cycle_witness :
    (1 : Int) ≤ 1 ∧ (1 : Int) ≤ 1 ∧ (1 : Int) ≤ INT_MAX ∧ (0 : Int) ≤ 0 ∧ (0 : Int) < 1 ∧
      initGroupRank 1 1 0 = some 0 ∧ (groupMembers 1 1 0).length = 1 ∧
      ∃ res, fullCycle (scriptedTransport 0 0 0) noScr () 1 ⟨true, false⟩ 0 1 0 7
          (some demoCreate) (some demoOpen) (some demoClose) 0 "f.dat" "ns" =
          .ok (some res) ∧
        res.world = () ∧ res.mifErr = MACSIO_MIF_BATON_OK ∧ res.mpiErr = MPI_SUCCESS ∧
        res.trace.filter Effect.isMessage = [] :=
  ⟨by decide, by decide, by decide, by decide, by decide, by decide, by decide,
    let ⟨res, a, b, c, d, e, _⟩ := C16_singleton_full_cycle (scriptedTransport 0 0 0) noScr
      () 1 1 0 0 (by decide) (by decide) (by decide) (by decide) (by decide) (by decide)
      (by decide) ⟨true, false⟩ 0 7 demoCreate demoOpen demoClose 0 "f.dat" "ns"
    ⟨res, a, b, c, d, e⟩⟩

/-! ### Checkpoint routing, sticky status and safe arithmetic -/

/-- C18: the file name each callback of `MACSIO_MIF_WaitForBaton` receives when
checkpoint routing is requested (`HAVE_SCR` and `use_scr`). The two open paths pass
the rewritten name when the router succeeds and the original name when it fails; the
create path (no predecessor, write) does not look at the router's return code and
always passes the contents of the output buffer, also when the router failed. -/
theorem C18_routing_per_path {σ : Type} (mpi : Transport σ) (scr : ScrEnv) (w : σ)
    (Bat : MACSIO_MIF_baton_t) (fname nsname : String)
    (hscr : scr.HAVE_SCR = true) (huse : Bat.ioFlags.use_scr = true) :
    (Bat.procBeforeMe = -1 → Bat.ioFlags.do_wr = true →
      (MACSIO_MIF_WaitForBaton mpi scr w Bat fname nsname).trace =
        [Effect.createCb (scr.SCR_Route_file fname).2 nsname Bat.clientData]) ∧
    (Bat.procBeforeMe = -1 → Bat.ioFlags.do_wr = false →
      (MACSIO_MIF_WaitForBaton mpi scr w Bat fname nsname).trace =
        [Effect.openCb (if (scr.SCR_Route_file fname).1 = SCR_SUCCESS then
          (scr.SCR_Route_file fname).2 else fname) nsname Bat.ioFlags Bat.clientData]) ∧
    (Bat.procBeforeMe ≠ -1 →
      (mpi.MPI_Recv w Bat.procBeforeMe Bat.mpiTag Bat.mpiComm).2.1 = MPI_SUCCESS ∧
        (mpi.MPI_Recv w Bat.procBeforeMe Bat.mpiTag Bat.mpiComm).2.2 ≠
          MACSIO_MIF_BATON_ERR →
      (MACSIO_MIF_WaitForBaton mpi scr w Bat fname nsname).trace =
        [Effect.MPI_Recv Bat.procBeforeMe Bat.mpiTag,
          Effect.openCb (if (scr.SCR_Route_file fname).1 = SCR_SUCCESS then
            (scr.SCR_Route_file fname).2 else fname) nsname Bat.ioFlags
            Bat.clientData]) := by
  refine ⟨?_, ?_, ?_⟩
  · intro hnone hwr
    rw [waitFor_head_write mpi scr w Bat fname nsname hnone hwr, if_pos ⟨hscr, huse⟩]
  · intro hnone hrd
    rw [waitFor_head_read mpi scr w Bat fname nsname hnone (by rw [hrd]; decide)]
    by_cases hrt : (scr.SCR_Route_file fname).1 = SCR_SUCCESS
    · rw [if_pos ⟨hscr, huse, hrt⟩, if_pos hrt]
    · rw [if_neg (fun h => hrt h.2.2), if_neg hrt]
  · intro hpred hok
    rw [waitFor_pred_ok mpi scr w Bat fname nsname hpred hok]
    by_cases hrt : (scr.SCR_Route_file fname).1 = SCR_SUCCESS
    · rw [if_pos ⟨hscr, huse, hrt⟩, if_pos hrt]
    · rw [if_neg (fun h => hrt h.2.2), if_neg hrt]

/-- C18 at a failing router: rank 0 of the demo communicator, on a write with
`use_scr` set, hands the create callback the contents of the output buffer, not the
original file name `f.dat`; on a read the open callback gets `f.dat`. -/
theorem C18_routing_per_path_witness :
    (failingScr "junk").HAVE_SCR = true ∧
      ({ demoBaton 0 with ioFlags := ⟨true, true⟩ } : MACSIO_MIF_baton_t).ioFlags.use_scr
        = true ∧
      ((failingScr "junk").SCR_Route_file "f.dat").1 ≠ SCR_SUCCESS ∧
      (MACSIO_MIF_WaitForBaton (scriptedTransport 0 0 0) (failingScr "junk") ()
        { demoBaton 0 with ioFlags := ⟨true, true⟩ } "f.dat" "ns").trace =
        [Effect.createCb "junk" "ns" 0] ∧
      (MACSIO_MIF_WaitForBaton (scriptedTransport 0 0 0) (failingScr "junk") ()
        { demoBaton 0 with ioFlags := ⟨false, true⟩ } "f.dat" "ns").trace =
        [Effect.openCb "f.dat" "ns" ⟨false, true⟩ 0] :=
  ⟨rfl, rfl, by decide,
    (C18_routing_per_path (scriptedTransport 0 0 0) (failingScr "junk") ()
      { demoBaton 0 with ioFlags := ⟨true, true⟩ } "f.dat" "ns" rfl rfl).1 rfl rfl,
    rfl⟩

/-- `MACSIO_MIF_WaitForBaton` keeps an error recorded in `mifErr` and sends nothing. -/
theorem waitFor_keeps_error {σ : Type} (mpi : Transport σ) (scr : ScrEnv) (w : σ)
    (Bat : MACSIO_MIF_baton_t) (fname nsname : String)
    (herr : Bat.mifErr = MACSIO_MIF_BATON_ERR) :
    (MACSIO_MIF_WaitForBaton mpi scr w Bat fname nsname).Bat.mifErr =
        MACSIO_MIF_BATON_ERR ∧
      (MACSIO_MIF_WaitForBaton mpi scr w Bat fname nsname).Bat.procAfterMe =
        Bat.procAfterMe ∧
      ∀ buf dest tag, Effect.MPI_Ssend buf dest tag ∉
        (MACSIO_MIF_WaitForBaton mpi scr w Bat fname nsname).trace := by
  by_cases hp : Bat.procBeforeMe ≠ -1
  · by_cases hok : (mpi.MPI_Recv w Bat.procBeforeMe Bat.mpiTag Bat.mpiComm).2.1 =
        MPI_SUCCESS ∧
        (mpi.MPI_Recv w Bat.procBeforeMe Bat.mpiTag Bat.mpiComm).2.2 ≠ MACSIO_MIF_BATON_ERR
    · rw [waitFor_pred_ok mpi scr w Bat fname nsname hp hok]
      exact ⟨herr, rfl, by simp⟩
    · rw [waitFor_pred_fail mpi scr w Bat fname nsname hp hok]
      exact ⟨rfl, rfl, by simp⟩
  · by_cases hwr : Bat.ioFlags.do_wr = true
    · rw [waitFor_head_write mpi scr w Bat fname nsname (not_not.mp hp) hwr]
      exact ⟨herr, rfl, by simp⟩
    · rw [waitFor_head_read mpi scr w Bat fname nsname (not_not.mp hp) hwr]
      exact ⟨herr, rfl, by simp⟩

/-- `MACSIO_MIF_HandOffBaton` keeps an error recorded in `mifErr`, and what it sends
carries the error code. -/
theorem handOff_keeps_error {σ : Type} (mpi : Transport σ) (w : σ)
    (Bat : MACSIO_MIF_baton_t) (file : Ptr) (herr : Bat.mifErr = MACSIO_MIF_BATON_ERR) :
    (MACSIO_MIF_HandOffBaton mpi w Bat file).Bat.mifErr = MACSIO_MIF_BATON_ERR ∧
      ((∃ e ∈ (MACSIO_MIF_HandOffBaton mpi w Bat file).trace, e.isMessage = true) ↔
        Bat.procAfterMe ≠ -1) ∧
      ∀ buf dest tag, Effect.MPI_Ssend buf dest tag ∈
        (MACSIO_MIF_HandOffBaton mpi w Bat file).trace → buf = MACSIO_MIF_BATON_ERR := by
  by_cases hs : Bat.procAfterMe ≠ -1
  · by_cases hok : (mpi.MPI_Ssend w Bat.mifErr Bat.procAfterMe Bat.mpiTag Bat.mpiComm).2 =
        MPI_SUCCESS
    · rw [handOff_send_ok mpi w Bat file hs hok]
      refine ⟨herr, by simp [Effect.isMessage, hs], ?_⟩
      intro buf dest tag h
      simp at h
      rw [h.1, herr]
    · rw [handOff_send_fail mpi w Bat file hs hok]
      refine ⟨rfl, by simp [Effect.isMessage, hs], ?_⟩
      intro buf dest tag h
      simp at h
      rw [h.1, herr]
  · rw [handOff_last mpi w Bat file (not_not.mp hs)]
    exact ⟨herr, by simp [Effect.isMessage, not_not.mp hs], by simp⟩

/-- C19: the protocol-error status is sticky. For every transport and every baton
whose `mifErr` is `MACSIO_MIF_BATON_ERR`, neither `MACSIO_MIF_WaitForBaton` nor
`MACSIO_MIF_HandOffBaton` sets it back to ok, the hand-off sends the error code (when
there is a successor), and after any number of file-visits on the same baton `mifErr`
is still the error code and every payload sent was the error code. -/
theorem C19_protocol_error_sticky {σ : Type} (mpi : Transport σ) (scr : ScrEnv)
    (Bat : MACSIO_MIF_baton_t) (herr : Bat.mifErr = MACSIO_MIF_BATON_ERR) :
    (∀ w fname nsname,
      (MACSIO_MIF_WaitForBaton mpi scr w Bat fname nsname).Bat.mifErr =
        MACSIO_MIF_BATON_ERR) ∧
    (∀ w file,
      (MACSIO_MIF_HandOffBaton mpi w Bat file).Bat.mifErr = MACSIO_MIF_BATON_ERR ∧
      (Bat.procAfterMe ≠ -1 →
        Effect.MPI_Ssend MACSIO_MIF_BATON_ERR Bat.procAfterMe Bat.mpiTag ∈
          (MACSIO_MIF_HandOffBaton mpi w Bat file).trace)) ∧
    (∀ names w,
      (fileVisits mpi scr w Bat names).Bat.mifErr = MACSIO_MIF_BATON_ERR ∧
      ∀ buf dest tag, Effect.MPI_Ssend buf dest tag ∈ (fileVisits mpi scr w Bat names).trace →
        buf = MACSIO_MIF_BATON_ERR) := by
  refine ⟨fun w fname nsname => (waitFor_keeps_error mpi scr w Bat fname nsname herr).1,
    ?_, ?_⟩
  · intro w file
    refine ⟨(handOff_keeps_error mpi w Bat file herr).1, ?_⟩
    intro hs
    by_cases hok : (mpi.MPI_Ssend w Bat.mifErr Bat.procAfterMe Bat.mpiTag Bat.mpiComm).2 =
        MPI_SUCCESS
    · rw [handOff_send_ok mpi w Bat file hs hok, herr]; simp
    · rw [handOff_send_fail mpi w Bat file hs hok, herr]; simp
  · intro names
    induction names generalizing Bat with
    | nil => intro w; exact ⟨herr, by simp [fileVisits]⟩
    | cons nm rest ih =>
      intro w
      obtain ⟨fname, nsname⟩ := nm
      obtain ⟨a1, _, a3⟩ := waitFor_keeps_error mpi scr w Bat fname nsname herr
      obtain ⟨b1, _, b3⟩ := handOff_keeps_error mpi
        (MACSIO_MIF_WaitForBaton mpi scr w Bat fname nsname).world
        (MACSIO_MIF_WaitForBaton mpi scr w Bat fname nsname).Bat
        (MACSIO_MIF_WaitForBaton mpi scr w Bat fname nsname).ret a1
      obtain ⟨c1, c3⟩ := ih _ b1
        (MACSIO_MIF_HandOffBaton mpi
          (MACSIO_MIF_WaitForBaton mpi scr w Bat fname nsname).world
          (MACSIO_MIF_WaitForBaton mpi scr w Bat fname nsname).Bat
          (MACSIO_MIF_WaitForBaton mpi scr w Bat fname nsname).ret).world
      simp only [fileVisits]
      refine ⟨c1, ?_⟩
      intro buf dest tag h
      simp only [List.mem_append] at h
      rcases h with (h | h) | h
      · exact absurd h (a3 buf dest tag)
      · exact b3 buf dest tag h
      · exact c3 buf dest tag h

/-- C19 on rank 1 of the demo communicator with `mifErr` at the error code: two
file-visits. -/
theorem C19_protocol_error_sticky_witness :
    ({ demoBaton 1 with mifErr := MACSIO_MIF_BATON_ERR } : MACSIO_MIF_baton_t).mifErr =
        MACSIO_MIF_BATON_ERR ∧
      (fileVisits (scriptedTransport MPI_SUCCESS MACSIO_MIF_BATON_OK MPI_SUCCESS) noScr ()
        { demoBaton 1 with mifErr := MACSIO_MIF_BATON_ERR }
        [("a.dat", "ns"), ("b.dat", "ns")]).Bat.mifErr = MACSIO_MIF_BATON_ERR :=
  ⟨rfl, ((C19_protocol_error_sticky
    (scriptedTransport MPI_SUCCESS MACSIO_MIF_BATON_OK MPI_SUCCESS) noScr
    { demoBaton 1 with mifErr := MACSIO_MIF_BATON_ERR } rfl).2.2
    [("a.dat", "ns"), ("b.dat", "ns")] ()).1⟩

/-- C20: under `1 ≤ numGroups ≤ commSize` and `0 ≤ rank < commSize` no division or
remainder of `MACSIO_MIF_Init`, `MACSIO_MIF_RankOfGroup` or `MACSIO_MIF_RankInGroup`
faults and every operand is non-negative: `groupSize ≥ 1`,
`0 ≤ commSplit = remainder * (groupSize + 1) ≤ commSize`, the divisor used in either
branch (`groupSize + 1`, `groupSize`) is positive, the dividend `rank - commSplit` of
the normal-group branch is non-negative, and C's truncating `/` and `%` give the floor
quotient and remainder. -/
theorem C20_divisions_safe (commSize numGroups rank : Int)
    (h1 : 1 ≤ numGroups) (h2 : numGroups ≤ commSize) (h3 : commSize ≤ INT_MAX)
    (hr0 : 0 ≤ rank) (hr : rank < commSize) :
    ∃ p, MACSIO_MIF_Init_partition numGroups commSize rank = .ok p ∧
      0 < numGroups ∧ 0 ≤ commSize ∧
      Int.tdiv commSize numGroups = commSize / numGroups ∧
      Int.tmod commSize numGroups = commSize % numGroups ∧
      p.groupSize = commSize / numGroups ∧
      p.numGroupsWithExtraProc = commSize % numGroups ∧
      1 ≤ p.groupSize ∧ 0 ≤ p.numGroupsWithExtraProc ∧
      p.commSplit = p.numGroupsWithExtraProc * (p.groupSize + 1) ∧
      0 ≤ p.commSplit ∧ p.commSplit ≤ commSize ∧
      (rank < p.commSplit →
        cAdd p.groupSize 1 = p.groupSize + 1 ∧ 0 < cAdd p.groupSize 1 ∧
        Int.tdiv rank (p.groupSize + 1) = rank / (p.groupSize + 1) ∧
        Int.tmod rank (p.groupSize + 1) = rank % (p.groupSize + 1) ∧
        p.groupRank = rank / (p.groupSize + 1) ∧
        p.rankInGroup = rank % (p.groupSize + 1)) ∧
      (¬ rank < p.commSplit →
        0 < p.groupSize ∧ cSub rank p.commSplit = rank - p.commSplit ∧
        0 ≤ cSub rank p.commSplit ∧
        Int.tdiv (rank - p.commSplit) p.groupSize = (rank - p.commSplit) / p.groupSize ∧
        Int.tmod (rank - p.commSplit) p.groupSize = (rank - p.commSplit) % p.groupSize ∧
        p.groupRank = p.numGroupsWithExtraProc + (rank - p.commSplit) / p.groupSize ∧
        p.rankInGroup = (rank - p.commSplit) % p.groupSize) ∧
      ∀ B : MACSIO_MIF_baton_t, B.groupSize = p.groupSize →
        B.numGroupsWithExtraProc = p.numGroupsWithExtraProc → B.commSplit = p.commSplit →
        MACSIO_MIF_RankOfGroup B rank = .ok p.groupRank ∧
        MACSIO_MIF_RankInGroup B rank = .ok p.rankInGroup := by
  obtain ⟨hs, hm0, hmk, hdiv, hsn⟩ := divmod_facts h1 h2
  obtain ⟨hsp0, hsp⟩ := split_le h1 h2
  have hmax : commSize ≤ 2147483647 := h3
  have hkm : 0 ≤ (numGroups - commSize % numGroups) * (commSize / numGroups) :=
    mul_nonneg (by omega) (by omega)
  have hp := init_partition_eq h1 h2 h3 hr0 hr
  generalize hpdef : partitionRef numGroups commSize rank = p at hp
  have e1 : p.groupSize = commSize / numGroups := by rw [← hpdef]; rfl
  have e2 : p.numGroupsWithExtraProc = commSize % numGroups := by rw [← hpdef]; rfl
  have e3 : p.commSplit = commSize % numGroups * (commSize / numGroups + 1) := by
    rw [← hpdef]; rfl
  have e4 : p.groupRank = grpOf (commSize / numGroups) (commSize % numGroups) rank := by
    rw [← hpdef]; rfl
  have e5 : p.rankInGroup = posOf (commSize / numGroups) (commSize % numGroups) rank := by
    rw [← hpdef]; rfl
  refine ⟨p, hp, by omega, by omega,
    Int.tdiv_eq_ediv (by omega) (by omega), Int.tmod_eq_emod (by omega) (by omega),
    e1, e2, by rw [e1]; exact hs, by rw [e2]; exact hm0, by rw [e3, e2, e1],
    by rw [e3]; exact hsp0, by rw [e3]; omega, ?_, ?_, ?_⟩
  · rw [e3, e1, e4, e5]
    intro hlt
    have hm1 : 1 ≤ commSize % numGroups := by
      by_contra hcon
      have h0 : commSize % numGroups = 0 := by omega
      rw [h0] at hlt; simp at hlt; omega
    have hs1 : commSize / numGroups + 1 ≤
        commSize % numGroups * (commSize / numGroups + 1) := by
      nlinarith [mul_nonneg (show 0 ≤ commSize % numGroups - 1 by omega)
        (show 0 ≤ commSize / numGroups + 1 by omega)]
    have hadd : cAdd (commSize / numGroups) 1 = commSize / numGroups + 1 :=
      wrapInt_eq (by omega) (by omega)
    refine ⟨hadd, by rw [hadd]; omega, Int.tdiv_eq_ediv hr0 (by omega),
      Int.tmod_eq_emod hr0 (by omega), ?_, ?_⟩
    · unfold grpOf; rw [if_pos hlt]
    · unfold posOf; rw [if_pos hlt]
  · rw [e3, e1, e2, e4, e5]
    intro hnlt
    have hsub : cSub rank (commSize % numGroups * (commSize / numGroups + 1)) =
        rank - commSize % numGroups * (commSize / numGroups + 1) :=
      wrapInt_eq (by omega) (by omega)
    refine ⟨by omega, hsub, by rw [hsub]; omega,
      Int.tdiv_eq_ediv (by omega) (by omega),
      Int.tmod_eq_emod (by omega) (by omega), ?_, ?_⟩
    · unfold grpOf; rw [if_neg hnlt]
    · unfold posOf; rw [if_neg hnlt]
  · intro B b1 b2 b3
    rw [e4, e5]
    exact rank_queries_eq h1 h2 h3 hr0 hr B (b1.trans e1) (b2.trans e2) (b3.trans e3)

/-- C20 at `commSize = 10`, `numGroups = 3`, rank 4. -/
theorem C20_divisions_safe_witness :
    (1 : Int) ≤ 3 ∧ (3 : Int) ≤ 10 ∧ (10 : Int) ≤ INT_MAX ∧ (0 : Int) ≤ 4 ∧ (4 : Int) < 10 ∧
      ∃ p, MACSIO_MIF_Init_partition 3 10 4 = .ok p ∧ (0 : Int) < 3 ∧ (0 : Int) ≤ 10 ∧
        Int.tdiv 10 3 = 10 / 3 ∧ Int.tmod 10 3 = 10 % 3 ∧ p.groupSize = 10 / 3 ∧
        p.numGroupsWithExtraProc = 10 % 3 ∧ 1 ≤ p.groupSize :=
  ⟨by decide, by decide, by decide, by decide, by decide,
    let ⟨p, a, b, c, d, e, f, g, h, _⟩ := C20_divisions_safe 10 3 4 (by decide) (by decide)
      (by decide) (by decide) (by decide)
    ⟨p, a, b, c, d, e, f, g, h⟩⟩

/-! ### Concurrent executions: the calls replayed, and the invariant at the start -/

/-- Two good batons are equal only when their senders are. -/
theorem okMsg_inj {comm tag r r' : Int} (h : okMsg comm tag r = okMsg comm tag r') :
    r = r' := by
  have := congrArg Msg.source h
  exact this

/-- Making the calls of `MACSIO_MIF_WaitForBaton` one at a time, with no call of another
rank in between, leaves the messaging layer as the function itself leaves it. -/
theorem replay_waitFor (scr : ScrEnv) (fname nsname : String) (self : Int) (net : MockNet)
    (Bat : MACSIO_MIF_baton_t) :
    replay self Bat.mpiComm net
        (MACSIO_MIF_WaitForBaton (mockTransport self) scr net Bat fname nsname).trace =
      (MACSIO_MIF_WaitForBaton (mockTransport self) scr net Bat fname nsname).world := by
  by_cases hp : Bat.procBeforeMe ≠ -1
  · by_cases hok : ((mockTransport self).MPI_Recv net Bat.procBeforeMe Bat.mpiTag
        Bat.mpiComm).2.1 = MPI_SUCCESS ∧
        ((mockTransport self).MPI_Recv net Bat.procBeforeMe Bat.mpiTag Bat.mpiComm).2.2 ≠
          MACSIO_MIF_BATON_ERR
    · rw [waitFor_pred_ok _ scr net Bat fname nsname hp hok]; rfl
    · rw [waitFor_pred_fail _ scr net Bat fname nsname hp hok]; rfl
  · have hnone := not_not.mp hp
    by_cases hwr : Bat.ioFlags.do_wr = true
    · rw [waitFor_head_write _ scr net Bat fname nsname hnone hwr]; rfl
    · rw [waitFor_head_read _ scr net Bat fname nsname hnone hwr]; rfl

/-- Making the calls of `MACSIO_MIF_HandOffBaton` one at a time, with no call of another
rank in between, leaves the messaging layer as the function itself leaves it. -/
theorem replay_handOff (self : Int) (net : MockNet) (Bat : MACSIO_MIF_baton_t)
    (file : Ptr) :
    replay self Bat.mpiComm net
        (MACSIO_MIF_HandOffBaton (mockTransport self) net Bat file).trace =
      (MACSIO_MIF_HandOffBaton (mockTransport self) net Bat file).world := by
  by_cases hs : Bat.procAfterMe ≠ -1
  · by_cases hok : ((mockTransport self).MPI_Ssend net Bat.mifErr Bat.procAfterMe Bat.mpiTag
        Bat.mpiComm).2 = MPI_SUCCESS
    · rw [handOff_send_ok _ net Bat file hs hok]; rfl
    · rw [handOff_send_fail _ net Bat file hs hok]; rfl
  · rw [handOff_last _ net Bat file (not_not.mp hs)]; rfl

/-- The next call of a rank that has one to make. -/
theorem performNext_cons {s : ConcState} {r self comm : Int} {e : Effect}
    {rest : List Effect} (h : s.pending r = e :: rest) :
    performNext s r self comm =
      { net := effectOnNet self comm s.net e, pc := s.pc,
        pending := Function.update s.pending r rest, bat := s.bat, handle := s.handle,
        log := s.log ++ rankEvents r [e] } := by
  unfold performNext
  rw [h]

/-- The phases after a step of rank `r` that leaves it having entered `c` functions with
the calls `p` still to make. -/
theorem phase_update {s s' : ConcState} {r : Int} {c : Nat} {p : List Effect}
    (hpc : s'.pc = Function.update s.pc r c)
    (hpd : s'.pending = Function.update s.pending r p) :
    netPhase s' = Function.update (netPhase s) r
        (if c = 0 then 0 else if c = 2 ∧ p = [] then 2 else 1) ∧
      filePhase s' = Function.update (filePhase s) r
        (if c = 0 then 0 else if c = 1 then (if p = [] then 1 else 0) else 2) := by
  constructor
  · funext q
    by_cases hq : q = r
    · subst hq
      simp only [netPhase, hpc, hpd, Function.update_same]
    · simp only [netPhase, hpc, hpd, Function.update_noteq hq]
  · funext q
    by_cases hq : q = r
    · subst hq
      simp only [filePhase, hpc, hpd, Function.update_same]
    · simp only [filePhase, hpc, hpd, Function.update_noteq hq]

/-- The start state satisfies the invariant. -/
theorem concInv_start {n k : Int} (hk : 1 ≤ k) (hkn : k ≤ n) (hn : n ≤ INT_MAX)
    (ioFlags : MACSIO_MIF_ioFlags_t) (mpiComm mpiTag : Int)
    (createCb : MACSIO_MIF_CreateCB) (openCb : MACSIO_MIF_OpenCB)
    (closeCb : MACSIO_MIF_CloseCB) (clientData : Ptr) :
    ConcInv k ioFlags mpiComm n mpiTag createCb openCb closeCb clientData
      (concStart k ioFlags mpiComm n mpiTag createCb openCb closeCb clientData) where
  reliable := fun _ => rfl
  bats := fun r hr0 hr => by
    show (if 0 ≤ r ∧ r < n then _ else none) = _
    rw [if_pos ⟨hr0, hr⟩]
    exact initBaton_eq_ref hk hkn hn hr0 hr ioFlags mpiComm mpiTag createCb openCb closeCb
      clientData
  outside := fun r hr => by
    show (if 0 ≤ r ∧ r < n then _ else none) = _
    rw [if_neg hr]
  order := fun r _ _ _ h => by
    have : netPhase (concStart k ioFlags mpiComm n mpiTag createCb openCb closeCb
      clientData) r = 0 := rfl
    omega
  flight := fun m => by
    constructor
    · intro h
      have : (concStart k ioFlags mpiComm n mpiTag createCb openCb closeCb
        clientData).net.inflight = [] := rfl
      rw [this] at h
      exact absurd h (List.not_mem_nil m)
    · rintro ⟨r, _, _, _, h, _⟩
      have : netPhase (concStart k ioFlags mpiComm n mpiTag createCb openCb closeCb
        clientData) r = 0 := rfl
      omega
  nodup := List.nodup_nil

/-- The receive of rank `j` from rank `j - 1`, when the only message in flight that
answers it is the good baton of `j - 1` and that one is in flight: the receive
succeeds, delivers `MACSIO_MIF_BATON_OK` and takes the message out. -/
theorem mockRecv_okMsg (j tag comm : Int) (net : MockNet)
    (hmem : okMsg comm tag (j - 1) ∈ net.inflight)
    (honly : ∀ m ∈ net.inflight, Msg.answers j (j - 1) tag comm m = true →
      m = okMsg comm tag (j - 1)) :
    mockRecv j net (j - 1) tag comm =
      ({ net with inflight := net.inflight.erase (okMsg comm tag (j - 1)) }, MPI_SUCCESS,
        MACSIO_MIF_BATON_OK) := by
  have hans : Msg.answers j (j - 1) tag comm (okMsg comm tag (j - 1)) = true := by
    simp [Msg.answers, okMsg]
  unfold mockRecv
  cases hfind : net.inflight.find? (Msg.answers j (j - 1) tag comm) with
  | none =>
    rw [List.find?_eq_none] at hfind
    exact absurd hans (hfind _ hmem)
  | some m =>
    have h1 := List.mem_of_find?_eq_some hfind
    have h2 := List.find?_some hfind
    have := honly m h1 h2
    subst this
    rfl

/-- The invariant survives a completed wait, given what the call did to the state. -/
theorem concInv_wait_core {n k : Int} (hk : 1 ≤ k) (hkn : k ≤ n)
    {ioFlags : MACSIO_MIF_ioFlags_t} {mpiComm mpiTag : Int}
    {createCb : MACSIO_MIF_CreateCB} {openCb : MACSIO_MIF_OpenCB}
    {closeCb : MACSIO_MIF_CloseCB} {clientData : Ptr} {s s' : ConcState}
    (inv : ConcInv k ioFlags mpiComm n mpiTag createCb openCb closeCb clientData s)
    {r : Int} (hr0 : 0 ≤ r) (hr : r < n) (hpc0 : netPhase s r = 0)
    (hpc : netPhase s' = Function.update (netPhase s) r 1) (hbat : s'.bat = s.bat)
    (hfail : s'.net.failSend = s.net.failSend)
    (hnet : (predOf (n / k) (n % k) r = -1 ∧ s'.net.inflight = s.net.inflight) ∨
      (predOf (n / k) (n % k) r ≠ -1 ∧ okMsg mpiComm mpiTag (r - 1) ∈ s.net.inflight ∧
        s'.net.inflight = s.net.inflight.erase (okMsg mpiComm mpiTag (r - 1)))) :
    ConcInv k ioFlags mpiComm n mpiTag createCb openCb closeCb clientData s' := by
  have pcr : netPhase s' r = 1 := by rw [hpc]; simp
  have pcne : ∀ q, q ≠ r → netPhase s' q = netPhase s q := by
    intro q hq; rw [hpc]; simp [Function.update_apply, hq]
  -- the predecessor of `r`, if there is one, has handed off
  have hprev : predOf (n / k) (n % k) r ≠ -1 → netPhase s (r - 1) = 2 := by
    intro hp
    rcases hnet with ⟨h, _⟩ | ⟨_, hmem, _⟩
    · exact absurd h hp
    · obtain ⟨q, _, _, _, hq2, _, hqm⟩ := (inv.flight _).1 hmem
      have := okMsg_inj hqm
      rw [this]; exact hq2
  refine ⟨?_, ?_, ?_, ?_, ?_, ?_⟩
  · intro q; rw [hfail]; exact inv.reliable q
  · intro q h0 h1; rw [hbat]; exact inv.bats q h0 h1
  · intro q h; rw [hbat]; exact inv.outside q h
  · intro q h0 h1 hp hge
    by_cases hq : q = r
    · subst hq
      rw [pcne (q - 1) (by omega)]
      exact hprev hp
    · rw [pcne q hq] at hge
      have h2 := inv.order q h0 h1 hp hge
      by_cases hq1 : q - 1 = r
      · rw [hq1] at h2; omega
      · rw [pcne (q - 1) hq1]; exact h2
  · intro m
    -- membership in the new list of messages, in terms of the old one
    have hold : ∀ q, 0 ≤ q → q < n → succOf (n / k) (n % k) q ≠ -1 → netPhase s q = 2 →
        netPhase s (q + 1) = 0 → q ≠ r ∧ (q + 1 = r → predOf (n / k) (n % k) r ≠ -1) := by
      intro q h0 h1 hs h2 _
      refine ⟨fun h => by rw [h] at h2; omega, fun h => ?_⟩
      have := (succ_link hk hkn h0 h1 hs).2.2.2.2
      rw [h] at this
      rw [this]; omega
    rcases hnet with ⟨hp, hin⟩ | ⟨hp, hmem, hin⟩
    · rw [hin, inv.flight m]
      constructor
      · rintro ⟨q, h0, h1, hs, h2, h3, hm⟩
        obtain ⟨hqr, hq1⟩ := hold q h0 h1 hs h2 h3
        have hq1r : q + 1 ≠ r := fun h => hq1 h hp
        exact ⟨q, h0, h1, hs, by rw [pcne q hqr]; exact h2,
          by rw [pcne (q + 1) hq1r]; exact h3, hm⟩
      · rintro ⟨q, h0, h1, hs, h2, h3, hm⟩
        have hqr : q ≠ r := fun h => by rw [h, pcr] at h2; omega
        have hq1r : q + 1 ≠ r := fun h => by rw [h, pcr] at h3; omega
        rw [pcne q hqr] at h2
        rw [pcne (q + 1) hq1r] at h3
        exact ⟨q, h0, h1, hs, h2, h3, hm⟩
    · rw [hin, inv.nodup.mem_erase_iff, inv.flight m]
      constructor
      · rintro ⟨hne, q, h0, h1, hs, h2, h3, hm⟩
        obtain ⟨hqr, _⟩ := hold q h0 h1 hs h2 h3
        have hq1r : q + 1 ≠ r := fun h => hne (by rw [hm]; congr 1; omega)
        exact ⟨q, h0, h1, hs, by rw [pcne q hqr]; exact h2,
          by rw [pcne (q + 1) hq1r]; exact h3, hm⟩
      · rintro ⟨q, h0, h1, hs, h2, h3, hm⟩
        have hqr : q ≠ r := fun h => by rw [h, pcr] at h2; omega
        have hq1r : q + 1 ≠ r := fun h => by rw [h, pcr] at h3; omega
        rw [pcne q hqr] at h2
        rw [pcne (q + 1) hq1r] at h3
        refine ⟨fun h => ?_, q, h0, h1, hs, h2, h3, hm⟩
        rw [hm] at h
        have := okMsg_inj h
        omega
  · rcases hnet with ⟨_, hin⟩ | ⟨_, _, hin⟩
    · rw [hin]; exact inv.nodup
    · rw [hin]; exact inv.nodup.erase _

/-- The invariant survives a hand-off, given what the call did to the state. -/
theorem concInv_handOff_core {n k : Int} (hk : 1 ≤ k) (hkn : k ≤ n)
    {ioFlags : MACSIO_MIF_ioFlags_t} {mpiComm mpiTag : Int}
    {createCb : MACSIO_MIF_CreateCB} {openCb : MACSIO_MIF_OpenCB}
    {closeCb : MACSIO_MIF_CloseCB} {clientData : Ptr} {s s' : ConcState}
    (inv : ConcInv k ioFlags mpiComm n mpiTag createCb openCb closeCb clientData s)
    {r : Int} (hr0 : 0 ≤ r) (hr : r < n) (hpc1 : netPhase s r = 1)
    (hpc : netPhase s' = Function.update (netPhase s) r 2) (hbat : s'.bat = s.bat)
    (hfail : s'.net.failSend = s.net.failSend)
    (hnet : (succOf (n / k) (n % k) r = -1 ∧ s'.net.inflight = s.net.inflight) ∨
      (succOf (n / k) (n % k) r ≠ -1 ∧
        s'.net.inflight = s.net.inflight ++ [okMsg mpiComm mpiTag r])) :
    ConcInv k ioFlags mpiComm n mpiTag createCb openCb closeCb clientData s' := by
  have pcr : netPhase s' r = 2 := by rw [hpc]; simp
  have pcne : ∀ q, q ≠ r → netPhase s' q = netPhase s q := by
    intro q hq; rw [hpc]; simp [Function.update_apply, hq]
  -- the successor of `r`, if there is one, has not passed its wait
  have hnext : succOf (n / k) (n % k) r ≠ -1 → netPhase s (r + 1) = 0 := by
    intro hs
    obtain ⟨_, h1, _, _, hp⟩ := succ_link hk hkn hr0 hr hs
    by_contra hcon
    have := inv.order (r + 1) (by omega) h1 (by rw [hp]; omega) (by omega)
    rw [show r + 1 - 1 = r by ring] at this
    omega
  have hnew : okMsg mpiComm mpiTag r ∉ s.net.inflight := by
    intro h
    obtain ⟨q, _, _, _, h2, _, hm⟩ := (inv.flight _).1 h
    rw [← okMsg_inj hm] at h2
    omega
  have hflight : ∀ m, (m ∈ s.net.inflight ∨
      (succOf (n / k) (n % k) r ≠ -1 ∧ m = okMsg mpiComm mpiTag r)) ↔
      ∃ q, 0 ≤ q ∧ q < n ∧ succOf (n / k) (n % k) q ≠ -1 ∧ netPhase s' q = 2 ∧
        netPhase s' (q + 1) = 0 ∧ m = okMsg mpiComm mpiTag q := by
    intro m
    constructor
    · rintro (h | ⟨hs, hm⟩)
      · obtain ⟨q, h0, h1, hs, h2, h3, hm⟩ := (inv.flight m).1 h
        have hqr : q ≠ r := fun h => by rw [h] at h2; omega
        have hq1r : q + 1 ≠ r := fun h => by rw [h] at h3; omega
        exact ⟨q, h0, h1, hs, by rw [pcne q hqr]; exact h2,
          by rw [pcne (q + 1) hq1r]; exact h3, hm⟩
      · exact ⟨r, hr0, hr, hs, pcr, by rw [pcne (r + 1) (by omega)]; exact hnext hs, hm⟩
    · rintro ⟨q, h0, h1, hs, h2, h3, hm⟩
      by_cases hqr : q = r
      · subst hqr
        exact Or.inr ⟨hs, hm⟩
      · have hq1r : q + 1 ≠ r := fun h => by rw [h, pcr] at h3; omega
        rw [pcne q hqr] at h2
        rw [pcne (q + 1) hq1r] at h3
        exact Or.inl ((inv.flight m).2 ⟨q, h0, h1, hs, h2, h3, hm⟩)
  refine ⟨?_, ?_, ?_, ?_, ?_, ?_⟩
  · intro q; rw [hfail]; exact inv.reliable q
  · intro q h0 h1; rw [hbat]; exact inv.bats q h0 h1
  · intro q h; rw [hbat]; exact inv.outside q h
  · intro q h0 h1 hp hge
    by_cases hq : q = r
    · subst hq
      rw [pcne (q - 1) (by omega)]
      exact inv.order q h0 h1 hp (by omega)
    · rw [pcne q hq] at hge
      have h2 := inv.order q h0 h1 hp hge
      by_cases hq1 : q - 1 = r
      · rw [hq1]; exact pcr
      · rw [pcne (q - 1) hq1]; exact h2
  · intro m
    rw [← hflight m]
    rcases hnet with ⟨hs, hin⟩ | ⟨hs, hin⟩
    · rw [hin]
      exact ⟨Or.inl, fun h => h.elim id (fun h => absurd hs h.1)⟩
    · rw [hin, List.mem_append, List.mem_singleton]
      exact ⟨fun h => h.elim Or.inl (fun h => Or.inr ⟨hs, h⟩),
        fun h => h.elim Or.inl (fun h => Or.inr h.2)⟩
  · rcases hnet with ⟨_, hin⟩ | ⟨_, hin⟩
    · rw [hin]; exact inv.nodup
    · rw [hin]
      exact List.Nodup.append inv.nodup (List.nodup_singleton _)
        (by
          intro a ha hb
          rw [List.mem_singleton] at hb
          exact hnew (hb ▸ ha))

/-- The invariant survives a step that changes neither the messaging layer nor where
the ranks stand with the baton. -/
theorem concInv_same {n k : Int}
    {ioFlags : MACSIO_MIF_ioFlags_t} {mpiComm mpiTag : Int}
    {createCb : MACSIO_MIF_CreateCB} {openCb : MACSIO_MIF_OpenCB}
    {closeCb : MACSIO_MIF_CloseCB} {clientData : Ptr} {s s' : ConcState}
    (inv : ConcInv k ioFlags mpiComm n mpiTag createCb openCb closeCb clientData s)
    (hph : netPhase s' = netPhase s) (hbat : s'.bat = s.bat)
    (hfail : s'.net.failSend = s.net.failSend)
    (hnet : s'.net.inflight = s.net.inflight) :
    ConcInv k ioFlags mpiComm n mpiTag createCb openCb closeCb clientData s' := by
  refine ⟨?_, ?_, ?_, ?_, ?_, ?_⟩
  · intro q; rw [hfail]; exact inv.reliable q
  · intro q h0 h1; rw [hbat]; exact inv.bats q h0 h1
  · intro q h; rw [hbat]; exact inv.outside q h
  · intro q h0 h1 hp hge
    rw [hph] at hge ⊢
    exact inv.order q h0 h1 hp hge
  · intro m
    rw [hnet, hph]
    exact inv.flight m
  · rw [hnet]; exact inv.nodup

/-! ### Concurrent executions: what one step does -/

/-- The state after a rank has entered `MACSIO_MIF_WaitForBaton` and made its first
call. -/
theorem wait_step_eq (scr : ScrEnv) (fname nsname : String) (s : ConcState) (r : Int)
    (Bat : MACSIO_MIF_baton_t) {e : Effect} {rest : List Effect}
    (h : (MACSIO_MIF_WaitForBaton (mockTransport Bat.rankInComm) scr s.net Bat fname
      nsname).trace = e :: rest) :
    performNext (enterWait scr fname nsname s r Bat) r Bat.rankInComm Bat.mpiComm =
      { net := effectOnNet Bat.rankInComm Bat.mpiComm s.net e,
        pc := Function.update s.pc r 1, pending := Function.update s.pending r rest,
        bat := Function.update s.bat r (some (MACSIO_MIF_WaitForBaton
          (mockTransport Bat.rankInComm) scr s.net Bat fname nsname).Bat),
        handle := Function.update s.handle r (MACSIO_MIF_WaitForBaton
          (mockTransport Bat.rankInComm) scr s.net Bat fname nsname).ret,
        log := s.log ++ rankEvents r [e] } := by
  have hp : (enterWait scr fname nsname s r Bat).pending r = e :: rest := by
    show Function.update s.pending r _ r = _
    rw [Function.update_same]; exact h
  rw [performNext_cons hp]
  show ConcState.mk _ _ (Function.update (Function.update s.pending r _) r rest) _ _ _ = _
  rw [Function.update_idem]
  rfl

/-- The state after a rank has entered `MACSIO_MIF_HandOffBaton` and made its first
call. -/
theorem handOff_step_eq (s : ConcState) (r : Int) (Bat : MACSIO_MIF_baton_t) {e : Effect}
    {rest : List Effect}
    (h : (MACSIO_MIF_HandOffBaton (mockTransport Bat.rankInComm) s.net Bat
      (s.handle r)).trace = e :: rest) :
    performNext (enterHandOff s r Bat) r Bat.rankInComm Bat.mpiComm =
      { net := effectOnNet Bat.rankInComm Bat.mpiComm s.net e,
        pc := Function.update s.pc r 2, pending := Function.update s.pending r rest,
        bat := Function.update s.bat r (some (MACSIO_MIF_HandOffBaton
          (mockTransport Bat.rankInComm) s.net Bat (s.handle r)).Bat),
        handle := s.handle, log := s.log ++ rankEvents r [e] } := by
  have hp : (enterHandOff s r Bat).pending r = e :: rest := by
    show Function.update s.pending r _ r = _
    rw [Function.update_same]; exact h
  rw [performNext_cons hp]
  show ConcState.mk _ _ (Function.update (Function.update s.pending r _) r rest) _ _ _ = _
  rw [Function.update_idem]
  rfl

/-- An open callback does not touch the messaging layer. -/
theorem effectOnNet_open (self comm : Int) (net : MockNet) {e : Effect}
    (h : e.isOpen = true) :
    effectOnNet self comm net e = net ∧ (e.isCreate || e.isOpen) = true ∧
      e.isClose = false := by
  cases e <;> simp_all [Effect.isOpen, Effect.isCreate, Effect.isClose, effectOnNet]

/-- What `MACSIO_MIF_WaitForBaton` of rank `r` does in a state that satisfies the
invariant, when its first call can be made: the baton is unchanged; without
predecessor the only call is the create or open callback; with a predecessor the first
call is the receive, which takes the good baton of `r - 1` out of the messages in
flight, and the open callback is the one call left. -/
theorem wait_in_inv {n k : Int} (hk : 1 ≤ k) (hkn : k ≤ n)
    {ioFlags : MACSIO_MIF_ioFlags_t} {mpiComm mpiTag : Int}
    {createCb : MACSIO_MIF_CreateCB} {openCb : MACSIO_MIF_OpenCB}
    {closeCb : MACSIO_MIF_CloseCB} {clientData : Ptr} {s : ConcState}
    (inv : ConcInv k ioFlags mpiComm n mpiTag createCb openCb closeCb clientData s)
    (scr : ScrEnv) (fname nsname : String) {r : Int} (hr0 : 0 ≤ r)
    (B : MACSIO_MIF_baton_t) (f1 : B.procBeforeMe = predOf (n / k) (n % k) r)
    (f2 : B.rankInComm = r) (f3 : B.mpiTag = mpiTag) (f4 : B.mpiComm = mpiComm)
    (hen : headEnabled B.rankInComm B.mpiComm s.net
      (MACSIO_MIF_WaitForBaton (mockTransport B.rankInComm) scr s.net B fname
        nsname).trace = true) :
    (MACSIO_MIF_WaitForBaton (mockTransport B.rankInComm) scr s.net B fname nsname).Bat = B ∧
      ∃ e rest, (MACSIO_MIF_WaitForBaton (mockTransport B.rankInComm) scr s.net B fname
          nsname).trace = e :: rest ∧
        (effectOnNet B.rankInComm B.mpiComm s.net e).failSend = s.net.failSend ∧
        ((predOf (n / k) (n % k) r = -1 ∧ rest = [] ∧ (e.isCreate || e.isOpen) = true ∧
            e.isClose = false ∧
            (effectOnNet B.rankInComm B.mpiComm s.net e).inflight = s.net.inflight) ∨
          (predOf (n / k) (n % k) r ≠ -1 ∧ (∃ e', rest = [e'] ∧ e'.isOpen = true) ∧
            (e.isCreate || e.isOpen) = false ∧ e.isClose = false ∧
            okMsg mpiComm mpiTag (r - 1) ∈ s.net.inflight ∧
            (effectOnNet B.rankInComm B.mpiComm s.net e).inflight =
              s.net.inflight.erase (okMsg mpiComm mpiTag (r - 1)))) := by
  by_cases hp : predOf (n / k) (n % k) r = -1
  · have hnone : B.procBeforeMe = -1 := by rw [f1]; exact hp
    by_cases hwr : B.ioFlags.do_wr = true
    · rw [waitFor_head_write _ scr s.net B fname nsname hnone hwr]
      exact ⟨rfl, _, _, rfl, rfl, Or.inl ⟨hp, rfl, rfl, rfl, rfl⟩⟩
    · rw [waitFor_head_read _ scr s.net B fname nsname hnone hwr]
      exact ⟨rfl, _, _, rfl, rfl, Or.inl ⟨hp, rfl, rfl, rfl, rfl⟩⟩
  · have hpred : B.procBeforeMe ≠ -1 := by rw [f1]; exact hp
    have hpr : predOf (n / k) (n % k) r = r - 1 := (pred_link hk hkn hr0 hp).1
    -- every message in flight that answers the receive is the good baton of `r - 1`
    have honly : ∀ m ∈ s.net.inflight, Msg.answers r (r - 1) mpiTag mpiComm m = true →
        m = okMsg mpiComm mpiTag (r - 1) := by
      intro m hm ha
      obtain ⟨q, _, _, _, _, _, hq⟩ := (inv.flight m).1 hm
      have hsrc : m.source = r - 1 := by
        simp only [Msg.answers, Bool.and_eq_true, beq_iff_eq] at ha
        exact ha.1.1.1
      rw [hq] at hsrc
      have : q = r - 1 := hsrc
      rw [hq, this]
    -- the first call is the receive, whatever it delivers
    have hhead : ∃ rest', (MACSIO_MIF_WaitForBaton (mockTransport B.rankInComm) scr s.net B
        fname nsname).trace = Effect.MPI_Recv B.procBeforeMe B.mpiTag :: rest' := by
      by_cases hok : ((mockTransport B.rankInComm).MPI_Recv s.net B.procBeforeMe B.mpiTag
          B.mpiComm).2.1 = MPI_SUCCESS ∧
          ((mockTransport B.rankInComm).MPI_Recv s.net B.procBeforeMe B.mpiTag
            B.mpiComm).2.2 ≠ MACSIO_MIF_BATON_ERR
      · rw [waitFor_pred_ok _ scr s.net B fname nsname hpred hok]; exact ⟨_, rfl⟩
      · rw [waitFor_pred_fail _ scr s.net B fname nsname hpred hok]; exact ⟨_, rfl⟩
    have hsome : (s.net.inflight.find? (Msg.answers r (r - 1) mpiTag mpiComm)).isSome
        = true := by
      obtain ⟨rest', hrest'⟩ := hhead
      rw [hrest'] at hen
      have hen' : (s.net.inflight.find?
          (Msg.answers B.rankInComm B.procBeforeMe B.mpiTag B.mpiComm)).isSome = true := hen
      rw [f1, f2, f3, f4, hpr] at hen'
      exact hen'
    have hmem : okMsg mpiComm mpiTag (r - 1) ∈ s.net.inflight := by
      cases hfind : s.net.inflight.find? (Msg.answers r (r - 1) mpiTag mpiComm) with
      | none => rw [hfind] at hsome; cases hsome
      | some m =>
        have h1 := List.mem_of_find?_eq_some hfind
        have h2 := List.find?_some hfind
        rw [← honly m h1 h2]; exact h1
    have hrecv : (mockTransport B.rankInComm).MPI_Recv s.net B.procBeforeMe B.mpiTag
        B.mpiComm = ({ s.net with
          inflight := s.net.inflight.erase (okMsg mpiComm mpiTag (r - 1)) }, MPI_SUCCESS,
          MACSIO_MIF_BATON_OK) := by
      rw [f1, f2, f3, f4, hpr]
      exact mockRecv_okMsg r mpiTag mpiComm s.net hmem honly
    have hok : ((mockTransport B.rankInComm).MPI_Recv s.net B.procBeforeMe B.mpiTag
        B.mpiComm).2.1 = MPI_SUCCESS ∧
        ((mockTransport B.rankInComm).MPI_Recv s.net B.procBeforeMe B.mpiTag
          B.mpiComm).2.2 ≠ MACSIO_MIF_BATON_ERR := by
      rw [hrecv]
      refine ⟨rfl, ?_⟩
      show MACSIO_MIF_BATON_OK ≠ MACSIO_MIF_BATON_ERR
      decide
    have hnet : effectOnNet B.rankInComm B.mpiComm s.net
        (Effect.MPI_Recv B.procBeforeMe B.mpiTag) = { s.net with
          inflight := s.net.inflight.erase (okMsg mpiComm mpiTag (r - 1)) } := by
      show (mockRecv B.rankInComm s.net B.procBeforeMe B.mpiTag B.mpiComm).1 = _
      have : mockRecv B.rankInComm s.net B.procBeforeMe B.mpiTag B.mpiComm =
          (mockTransport B.rankInComm).MPI_Recv s.net B.procBeforeMe B.mpiTag B.mpiComm := rfl
      rw [this, hrecv]
    rw [waitFor_pred_ok _ scr s.net B fname nsname hpred hok]
    refine ⟨rfl, _, _, rfl, by rw [hnet], Or.inr ⟨hp, ⟨_, rfl, rfl⟩, rfl, rfl, hmem, ?_⟩⟩
    rw [hnet]

/-- What `MACSIO_MIF_HandOffBaton` of rank `r` does in a state that satisfies the
invariant: the baton is unchanged, the first call is the close callback, and the one
call left, if `r` has a successor, is the send of the good baton to `r + 1`. -/
theorem handOff_in_inv {n k : Int} (hk : 1 ≤ k) (hkn : k ≤ n)
    {ioFlags : MACSIO_MIF_ioFlags_t} {mpiComm mpiTag : Int}
    {createCb : MACSIO_MIF_CreateCB} {openCb : MACSIO_MIF_OpenCB}
    {closeCb : MACSIO_MIF_CloseCB} {clientData : Ptr} {s : ConcState}
    (inv : ConcInv k ioFlags mpiComm n mpiTag createCb openCb closeCb clientData s)
    (file : Ptr) {r : Int} (hr0 : 0 ≤ r) (hr : r < n)
    (B : MACSIO_MIF_baton_t) (f1 : B.procAfterMe = succOf (n / k) (n % k) r)
    (f3 : B.mpiTag = mpiTag) (f5 : B.mifErr = MACSIO_MIF_BATON_OK) :
    (MACSIO_MIF_HandOffBaton (mockTransport B.rankInComm) s.net B file).Bat = B ∧
      ∃ e rest, (MACSIO_MIF_HandOffBaton (mockTransport B.rankInComm) s.net B
          file).trace = e :: rest ∧
        effectOnNet B.rankInComm B.mpiComm s.net e = s.net ∧
        (e.isCreate || e.isOpen) = false ∧ e.isClose = true ∧
        ((succOf (n / k) (n % k) r = -1 ∧ rest = []) ∨
          (succOf (n / k) (n % k) r ≠ -1 ∧
            rest = [Effect.MPI_Ssend MACSIO_MIF_BATON_OK (r + 1) mpiTag])) := by
  by_cases hs : succOf (n / k) (n % k) r = -1
  · have hnone : B.procAfterMe = -1 := by rw [f1]; exact hs
    rw [handOff_last _ s.net B file hnone]
    exact ⟨rfl, _, _, rfl, rfl, rfl, rfl, Or.inl ⟨hs, rfl⟩⟩
  · have hsucc : B.procAfterMe ≠ -1 := by rw [f1]; exact hs
    have hsr : succOf (n / k) (n % k) r = r + 1 := (succ_link hk hkn hr0 hr hs).1
    have hsend : ((mockTransport B.rankInComm).MPI_Ssend s.net B.mifErr B.procAfterMe
        B.mpiTag B.mpiComm).2 = MPI_SUCCESS := by
      show (mockSsend B.rankInComm s.net B.mifErr B.procAfterMe B.mpiTag B.mpiComm).2 = _
      unfold mockSsend
      rw [inv.reliable B.rankInComm]
      rfl
    rw [handOff_send_ok _ s.net B file hsucc hsend]
    refine ⟨rfl, _, _, rfl, rfl, rfl, rfl, Or.inr ⟨hs, ?_⟩⟩
    rw [f5, f1, hsr, f3]

/-- The send of the good baton by rank `r` on a layer without failure puts the good
baton of `r` in flight. -/
theorem effectOnNet_send {net : MockNet} (r comm tag : Int)
    (hrel : net.failSend r = false) :
    (effectOnNet r comm net (Effect.MPI_Ssend MACSIO_MIF_BATON_OK (r + 1) tag)).inflight =
        net.inflight ++ [okMsg comm tag r] ∧
      (effectOnNet r comm net (Effect.MPI_Ssend MACSIO_MIF_BATON_OK (r + 1) tag)).failSend =
        net.failSend := by
  show (mockSsend r net MACSIO_MIF_BATON_OK (r + 1) tag comm).1.inflight = _ ∧
    (mockSsend r net MACSIO_MIF_BATON_OK (r + 1) tag comm).1.failSend = _
  unfold mockSsend
  rw [hrel]
  exact ⟨rfl, rfl⟩

/-- What one step of a concurrent execution does to a state that satisfies the
invariant: one rank `r` of the communicator makes one call `e`; the step is the create
or open callback of a rank without predecessor, the receive of the good baton of
`r - 1`, the open callback after that receive, the close callback of a rank without
successor, the close callback of a rank with a successor, or the send of the good
baton to `r + 1` after that close. -/
theorem conc_step_cases {n k : Int} (hk : 1 ≤ k) (hkn : k ≤ n)
    {ioFlags : MACSIO_MIF_ioFlags_t} {mpiComm mpiTag : Int}
    {createCb : MACSIO_MIF_CreateCB} {openCb : MACSIO_MIF_OpenCB}
    {closeCb : MACSIO_MIF_CloseCB} {clientData : Ptr} {s s' : ConcState}
    {scr : ScrEnv} {fname nsname : String}
    (inv : ConcInv k ioFlags mpiComm n mpiTag createCb openCb closeCb clientData s)
    (shp : ConcShape k n mpiTag s) (hstep : ConcStep scr fname nsname s s') :
    ∃ r c p e, 0 ≤ r ∧ r < n ∧ s'.pc = Function.update s.pc r c ∧
      s'.pending = Function.update s.pending r p ∧ s'.bat = s.bat ∧
      s'.net.failSend = s.net.failSend ∧ s'.log = s.log ++ rankEvents r [e] ∧
      ((s.pc r = 0 ∧ s.pending r = [] ∧ c = 1 ∧ p = [] ∧
          predOf (n / k) (n % k) r = -1 ∧ (e.isCreate || e.isOpen) = true ∧
          e.isClose = false ∧ s'.net.inflight = s.net.inflight) ∨
        (s.pc r = 0 ∧ s.pending r = [] ∧ c = 1 ∧ (∃ e', p = [e'] ∧ e'.isOpen = true) ∧
          predOf (n / k) (n % k) r ≠ -1 ∧ (e.isCreate || e.isOpen) = false ∧
          e.isClose = false ∧ okMsg mpiComm mpiTag (r - 1) ∈ s.net.inflight ∧
          s'.net.inflight = s.net.inflight.erase (okMsg mpiComm mpiTag (r - 1))) ∨
        (s.pc r = 1 ∧ s.pending r ≠ [] ∧ c = 1 ∧ p = [] ∧
          (e.isCreate || e.isOpen) = true ∧ e.isClose = false ∧
          s'.net.inflight = s.net.inflight) ∨
        (s.pc r = 1 ∧ s.pending r = [] ∧ c = 2 ∧ p = [] ∧
          succOf (n / k) (n % k) r = -1 ∧ (e.isCreate || e.isOpen) = false ∧
          e.isClose = true ∧ s'.net.inflight = s.net.inflight) ∨
        (s.pc r = 1 ∧ s.pending r = [] ∧ c = 2 ∧
          p = [Effect.MPI_Ssend MACSIO_MIF_BATON_OK (r + 1) mpiTag] ∧
          succOf (n / k) (n % k) r ≠ -1 ∧ (e.isCreate || e.isOpen) = false ∧
          e.isClose = true ∧ s'.net.inflight = s.net.inflight) ∨
        (s.pc r = 2 ∧ s.pending r ≠ [] ∧ c = 2 ∧ p = [] ∧
          succOf (n / k) (n % k) r ≠ -1 ∧ (e.isCreate || e.isOpen) = false ∧
          e.isClose = false ∧
          s'.net.inflight = s.net.inflight ++ [okMsg mpiComm mpiTag r])) := by
  -- a rank that holds a baton is a rank of the communicator, with its initial baton
  have hown : ∀ r Bat, s.bat r = some Bat → (0 ≤ r ∧ r < n) ∧
      refBaton k ioFlags mpiComm n mpiTag createCb openCb closeCb clientData r = Bat := by
    intro r Bat hbat
    have hrange : 0 ≤ r ∧ r < n := by
      by_contra h
      rw [inv.outside r h] at hbat
      cases hbat
    have := inv.bats r hrange.1 hrange.2
    rw [hbat] at this
    exact ⟨hrange, (Option.some.inj this).symm⟩
  cases hstep with
  | wait r Bat hpc0 hpend hbat hen =>
    obtain ⟨hrange, hB⟩ := hown r Bat hbat
    have f1 : Bat.procBeforeMe = predOf (n / k) (n % k) r := by rw [← hB]; rfl
    have f2 : Bat.rankInComm = r := by rw [← hB]; rfl
    have f3 : Bat.mpiTag = mpiTag := by rw [← hB]; rfl
    have f4 : Bat.mpiComm = mpiComm := by rw [← hB]; rfl
    have hen' : headEnabled Bat.rankInComm Bat.mpiComm s.net
        (MACSIO_MIF_WaitForBaton (mockTransport Bat.rankInComm) scr s.net Bat fname
          nsname).trace = true := by
      have : (enterWait scr fname nsname s r Bat).pending r =
          (MACSIO_MIF_WaitForBaton (mockTransport Bat.rankInComm) scr s.net Bat fname
            nsname).trace := by
        show Function.update s.pending r _ r = _
        rw [Function.update_same]
      rw [this] at hen
      exact hen
    obtain ⟨hkeep, e, rest, htr, hfs, hcase⟩ :=
      wait_in_inv hk hkn inv scr fname nsname hrange.1 Bat f1 f2 f3 f4 hen'
    rw [wait_step_eq scr fname nsname s r Bat htr]
    refine ⟨r, 1, rest, e, hrange.1, hrange.2, rfl, rfl, ?_, hfs, rfl, ?_⟩
    · show Function.update s.bat r (some (MACSIO_MIF_WaitForBaton
        (mockTransport Bat.rankInComm) scr s.net Bat fname nsname).Bat) = s.bat
      rw [hkeep, ← hbat]
      exact Function.update_eq_self r s.bat
    · rcases hcase with ⟨hp, hrest, ho, hc, hin⟩ | ⟨hp, hrest, ho, hc, hmem, hin⟩
      · exact Or.inl ⟨hpc0, hpend, rfl, hrest, hp, ho, hc, hin⟩
      · exact Or.inr (Or.inl ⟨hpc0, hpend, rfl, hrest, hp, ho, hc, hmem, hin⟩)
  | handOff r Bat hpc1 hpend hbat hen =>
    obtain ⟨hrange, hB⟩ := hown r Bat hbat
    have f1 : Bat.procAfterMe = succOf (n / k) (n % k) r := by rw [← hB]; rfl
    have f3 : Bat.mpiTag = mpiTag := by rw [← hB]; rfl
    have f5 : Bat.mifErr = MACSIO_MIF_BATON_OK := by rw [← hB]; rfl
    obtain ⟨hkeep, e, rest, htr, hnet, ho, hc, hcase⟩ :=
      handOff_in_inv hk hkn inv (s.handle r) hrange.1 hrange.2 Bat f1 f3 f5
    rw [handOff_step_eq s r Bat htr]
    refine ⟨r, 2, rest, e, hrange.1, hrange.2, rfl, rfl, ?_, by
      show (effectOnNet Bat.rankInComm Bat.mpiComm s.net e).failSend = _
      rw [hnet], rfl, ?_⟩
    · show Function.update s.bat r (some (MACSIO_MIF_HandOffBaton
        (mockTransport Bat.rankInComm) s.net Bat (s.handle r)).Bat) = s.bat
      rw [hkeep, ← hbat]
      exact Function.update_eq_self r s.bat
    · have hin : (effectOnNet Bat.rankInComm Bat.mpiComm s.net e).inflight =
          s.net.inflight := by rw [hnet]
      rcases hcase with ⟨hs, hrest⟩ | ⟨hs, hrest⟩
      · exact Or.inr (Or.inr (Or.inr (Or.inl ⟨hpc1, hpend, rfl, hrest, hs, ho, hc, hin⟩)))
      · exact Or.inr (Or.inr (Or.inr (Or.inr (Or.inl
          ⟨hpc1, hpend, rfl, hrest, hs, ho, hc, hin⟩))))
  | next r Bat hpend hbat hen =>
    obtain ⟨hrange, hB⟩ := hown r Bat hbat
    have f2 : Bat.rankInComm = r := by rw [← hB]; rfl
    have f4 : Bat.mpiComm = mpiComm := by rw [← hB]; rfl
    rcases shp r hrange.1 hrange.2 with h | ⟨hpc, e, he, hopen⟩ | ⟨hpc, hs, he⟩
    · exact absurd h hpend
    · obtain ⟨hnet, ho, hc⟩ := effectOnNet_open Bat.rankInComm Bat.mpiComm s.net hopen
      rw [performNext_cons he]
      refine ⟨r, 1, [], e, hrange.1, hrange.2, ?_, rfl, rfl, by
        show (effectOnNet Bat.rankInComm Bat.mpiComm s.net e).failSend = _
        rw [hnet], rfl, ?_⟩
      · show s.pc = Function.update s.pc r 1
        rw [← hpc]
        exact (Function.update_eq_self r s.pc).symm
      · refine Or.inr (Or.inr (Or.inl ⟨hpc, hpend, rfl, rfl, ho, hc, ?_⟩))
        show (effectOnNet Bat.rankInComm Bat.mpiComm s.net e).inflight = _
        rw [hnet]
    · obtain ⟨hin, hfs⟩ := @effectOnNet_send s.net r mpiComm mpiTag (inv.reliable r)
      rw [performNext_cons he, f2, f4]
      refine ⟨r, 2, [], _, hrange.1, hrange.2, ?_, rfl, rfl, hfs, rfl, ?_⟩
      · show s.pc = Function.update s.pc r 2
        rw [← hpc]
        exact (Function.update_eq_self r s.pc).symm
      · exact Or.inr (Or.inr (Or.inr (Or.inr (Or.inr
          ⟨hpc, hpend, rfl, rfl, hs, rfl, rfl, hin⟩))))

/-! ### Concurrent executions: the invariant is kept -/

/-- A rank that has made every call of its hand-off is past the file. -/
theorem filePhase_of_netPhase {s : ConcState} {q : Int} (h : netPhase s q = 2) :
    filePhase s q = 2 := by
  unfold netPhase at h
  unfold filePhase
  by_cases h0 : s.pc q = 0
  · rw [if_pos h0] at h; omega
  · rw [if_neg h0] at h
    by_cases h2 : s.pc q = 2 ∧ s.pending q = []
    · rw [if_neg h0, if_neg (by omega)]
    · rw [if_neg h2] at h; omega

/-- Every step of a concurrent execution keeps the invariant and the shape of the calls
still to be made. -/
theorem concInv_step {n k : Int} (hk : 1 ≤ k) (hkn : k ≤ n)
    {ioFlags : MACSIO_MIF_ioFlags_t} {mpiComm mpiTag : Int}
    {createCb : MACSIO_MIF_CreateCB} {openCb : MACSIO_MIF_OpenCB}
    {closeCb : MACSIO_MIF_CloseCB} {clientData : Ptr} {s s' : ConcState}
    {scr : ScrEnv} {fname nsname : String}
    (inv : ConcInv k ioFlags mpiComm n mpiTag createCb openCb closeCb clientData s)
    (shp : ConcShape k n mpiTag s) (hstep : ConcStep scr fname nsname s s') :
    ConcInv k ioFlags mpiComm n mpiTag createCb openCb closeCb clientData s' ∧
      ConcShape k n mpiTag s' := by
  obtain ⟨r, c, p, e, hr0, hr, hpc, hpd, hbat, hfail, _, hcase⟩ :=
    conc_step_cases hk hkn inv shp hstep
  obtain ⟨hnp, _⟩ := phase_update hpc hpd
  -- the shape of the calls still to be made
  have hshape : (p = [] ∨ (c = 1 ∧ ∃ e', p = [e'] ∧ e'.isOpen = true) ∨
      (c = 2 ∧ succOf (n / k) (n % k) r ≠ -1 ∧
        p = [Effect.MPI_Ssend MACSIO_MIF_BATON_OK (r + 1) mpiTag])) →
      ConcShape k n mpiTag s' := by
    intro hp q hq0 hq
    by_cases hqr : q = r
    · subst hqr
      rw [hpc, hpd, Function.update_same, Function.update_same]
      exact hp
    · rw [hpc, hpd, Function.update_noteq hqr, Function.update_noteq hqr]
      exact shp q hq0 hq
  rcases hcase with ⟨h0, hp0, hc, hp, hpred, _, _, hin⟩ |
    ⟨h0, hp0, hc, hp, hpred, _, _, hmem, hin⟩ | ⟨h0, hp0, hc, hp, _, _, hin⟩ |
    ⟨h0, hp0, hc, hp, hsucc, _, _, hin⟩ | ⟨h0, hp0, hc, hp, hsucc, _, _, hin⟩ |
    ⟨h0, hp0, hc, hp, hsucc, _, _, hin⟩
  · refine ⟨concInv_wait_core hk hkn inv hr0 hr (by simp [netPhase, h0]) ?_ hbat hfail
      (Or.inl ⟨hpred, hin⟩), hshape (Or.inl hp)⟩
    rw [hnp, hc, hp]; rfl
  · refine ⟨concInv_wait_core hk hkn inv hr0 hr (by simp [netPhase, h0]) ?_ hbat hfail
      (Or.inr ⟨hpred, hmem, hin⟩), hshape (Or.inr (Or.inl ⟨hc, hp⟩))⟩
    obtain ⟨e', he', _⟩ := hp
    rw [hnp, hc, he']; rfl
  · refine ⟨concInv_same inv ?_ hbat hfail hin, hshape (Or.inl hp)⟩
    have h1 : netPhase s r = 1 := by simp [netPhase, h0]
    have hval : (if c = 0 then 0 else if c = 2 ∧ p = [] then 2 else 1) = netPhase s r := by
      rw [hc, hp, h1]; rfl
    rw [hnp, hval]
    exact Function.update_eq_self r (netPhase s)
  · refine ⟨concInv_handOff_core hk hkn inv hr0 hr (by simp [netPhase, h0]) ?_ hbat hfail
      (Or.inl ⟨hsucc, hin⟩), hshape (Or.inl hp)⟩
    rw [hnp, hc, hp]; rfl
  · refine ⟨concInv_same inv ?_ hbat hfail hin, hshape (Or.inr (Or.inr ⟨hc, hsucc, hp⟩))⟩
    have h1 : netPhase s r = 1 := by simp [netPhase, h0]
    have hval : (if c = 0 then 0 else if c = 2 ∧ p = [] then 2 else 1) = netPhase s r := by
      rw [hc, hp, h1]; rfl
    rw [hnp, hval]
    exact Function.update_eq_self r (netPhase s)
  · refine ⟨concInv_handOff_core hk hkn inv hr0 hr (by simp [netPhase, h0, hp0]) ?_ hbat
      hfail (Or.inr ⟨hsucc, hin⟩), hshape (Or.inl hp)⟩
    rw [hnp, hc, hp]; rfl

/-- Under the invariant, a rank that has taken the baton is preceded, inside its group,
only by ranks that have made every call of their hand-off. -/
theorem concInv_ascending {n k : Int} (hk : 1 ≤ k) (hkn : k ≤ n)
    {ioFlags : MACSIO_MIF_ioFlags_t} {mpiComm mpiTag : Int}
    {createCb : MACSIO_MIF_CreateCB} {openCb : MACSIO_MIF_OpenCB}
    {closeCb : MACSIO_MIF_CloseCB} {clientData : Ptr} {s : ConcState}
    (inv : ConcInv k ioFlags mpiComm n mpiTag createCb openCb closeCb clientData s)
    (d : Nat) : ∀ r r' : Int, 0 ≤ r → r' < n → r' = r + 1 + d →
      grpOf (n / k) (n % k) r = grpOf (n / k) (n % k) r' → 1 ≤ netPhase s r' →
      netPhase s r = 2 := by
  obtain ⟨hs, hm0, _, _, _⟩ := divmod_facts hk hkn
  induction d with
  | zero =>
    intro r r' hr0 hr' hd hg hge
    have hr'0 : 0 ≤ r' := by omega
    have hpos : posOf (n / k) (n % k) r' ≠ 0 := by
      intro h0
      have a := (rank_decomp hs hm0 hr0).1
      have a2 := (rank_decomp hs hm0 hr0).2.1
      have b := (rank_decomp hs hm0 hr'0).1
      rw [← hg, h0] at b
      omega
    have hp : predOf (n / k) (n % k) r' ≠ -1 :=
      fun h => hpos ((predOf_none_iff hs hm0 hr'0).1 h)
    have := inv.order r' hr'0 hr' hp hge
    rw [show r' - 1 = r by omega] at this
    exact this
  | succ d ih =>
    intro r r' hr0 hr' hd hg hge
    have hr'0 : 0 ≤ r' := by omega
    have a := (rank_decomp hs hm0 hr0).1
    have a2 := (rank_decomp hs hm0 hr0).2.1
    have b := (rank_decomp hs hm0 hr'0).1
    have hpos : posOf (n / k) (n % k) r' ≠ 0 := by
      intro h0
      rw [← hg, h0] at b
      omega
    have hp : predOf (n / k) (n % k) r' ≠ -1 :=
      fun h => hpos ((predOf_none_iff hs hm0 hr'0).1 h)
    have h2 := inv.order r' hr'0 hr' hp hge
    have hg' := (pred_link hk hkn hr'0 hp).2.2.1
    exact ih r (r' - 1) hr0 (by omega) (by push_cast at hd ⊢; omega) (by rw [hg', hg])
      (by omega)

/-! ### Concurrent executions: the log of calls -/

/-- Counting the files given to rank `q` after the calls of one function call of `r`. -/
theorem opensBy_append (l : List (Int × Effect)) (r : Int) (tr : List Effect) (q : Int) :
    opensBy (l ++ rankEvents r tr) q = opensBy l q +
      (if q = r then (tr.filter (fun e => e.isCreate || e.isOpen)).length else 0) := by
  unfold opensBy rankEvents
  rw [List.filter_append, List.length_append]
  congr 1
  induction tr with
  | nil => simp
  | cons e tr ih =>
    by_cases h : q = r
    · subst h
      rw [if_pos rfl] at ih ⊢
      simp only [List.map_cons, List.filter_cons, beq_self_eq_true, Bool.true_and]
      cases e.isCreate || e.isOpen <;> simp [ih]
    · rw [if_neg h] at ih ⊢
      have hb : (r == q) = false := by
        rw [beq_eq_false_iff_ne]; exact fun h' => h h'.symm
      simp only [List.map_cons, List.filter_cons, hb, Bool.false_and]
      exact ih

/-- Counting the close callbacks of rank `q` after the calls of one function call of `r`. -/
theorem closesBy_append (l : List (Int × Effect)) (r : Int) (tr : List Effect) (q : Int) :
    closesBy (l ++ rankEvents r tr) q = closesBy l q +
      (if q = r then (tr.filter Effect.isClose).length else 0) := by
  unfold closesBy rankEvents
  rw [List.filter_append, List.length_append]
  congr 1
  induction tr with
  | nil => simp
  | cons e tr ih =>
    by_cases h : q = r
    · subst h
      rw [if_pos rfl] at ih ⊢
      simp only [List.map_cons, List.filter_cons, beq_self_eq_true, Bool.true_and]
      cases e.isClose <;> simp [ih]
    · rw [if_neg h] at ih ⊢
      have hb : (r == q) = false := by
        rw [beq_eq_false_iff_ne]; exact fun h' => h h'.symm
      simp only [List.map_cons, List.filter_cons, hb, Bool.false_and]
      exact ih

/-- A longer log counts at least as many calls. -/
theorem counts_mono (l a : List (Int × Effect)) (q : Int) :
    opensBy l q ≤ opensBy (l ++ a) q ∧ closesBy l q ≤ closesBy (l ++ a) q := by
  unfold opensBy closesBy
  rw [List.filter_append, List.length_append, List.filter_append, List.length_append]
  omega

/-- The log part of the invariant survives a step in which rank `r` makes the call `e`:
a create or open callback moves `r` from before the file to holding it, a close
callback from holding it to past it, and any other call leaves it where it is. -/
theorem concLogInv_core {n k : Int} (hk : 1 ≤ k) (hkn : k ≤ n)
    {ioFlags : MACSIO_MIF_ioFlags_t} {mpiComm mpiTag : Int}
    {createCb : MACSIO_MIF_CreateCB} {openCb : MACSIO_MIF_OpenCB}
    {closeCb : MACSIO_MIF_CloseCB} {clientData : Ptr} {s s' : ConcState}
    (inv' : ConcInv k ioFlags mpiComm n mpiTag createCb openCb closeCb clientData s')
    (linv : ConcLogInv k n s) {r : Int} (e : Effect) (c : Nat)
    (hfp : filePhase s' = Function.update (filePhase s) r c)
    (hlog : s'.log = s.log ++ rankEvents r [e])
    (hcase : (filePhase s r = 0 ∧ c = 1 ∧ (e.isCreate || e.isOpen) = true ∧
        e.isClose = false ∧ 1 ≤ netPhase s' r) ∨
      (filePhase s r = 1 ∧ c = 2 ∧ (e.isCreate || e.isOpen) = false ∧ e.isClose = true) ∨
      (c = filePhase s r ∧ (e.isCreate || e.isOpen) = false ∧ e.isClose = false)) :
    ConcLogInv k n s' := by
  have pcr : filePhase s' r = c := by rw [hfp]; simp
  have pcne : ∀ q, q ≠ r → filePhase s' q = filePhase s q := by
    intro q hq; rw [hfp]; simp [Function.update_apply, hq]
  have hopens : ∀ b : Bool, (e.isCreate || e.isOpen) = b →
      ([e].filter (fun e => e.isCreate || e.isOpen)).length = if b then 1 else 0 := by
    intro b hb
    cases b <;> simp [List.filter, hb]
  have hcloses : ∀ b : Bool, e.isClose = b →
      ([e].filter Effect.isClose).length = if b then 1 else 0 := by
    intro b hb
    cases b <;> simp [List.filter, hb]
  refine ⟨?_, ?_, ?_⟩
  · intro q
    rw [hlog, opensBy_append, linv.opens q]
    by_cases hq : q = r
    · subst hq
      rw [if_pos rfl, pcr]
      rcases hcase with ⟨h0, hc, ho, _, _⟩ | ⟨h0, hc, ho, _⟩ | ⟨hc, ho, _⟩
      · rw [h0, hc, hopens _ ho]; rfl
      · rw [h0, hc, hopens _ ho]; rfl
      · rw [hc, hopens _ ho]; rfl
    · rw [if_neg hq, pcne q hq]; rfl
  · intro q
    rw [hlog, closesBy_append, linv.closes q]
    by_cases hq : q = r
    · subst hq
      rw [if_pos rfl, pcr]
      rcases hcase with ⟨h0, hc, _, hcl, _⟩ | ⟨h0, hc, _, hcl⟩ | ⟨hc, _, hcl⟩
      · rw [h0, hc, hcloses _ hcl]; rfl
      · rw [h0, hc, hcloses _ hcl]; rfl
      · rw [hc, hcloses _ hcl]; rfl
    · rw [if_neg hq, pcne q hq]; rfl
  · intro l1 l2 q e0 hdec hopen q' hq'0 hlt hqn hg
    -- a file given by this step: the lower ranks of the group are past the file
    have hnew : ∀ a : List (Int × Effect), l1 = s.log ++ a → (q, e0) = (r, e) →
        1 ≤ opensBy l1 q' ∧ 1 ≤ closesBy l1 q' := by
      intro a hl1 heq
      have hqr : q = r := congrArg Prod.fst heq
      have hee : e0 = e := congrArg Prod.snd heq
      subst hqr
      subst hee
      rcases hcase with ⟨_, _, _, _, h1⟩ | ⟨_, _, ho, _⟩ | ⟨_, ho, _⟩
      · obtain ⟨d, hd⟩ : ∃ d : Nat, q = q' + 1 + d :=
          ⟨(q - q' - 1).toNat, by omega⟩
        have h2 := filePhase_of_netPhase
          (concInv_ascending hk hkn inv' d q' q hq'0 hqn hd hg h1)
        rw [pcne q' (by omega)] at h2
        have ho := linv.opens q'
        have hcl := linv.closes q'
        rw [h2] at ho hcl
        have hm := counts_mono s.log a q'
        rw [hl1]
        have ho' : opensBy s.log q' = 1 := ho.trans rfl
        have hcl' : closesBy s.log q' = 1 := hcl.trans rfl
        omega
      · rw [ho] at hopen; cases hopen
      · rw [ho] at hopen; cases hopen
    rw [hlog] at hdec
    have hev : rankEvents r [e] = [(r, e)] := rfl
    rw [hev] at hdec
    rcases List.append_eq_append_iff.1 hdec with ⟨a', h1, h2⟩ | ⟨c', h1, h2⟩
    · cases a' with
      | nil =>
        rw [List.nil_append] at h2
        exact hnew [] h1 (List.cons.inj h2).1.symm
      | cons x a'' =>
        rw [List.cons_append] at h2
        have := (List.cons.inj h2).2
        exact absurd this.symm (by simp)
    · cases c' with
      | nil =>
        rw [List.nil_append] at h2
        exact hnew [] (by rw [List.append_nil] at h1 ⊢; exact h1.symm)
          (List.cons.inj h2).1
      | cons x c'' =>
        rw [List.cons_append] at h2
        have hx : (q, e0) = x := (List.cons.inj h2).1
        subst hx
        exact linv.before l1 c'' q e0 h1 hopen q' hq'0 hlt hqn hg

/-- Every state of a concurrent execution from the start state satisfies the invariant,
with its log part, and the shape of the calls still to be made. -/
theorem concLogInv_reachable {n k : Int} (hk : 1 ≤ k) (hkn : k ≤ n) (hn : n ≤ INT_MAX)
    (ioFlags : MACSIO_MIF_ioFlags_t) (mpiComm mpiTag : Int)
    (createCb : MACSIO_MIF_CreateCB) (openCb : MACSIO_MIF_OpenCB)
    (closeCb : MACSIO_MIF_CloseCB) (clientData : Ptr)
    (scr : ScrEnv) (fname nsname : String) (s : ConcState)
    (h : ConcReachable scr fname nsname
      (concStart k ioFlags mpiComm n mpiTag createCb openCb closeCb clientData) s) :
    ConcInv k ioFlags mpiComm n mpiTag createCb openCb closeCb clientData s ∧
      ConcShape k n mpiTag s ∧ ConcLogInv k n s := by
  induction h with
  | start =>
    refine ⟨concInv_start hk hkn hn ioFlags mpiComm mpiTag createCb openCb closeCb
      clientData, fun _ _ _ => Or.inl rfl, ⟨fun _ => rfl, fun _ => rfl, ?_⟩⟩
    intro l1 l2 q e hdec
    have : (concStart k ioFlags mpiComm n mpiTag createCb openCb closeCb clientData).log
      = [] := rfl
    rw [this] at hdec
    exact absurd hdec (by simp)
  | step s s' _ hstep ih =>
    obtain ⟨inv, shp, linv⟩ := ih
    obtain ⟨inv', shp'⟩ := concInv_step hk hkn inv shp hstep
    refine ⟨inv', shp', ?_⟩
    obtain ⟨r, c, p, e, hr0, hr, hpc, hpd, hbat, hfail, hlog, hcase⟩ :=
      conc_step_cases hk hkn inv shp hstep
    obtain ⟨hnp, hfp⟩ := phase_update hpc hpd
    rcases hcase with ⟨h0, hp0, hc, hp, _, ho, hcl, _⟩ |
      ⟨h0, hp0, hc, hp, _, ho, hcl, _, _⟩ | ⟨h0, hp0, hc, hp, ho, hcl, _⟩ |
      ⟨h0, hp0, hc, hp, _, ho, hcl, _⟩ | ⟨h0, hp0, hc, hp, _, ho, hcl, _⟩ |
      ⟨h0, hp0, hc, hp, _, ho, hcl, _⟩
    · refine concLogInv_core hk hkn inv' linv e 1 (by rw [hfp, hc, hp]; rfl) hlog
        (Or.inl ⟨by simp [filePhase, h0], rfl, ho, hcl, ?_⟩)
      rw [hnp, hc, hp]; simp
    · obtain ⟨e', he', _⟩ := hp
      refine concLogInv_core hk hkn inv' linv e 0 (by rw [hfp, hc, he']; rfl) hlog
        (Or.inr (Or.inr ⟨by simp [filePhase, h0], ho, hcl⟩))
    · refine concLogInv_core hk hkn inv' linv e 1 (by rw [hfp, hc, hp]; rfl) hlog
        (Or.inl ⟨by simp [filePhase, h0, hp0], rfl, ho, hcl, ?_⟩)
      rw [hnp, hc, hp]; simp
    · exact concLogInv_core hk hkn inv' linv e 2 (by rw [hfp, hc, hp]; rfl) hlog
        (Or.inr (Or.inl ⟨by simp [filePhase, h0, hp0], rfl, ho, hcl⟩))
    · exact concLogInv_core hk hkn inv' linv e 2 (by rw [hfp, hc, hp]; rfl) hlog
        (Or.inr (Or.inl ⟨by simp [filePhase, h0, hp0], rfl, ho, hcl⟩))
    · exact concLogInv_core hk hkn inv' linv e 2 (by rw [hfp, hc, hp]; rfl) hlog
        (Or.inr (Or.inr ⟨by simp [filePhase, h0], ho, hcl⟩))

/-- A rank that holds the file open in the log stands between its create or open
callback and its close callback. -/
theorem filePhase_of_holdsOpen {k n : Int} {s : ConcState} (linv : ConcLogInv k n s)
    {r : Int} (h : holdsOpen s.log r = true) : filePhase s r = 1 ∧ 1 ≤ netPhase s r := by
  unfold holdsOpen at h
  have h := of_decide_eq_true h
  rw [linv.opens r, linv.closes r] at h
  have hf : filePhase s r = 1 := by
    by_cases h0 : filePhase s r = 0
    · rw [if_pos h0] at h; omega
    · by_cases h2 : filePhase s r = 2
      · rw [if_pos h2, if_neg h0] at h; omega
      · unfold filePhase at h0 h2 ⊢
        by_cases a : s.pc r = 0
        · rw [if_pos a] at h0; omega
        · rw [if_neg a] at h0 h2 ⊢
          by_cases b : s.pc r = 1
          · rw [if_pos b] at h0 ⊢
            by_cases c : s.pending r = []
            · rw [if_pos c]
            · rw [if_neg c] at h0; omega
          · rw [if_neg b] at h2; omega
  refine ⟨hf, ?_⟩
  unfold filePhase at hf
  unfold netPhase
  by_cases a : s.pc r = 0
  · rw [if_pos a] at hf; omega
  · rw [if_neg a]
    by_cases b : s.pc r = 2 ∧ s.pending r = []
    · rw [if_pos b]; omega
    · rw [if_neg b]

/-- C17: for `1 ≤ numGroups ≤ commSize`, in every state of every concurrent execution in
which each participant runs `MACSIO_MIF_WaitForBaton`, then `MACSIO_MIF_HandOffBaton`,
on the baton `MACSIO_MIF_Init` gave it, over a transport without failure, the calls of
the participants (receive, create, open, close, send) interleaved one call at a time
and a receive completing only when its message has arrived: at most one participant
of a group holds the file open (its create or open callback has run and its close
callback has not); whenever a participant with a predecessor was given a file, the
close callback of the predecessor had run before; and whenever a participant was given
a file, every participant of its group with a smaller `rankInGroup` had been given the
file and had closed it before. -/
theorem C17_group_mutual_exclusion (numGroups commSize : Int) (hk : 1 ≤ numGroups)
    (hkn : numGroups ≤ commSize) (hn : commSize ≤ INT_MAX)
    (ioFlags : MACSIO_MIF_ioFlags_t) (mpiComm mpiTag : Int)
    (createCb : MACSIO_MIF_CreateCB) (openCb : MACSIO_MIF_OpenCB)
    (closeCb : MACSIO_MIF_CloseCB) (clientData : Ptr)
    (scr : ScrEnv) (fname nsname : String) (s : ConcState)
    (hreach : ConcReachable scr fname nsname
      (concStart numGroups ioFlags mpiComm commSize mpiTag createCb openCb closeCb
        clientData) s) :
    (∀ r r', 0 ≤ r → r < commSize → 0 ≤ r' → r' < commSize →
        initGroupRank numGroups commSize r = initGroupRank numGroups commSize r' →
        holdsOpen s.log r = true → holdsOpen s.log r' = true → r = r') ∧
      (∀ l1 l2 r e, s.log = l1 ++ (r, e) :: l2 → (e.isCreate || e.isOpen) = true →
        0 ≤ r → r < commSize →
        ∀ p, initProcBefore numGroups commSize r = some p → p ≠ -1 → 1 ≤ closesBy l1 p) ∧
      (∀ l1 l2 r' e, s.log = l1 ++ (r', e) :: l2 → (e.isCreate || e.isOpen) = true →
        ∀ r g i i', 0 ≤ r → r < commSize → 0 ≤ r' → r' < commSize →
        initPair numGroups commSize r = some (g, i) →
        initPair numGroups commSize r' = some (g, i') → i < i' →
        1 ≤ opensBy l1 r ∧ 1 ≤ closesBy l1 r) := by
  obtain ⟨inv, _, linv⟩ := concLogInv_reachable hk hkn hn ioFlags mpiComm mpiTag createCb
    openCb closeCb clientData scr fname nsname s hreach
  obtain ⟨hs, hm0, _, _, _⟩ := divmod_facts hk hkn
  have hexcl : ∀ r r', 0 ≤ r → r' < commSize → r < r' →
      grpOf (commSize / numGroups) (commSize % numGroups) r =
        grpOf (commSize / numGroups) (commSize % numGroups) r' →
      holdsOpen s.log r = true → holdsOpen s.log r' = true → False := by
    intro r r' hr0 hr' hlt hg h1 h2
    obtain ⟨d, hd⟩ : ∃ d : Nat, r' = r + 1 + d := ⟨(r' - r - 1).toNat, by omega⟩
    have h3 := filePhase_of_netPhase (concInv_ascending hk hkn inv d r r' hr0 hr' hd hg
      (filePhase_of_holdsOpen linv h2).2)
    have h4 := (filePhase_of_holdsOpen linv h1).1
    omega
  refine ⟨?_, ?_, ?_⟩
  · intro r r' hr0 hr hr'0 hr' hg h1 h2
    rw [initGroupRank_eq hk hkn hn hr0 hr, initGroupRank_eq hk hkn hn hr'0 hr'] at hg
    have hg := Option.some.inj hg
    rcases lt_trichotomy r r' with h | h | h
    · exact (hexcl r r' hr0 hr' h hg h1 h2).elim
    · exact h
    · exact (hexcl r' r hr'0 hr h hg.symm h2 h1).elim
  · intro l1 l2 r e hdec hopen hr0 hr p hp hne
    rw [initProcBefore_eq hk hkn hn hr0 hr] at hp
    have hp := Option.some.inj hp
    rw [← hp] at hne
    obtain ⟨e1, e2, e3, _⟩ := pred_link hk hkn hr0 hne
    rw [← hp, e1]
    exact (linv.before l1 l2 r e hdec hopen (r - 1) (by omega) (by omega) hr e3).2
  · intro l1 l2 r' e hdec hopen r g i i' hr0 hr hr'0 hr' hp hp' hlt
    rw [initPair_eq hk hkn hn hr0 hr] at hp
    rw [initPair_eq hk hkn hn hr'0 hr'] at hp'
    have a1 := congrArg Prod.fst (Option.some.inj hp)
    have a2 := congrArg Prod.snd (Option.some.inj hp)
    have b1 := congrArg Prod.fst (Option.some.inj hp')
    have b2 := congrArg Prod.snd (Option.some.inj hp')
    simp only at a1 a2 b1 b2
    have d1 := (rank_decomp hs hm0 hr0).1
    have d2 := (rank_decomp hs hm0 hr'0).1
    rw [a1, a2] at d1
    rw [b1, b2] at d2
    exact linv.before l1 l2 r' e hdec hopen r hr0 (by omega) hr' (by rw [a1, b1])

/-- C17 at the demo group of three: the state in which rank 0 has created the file,
closed it and sent the baton and rank 1 has received the baton and opened the file is
reached through the state in which rank 0 has closed the file and not yet sent the
baton; there nothing is in flight and the receive of rank 1 cannot complete, and at
the end rank 1 holds the file open and rank 0 does not. -/
theorem C17_group_mutual_exclusion_witness :
    ConcReachable noScr "f.dat" "ns" demoConcStart demoConcState ∧
      demoConcClosed.log = [(0, Effect.createCb "f.dat" "ns" 0), (0, Effect.closeCb 100 0)] ∧
      demoConcClosed.net.inflight = [] ∧
      demoConcClosed.pending 0 = [Effect.MPI_Ssend 0 1 7] ∧
      headEnabled 1 0 demoConcClosed.net
        ((enterWait noScr "f.dat" "ns" demoConcClosed 1 (demoBaton 1)).pending 1) = false ∧
      demoConcState.log = [(0, Effect.createCb "f.dat" "ns" 0), (0, Effect.closeCb 100 0),
        (0, Effect.MPI_Ssend 0 1 7), (1, Effect.MPI_Recv 0 7),
        (1, Effect.openCb "f.dat" "ns" ⟨true, false⟩ 0)] ∧
      holdsOpen demoConcState.log 1 = true ∧ holdsOpen demoConcState.log 0 = false ∧
      ((∀ r r', 0 ≤ r → r < 3 → 0 ≤ r' → r' < 3 →
        initGroupRank 1 3 r = initGroupRank 1 3 r' →
        holdsOpen demoConcState.log r = true → holdsOpen demoConcState.log r' = true →
        r = r') ∧
      (∀ l1 l2 r e, demoConcState.log = l1 ++ (r, e) :: l2 →
        (e.isCreate || e.isOpen) = true → 0 ≤ r → r < 3 →
        ∀ p, initProcBefore 1 3 r = some p → p ≠ -1 → 1 ≤ closesBy l1 p) ∧
      (∀ l1 l2 r' e, demoConcState.log = l1 ++ (r', e) :: l2 →
        (e.isCreate || e.isOpen) = true →
        ∀ r g i i', 0 ≤ r → r < 3 → 0 ≤ r' → r' < 3 →
        initPair 1 3 r = some (g, i) → initPair 1 3 r' = some (g, i') → i < i' →
        1 ≤ opensBy l1 r ∧ 1 ≤ closesBy l1 r)) :=
  have hreach : ConcReachable noScr "f.dat" "ns" demoConcStart demoConcState :=
    ConcReachable.step _ _
      (ConcReachable.step _ _
        (ConcReachable.step _ _
          (ConcReachable.step _ _
            (ConcReachable.step _ _ ConcReachable.start
              (ConcStep.wait demoConcStart 0 (demoBaton 0) rfl rfl rfl rfl))
            (ConcStep.handOff _ 0 (demoBaton 0) rfl rfl rfl rfl))
          (ConcStep.next demoConcClosed 0 (demoBaton 0)
            (fun h => List.noConfusion (h : [Effect.MPI_Ssend 0 1 7] = [])) rfl rfl))
        (ConcStep.wait _ 1 (demoBaton 1) rfl rfl rfl rfl))
      (ConcStep.next _ 1 (demoBaton 1)
        (fun h => List.noConfusion
          (h : [Effect.openCb "f.dat" "ns" ⟨true, false⟩ 0] = [])) rfl rfl)
  ⟨hreach, rfl, rfl, rfl, rfl, rfl, rfl, rfl,
    C17_group_mutual_exclusion 1 3 (by decide) (by decide) (by decide) ⟨true, false⟩ 0 7
      demoCreate demoOpen demoClose 0 noScr "f.dat" "ns" demoConcState hreach⟩

end MACSio
